import Mathlib

/-!
# WaSPR decoder: a shallow embedding of `decoder.cpp`

The development follows `src/source/decoder.cpp`.  Image buffers are lists of
samples, the input stream is a list of bytes, files written between pipeline
stages are kept in a store keyed by view index, and every call that touches a
file or an external codec is recorded in a log, in program order.  Functions
that are declared in headers outside the translated source are fields of
`Collaborators`.
-/

namespace WaSPR

/-! ## Data model -/

/-- Samples of an image buffer (`uint16_t` values). -/
abbrev Image := List Nat

/-- Input stream (`FILE*` opened for reading): the unread bytes and the
end-of-file indicator tested by `feof`. -/
structure FILE where
  bytes : List Nat
  eof : Bool
deriving DecidableEq

/-- One region's sparse filter (`sparse_filters` element); the dequantised
coefficients are `double` in the source and exact rationals here. -/
structure spfilter where
  quantized_filter_coefficients : List Int
  regressor_indexes : List Int
  filter_coefficients : List ℚ
deriving DecidableEq

/-- The fields of `view` that `decoder.cpp` reads or writes.  `references`
stands for the pair (`n_references`, `references`): its length is
`n_references`. -/
structure view where
  i_order : Nat
  r : Int
  c : Int
  nr : Nat
  nc : Nat
  ncomp : Nat
  colorspace : String
  SP_B : Nat
  nc_merge : Nat
  nc_sparse : Nat
  min_inv_d : Int
  level : Int
  references : List Nat
  mmode : Nat
  has_color_residual : Bool
  has_depth_residual : Bool
  use_global_sparse : Bool
  NNt : Nat
  Ms : Nat
  sparse_filters : List spfilter
deriving DecidableEq

/-- Number of texture references of a view (`SAI->n_references`). -/
def view.n_references (SAI : view) : Nat := SAI.references.length

/-- The members of `decoder` used by `decode_header` and `decode_views`. -/
structure decoder where
  gzipath : String
  input_LF : FILE
  n_bytes_prediction : Int
  n_bytes_residual : Int
  number_of_views : Int
  number_of_rows : Int
  number_of_columns : Int
  minimum_depth : Nat
  colorspace_LF : String
  maxh : Int
  nc_sparse : Nat
  nc_merge : Nat
  SP_B : Nat
  nc_color_ref : Nat
  n_seg_iterations : Nat
  USE_DEFLATE : Bool
  JP2_dict : List (List Nat)
  LF : List view
deriving DecidableEq

/-! ## `decode_header` -/

/-- Model of `fread(ptr, size, 1, f)`: one item of `size` bytes.  When fewer
than `size` bytes remain no item is returned, the remaining bytes are consumed
and the end-of-file indicator is set. -/
def fread (size : Nat) (f : FILE) : Option (List Nat) × FILE :=
  if size ≤ f.bytes.length then
    (some ((f.bytes.take size).map (fun b => b % 256)), { f with bytes := f.bytes.drop size })
  else
    (none, { bytes := [], eof := true })

/-- Value of a byte sequence read into an unsigned integer, least significant
byte first (the byte order of the machines the codec runs on). -/
def le_value : List Nat → Nat
  | [] => 0
  | b :: bs => b + 256 * le_value bs

/-- Reinterpretation of a 32-bit pattern as `int32_t`. -/
def to_int32 (n : Nat) : Int :=
  if n % 2 ^ 32 < 2 ^ 31 then ((n % 2 ^ 32 : Nat) : Int) else ((n % 2 ^ 32 : Nat) : Int) - 2 ^ 32

/-- Return value of `fread` with `count = 1`: the number of items read. -/
def items (r : Option (List Nat)) : Int := if r.isSome then 1 else 0

/-- The twelve `fread` calls of `decode_header`, in source order (`r1` to
`r12`, each reading from the stream left by the one before), followed by
`USE_DEFLATE = usedeflate`.  A variable whose read fails keeps its value;
`usedeflate` is initialised to 0 in the source, and `colorspace_enumerator`,
which is not initialised, is taken to be neither 0 nor 1 when its read fails.  Each call adds the number of
items read times the `sizeof` factor written in the source to
`n_bytes_prediction`. -/
def read_header_fields (d : decoder) : decoder :=
  let r1 := fread 4 d.input_LF    -- number_of_views, int32_t
  let r2 := fread 4 r1.2          -- number_of_rows, int32_t
  let r3 := fread 4 r2.2          -- number_of_columns, int32_t
  let r4 := fread 2 r3.2          -- minimum_depth, uint16_t
  let r5 := fread 1 r4.2          -- colorspace_enumerator, uint8_t
  let r6 := fread 4 r5.2          -- maxh, int32_t, counted with sizeof(uint8_t)
  let r7 := fread 1 r6.2          -- nc_sparse, uint8_t
  let r8 := fread 1 r7.2          -- nc_merge, uint8_t
  let r9 := fread 1 r8.2          -- SP_B, uint8_t
  let r10 := fread 1 r9.2         -- nc_color_ref, uint8_t
  let r11 := fread 1 r10.2        -- n_seg_iterations, uint8_t
  let r12 := fread 1 r11.2        -- usedeflate, uint8_t
  { d with
    input_LF := r12.2
    number_of_views := (r1.1.map (fun b => to_int32 (le_value b))).getD d.number_of_views
    number_of_rows := (r2.1.map (fun b => to_int32 (le_value b))).getD d.number_of_rows
    number_of_columns := (r3.1.map (fun b => to_int32 (le_value b))).getD d.number_of_columns
    minimum_depth := (r4.1.map le_value).getD d.minimum_depth
    colorspace_LF :=
      if r5.1.map le_value = some 1 then "YCbCr"
      else if r5.1.map le_value = some 0 then "RGB"
      else d.colorspace_LF
    maxh := (r6.1.map (fun b => to_int32 (le_value b))).getD d.maxh
    nc_sparse := (r7.1.map le_value).getD d.nc_sparse
    nc_merge := (r8.1.map le_value).getD d.nc_merge
    SP_B := (r9.1.map le_value).getD d.SP_B
    nc_color_ref := (r10.1.map le_value).getD d.nc_color_ref
    n_seg_iterations := (r11.1.map le_value).getD d.n_seg_iterations
    USE_DEFLATE := decide ((r12.1.map le_value).getD 0 ≠ 0)
    n_bytes_prediction :=
      d.n_bytes_prediction + items r1.1 * 4 + items r2.1 * 4 + items r3.1 * 4 + items r4.1 * 2
        + items r5.1 * 1 + items r6.1 * 1 + items r7.1 * 1 + items r8.1 * 1 + items r9.1 * 1
        + items r10.1 * 1 + items r11.1 * 1 + items r12.1 * 1 }

/-- Unsigned value of the `size` bytes of a stream that start at offset `off`,
least significant byte first. -/
def field (bs : List Nat) (off size : Nat) : Nat :=
  le_value (((bs.drop off).take size).map (fun b => b % 256))

/-- Model of `decoder::decode_header`: the field reads, then the gzip check.
`Except.error` is `exit(0)`; it carries the decoder state at that point. -/
def decode_header (d : decoder) : Except decoder decoder :=
  let d1 := read_header_fields d
  if d1.USE_DEFLATE && d1.gzipath.length == 0 then
    Except.error d1
  else
    Except.ok d1

/-! ## Buffers, files and the log -/

/-- A zero-initialised buffer of `n` samples (`new uint16_t[n]()`). -/
def zeros (n : Nat) : Image := List.replicate n 0

/-- The `len` samples of `buf` that start at offset `off` (what a callee sees
through the pointer `buf + off` and a sample count `len`). -/
def slice (buf : Image) (off len : Nat) : Image := (buf.drop off).take len

/-- Copy of `src` into `dst` starting at offset `off` (`memcpy(dst + off, src,
...)` with the byte count of `src`).  The buffer keeps its length: samples
that would fall behind its end are not stored. -/
def poke (dst : Image) (off : Nat) (src : Image) : Image :=
  dst.take off ++ (src ++ dst.drop (off + src.length)).take (dst.length - off)

/-- Calls of `decode_views` that touch a file or an external codec, with the
index of the view they act for.  `read_out_pgm` and `read_internal_ppm` are
the two `aux_read16PGMPPM` calls of `forward_warp_texture_references`
(`reader` is the view being predicted, `ref` the reference view that is read);
`read_internal_ppm_sparse` is the read of the reference texture in the global
sparse filter step. -/
inductive Event where
  | read_texture_residual (ii : Nat)
  | read_depth_residual (ii : Nat)
  | decodeHM (hlevel : Int)
  | write_raw_texture_residual (ii : Nat)
  | decodeKakadu (ii : Nat)
  | read_decoded_depth (ii : Nat)
  | WaSP_predict_depth (ii : Nat)
  | medfilt2D (ii : Nat)
  | write_out_pgm (ii : Nat)
  | read_out_pgm (reader ref : Nat)
  | read_internal_ppm (reader ref : Nat)
  | read_internal_ppm_sparse (reader ref : Nat)
  | read_raw_texture_residual (ii : Nat)
  | dequantize_residual (ii : Nat) (bpc Q offset : Int)
  | apply_residual (ii : Nat)
  | write_internal_ppm (ii : Nat)
  | write_output_ppm (ii : Nat)
deriving DecidableEq, Repr

/-- The files of the output directory and the log of calls.  Every file is
keyed by the index of the view whose path member names it (`setPaths` is taken
to give different views different paths); `none` is a file that has not been
written. -/
structure Disk where
  hevc_texture : Nat → Option (List Nat)
  jp2_residual_depth : Nat → Option (List Nat)
  raw_texture_residual : Nat → Option Image
  out_pgm : Nat → Option Image
  internal_ppm : Nat → Option Image
  out_ppm : Nat → Option Image
  log : List Event

/-- An empty output directory and an empty log. -/
def Disk.empty : Disk :=
  { hevc_texture := fun _ => none, jp2_residual_depth := fun _ => none,
    raw_texture_residual := fun _ => none, out_pgm := fun _ => none,
    internal_ppm := fun _ => none, out_ppm := fun _ => none, log := [] }

/-- Result of `aux_read16PGMPPM`, whose status `decoder.cpp` never tests: the
samples of the file, none for a file that does not exist. -/
def read_image (file : Option Image) : Image := file.getD []

/-! ## Collaborators -/

/-- Output of one `warpView0_to_View1` call: the warped texture, the warped
inverse depth and the disparity buffer (`float` in the source). -/
structure Warped where
  texture : Image
  depth : Image
  DispTarg : List ℚ

/-- Working buffers that `initViewW` attaches to a view for merging. -/
structure ViewW where
  seg_vp : List Nat
  bmask : List Bool
  merge_weights : List ℚ

/-- The members of `segmentation` (segmentation.hh). -/
structure segmentation where
  seg : List Int
  region_histogram : List Int
  region_sizes : List (Int × Int)
  number_of_regions : Nat

/-- Third argument of `convertYUVseqTo444`. -/
inductive YUVformat where
  | YUVTYPE
  | YUV444
  | YUV400
deriving DecidableEq

/-- Constants and functions that `decoder.cpp` uses and that are declared in
headers outside the translated source.  Pure functions of their arguments;
`double` and `float` values are exact rationals. -/
structure Collaborators where
  /-- Constant of WaSPConf.hh. -/
  MEDFILT_DEPTH : Bool
  /-- Constant of WaSPConf.hh. -/
  BIT_DEPTH : Nat
  /-- Constant of WaSPConf.hh. -/
  SPARSE_BIAS_TERM : Nat
  /-- View left by `initView`. -/
  initView : view
  /-- Views after `viewParametersConstruct` in mode "decode": arguments are
  the views, the deflated bytes and the gzip path. -/
  viewParametersConstruct : List view → List Nat → String → List view
  /-- Outputs `n_bytes_prediction`, the view and the stream. -/
  codestreamToViewHeader : Int → view → FILE → Int × view × FILE
  /-- Outputs the bytes stored in the named file, `n_bytes_residual`, the
  stream and the dictionary. -/
  readResidualFromDisk : Int → FILE → List (List Nat) → List Nat × Int × FILE × List (List Nat)
  get_highest_level : List view → Int
  getScanOrder : List view → List Nat → List Nat
  /-- Frames of `decodeHM` followed by `convertYUVseqTo444`: arguments are the
  coded file, the format, the padded rows and columns and the frame count. -/
  convertYUVseqTo444 : Option (List Nat) → YUVformat → Int → Int → Nat → List Image
  cropImage_for_HM : Image → Int → Int → Nat → Int → Int → Image
  /-- Image that `decodeKakadu` writes for a coded file. -/
  decodeKakadu : Option (List Nat) → Image
  /-- Inverse depth left in `SAI->depth`: arguments are the views, the index
  of the view, the inverse-depth files and the buffer on entry. -/
  WaSP_predict_depth : List view → Nat → (Nat → Option Image) → Image → Image
  medfilt2D : Image → Nat → Nat → Nat → Image
  /-- Arguments: the reference view (none for an index outside the array), its
  inverse depth and texture as read from its files, and the target view. -/
  warpView0_to_View1 : Option view → Image → Image → view → Warped
  initViewW : view → List (List ℚ) → ViewW
  mergeWarped_N_icomp : List Image → view → ViewW → Nat → Image → Image
  getGeomWeight_icomp : view → List view → Nat → ViewW → ViewW
  mergeMedian_N : List Image → List (List ℚ) → view → ViewW → Nat → Image → Image
  /-- Component after hole filling: arguments are the component, rows,
  columns, the hole value and `seg_vp`. -/
  holefilling : Image → Nat → Nat → Nat → List Nat → Image
  /-- Arguments: the view, its inverse depth, the iteration count. -/
  makeSegmentation : view → Image → Nat → segmentation
  padArrayUint16_t_vec : Image → Nat → Nat → Nat → Image
  dequantize_and_reorder_spfilter : spfilter → spfilter
  /-- Value of the in-out argument `filtered_icomp` after the call. -/
  applyGlobalSparseFilter_vec_reg :
    List Image → List Int → Nat → Nat → Nat → Nat → Nat → Nat → List ℚ → List ℚ → List ℚ
  cropImage : Image → Nat → Nat → Nat → Image
  /-- Value of `clip(x, lo, hi)`. -/
  clip : ℚ → ℚ → ℚ → ℚ
  dequantize_residual : Image → Nat → Nat → Nat → Int → Int → Int → List ℚ
  apply_residual : Image → List ℚ → Nat → Nat → Nat → Int → Image
  /-- Image that `write_output_ppm` writes. -/
  write_output_ppm : Image → Nat → Nat → Nat → Int → String → Image

/-! ## `forward_warp_texture_references` and `merge_texture_views` -/

/-- Model of `decoder::forward_warp_texture_references`: for each reference in
order, read its inverse depth and its texture from their files and warp them to
the target view.  Returns the calls made and the warped buffers. -/
def forward_warp_texture_references (env : Collaborators) (LF : List view) (s : Disk)
    (ii : Nat) (SAI : view) : List Nat → List Event × List Warped
  | [] => ([], [])
  | ref :: refs =>
    let depth := read_image (s.out_pgm ref)
    let color := read_image (s.internal_ppm ref)
    let w := env.warpView0_to_View1 LF[ref]? depth color SAI
    let rest := forward_warp_texture_references env LF s ii SAI refs
    (Event.read_out_pgm ii ref :: Event.read_internal_ppm ii ref :: rest.1, w :: rest.2)

/-- One `holefilling` call on component `icomp` of the texture, in place. -/
def holefilling_icomp (env : Collaborators) (SAI : view) (W : ViewW) (color : Image)
    (icomp : Nat) : Image :=
  poke color (icomp * SAI.nr * SAI.nc)
    ((env.holefilling (slice color (icomp * SAI.nr * SAI.nc) (SAI.nr * SAI.nc))
      SAI.nr SAI.nc 0 W.seg_vp).take (SAI.nr * SAI.nc))

/-- Model of `decoder::merge_texture_views`: the texture `SAI->color` after
merging and hole filling, by merge mode. -/
def merge_texture_views (env : Collaborators) (LF : List view) (SAI : view)
    (warped : List Warped) (color : Image) : Image :=
  let warped_texture_views := warped.map (fun w => w.texture)
  let DispTargs := warped.map (fun w => w.DispTarg)
  let W := env.initViewW SAI DispTargs
  let color0 :=
    if SAI.mmode = 0 then
      let merged := (List.range SAI.ncomp).foldl
        (fun col icomp => env.mergeWarped_N_icomp warped_texture_views SAI W icomp col) color
      (List.range SAI.ncomp).foldl (holefilling_icomp env SAI W) merged
    else color
  let color1 :=
    if SAI.mmode = 1 then
      let W1 := (List.range SAI.ncomp).foldl
        (fun w icomp => env.getGeomWeight_icomp SAI LF icomp w) W
      let merged := (List.range SAI.ncomp).foldl
        (fun col icomp => env.mergeWarped_N_icomp warped_texture_views SAI W1 icomp col) color0
      (List.range 3).foldl (holefilling_icomp env SAI W1) merged
    else color0
  if SAI.mmode = 2 then
    let merged := env.mergeMedian_N warped_texture_views DispTargs SAI W 3 color1
    (List.range 3).foldl (holefilling_icomp env SAI W) merged
  else color1

/-! ## Global sparse filter step of `predict_texture_view` -/

/-- Conversion `static_cast<uint16_t>` of a non-negative integral value. -/
def to_uint16 (z : Int) : Nat := z.toNat % 2 ^ 16

/-- Sample stored for one filter output (source lines 526 to 532):
`mmax = (1 << BIT_DEPTH) - 1`, `clip(x, 0.0, mmax)`, then
`static_cast<uint16_t>(floor(x + 0.5))`, in exact arithmetic. -/
def sparse_sample (env : Collaborators) (x : ℚ) : Nat :=
  let mmax : ℚ := (((1 <<< env.BIT_DEPTH : Nat) : Int) - 1 : Int)
  to_uint16 (Int.floor (env.clip x 0 mmax + 1 / 2))

/-- Number of samples of one padded component,
`(nr + 2 * NNt) * (nc + 2 * NNt)`. -/
def padded_size (SAI : view) : Nat := (SAI.nr + 2 * SAI.NNt) * (SAI.nc + 2 * SAI.NNt)

/-- Region loop of the sparse filter step (`ir = 1 .. number_of_regions`, the
list holds `ir - 1`): filter `ee` is fetched with `.at(ee)`, dequantised and
applied to region `ir`, and `ee` is incremented.  `none` is the exception
`std::out_of_range` thrown by `.at`. -/
def sparse_regions (env : Collaborators) (SAI : view) (seg : segmentation)
    (padded_regressors : List Image) : List Nat → Nat → List ℚ → Option (Nat × List ℚ)
  | [], ee, filtered_icomp => some (ee, filtered_icomp)
  | k :: ks, ee, filtered_icomp =>
    match SAI.sparse_filters[ee]? with
    | none => none
    | some f =>
      let f1 := env.dequantize_and_reorder_spfilter f
      sparse_regions env SAI seg padded_regressors ks (ee + 1)
        (env.applyGlobalSparseFilter_vec_reg padded_regressors seg.seg (k + 1)
          (SAI.nr + 2 * SAI.NNt) (SAI.nc + 2 * SAI.NNt) SAI.Ms SAI.NNt env.SPARSE_BIAS_TERM
          f1.filter_coefficients filtered_icomp)

/-- Regressors of component `icomp`: the padded component of the predicted
texture, followed, when `SP_B` is set, by the padded component of every
reference texture. -/
def padded_regressors (env : Collaborators) (SP_B : Nat) (SAI : view) (ref_colors : List Image)
    (color : Image) (icomp : Nat) : List Image :=
  env.padArrayUint16_t_vec (slice color (SAI.nr * SAI.nc * icomp) (SAI.nr * SAI.nc))
      SAI.nr SAI.nc SAI.NNt ::
    (if SP_B ≠ 0 then
      ref_colors.map (fun rc =>
        env.padArrayUint16_t_vec (slice rc (SAI.nr * SAI.nc * icomp) (SAI.nr * SAI.nc))
          SAI.nr SAI.nc SAI.NNt)
    else [])

/-- Padded, clipped and rounded filter output of component `icomp` when the
first filter used is `ee` (region loop, then the loop over `iij` of source
lines 524 to 534); also returns `ee` after the region loop.  The collaborator
is taken to leave `filtered_icomp` at its size; an entry it removed reads as
0. -/
def filtered_component (env : Collaborators) (SP_B : Nat) (SAI : view) (seg : segmentation)
    (ref_colors : List Image) (color : Image) (icomp ee : Nat) : Option (Nat × Image) :=
  match sparse_regions env SAI seg (padded_regressors env SP_B SAI ref_colors color icomp)
      (List.range seg.number_of_regions) ee (List.replicate (padded_size SAI) 0) with
  | none => none
  | some (ee1, filtered_icomp) =>
    some (ee1, (List.range (padded_size SAI)).map
      (fun iij => sparse_sample env (filtered_icomp.getD iij 0)))

/-- Body of the component loop of the sparse filter step for the components
listed, threading `ee`, `sp_filtered_image_padded` and `sp_filtered_image`. -/
def sparse_components (env : Collaborators) (SP_B : Nat) (SAI : view) (seg : segmentation)
    (ref_colors : List Image) (color : Image) :
    List Nat → Nat → Image → Image → Option (Nat × Image × Image)
  | [], ee, sp_filtered_image_padded, sp_filtered_image =>
    some (ee, sp_filtered_image_padded, sp_filtered_image)
  | icomp :: rest, ee, sp_filtered_image_padded, sp_filtered_image =>
    match filtered_component env SP_B SAI seg ref_colors color icomp ee with
    | none => none
    | some (ee1, rounded) =>
      let padded1 := poke sp_filtered_image_padded (padded_size SAI * icomp) rounded
      let cropped_icomp :=
        env.cropImage (slice padded1 (padded_size SAI * icomp) (padded_size SAI))
          (SAI.nr + 2 * SAI.NNt) (SAI.nc + 2 * SAI.NNt) SAI.NNt
      sparse_components env SP_B SAI seg ref_colors color rest ee1 padded1
        (poke sp_filtered_image (SAI.nr * SAI.nc * icomp) (cropped_icomp.take (SAI.nr * SAI.nc)))

/-- Calls made by the loop that reads the decoded reference views. -/
def sparse_reads (ii : Nat) (references : List Nat) : List Event :=
  references.map (fun ref => Event.read_internal_ppm_sparse ii ref)

/-- Global sparse filter step (source lines 442 to 568): segmentation, read
of the reference textures, component loop, copy of `sp_filtered_image` back to
`SAI->color`.  Returns the calls made and the texture, `none` when `.at`
throws. -/
def global_sparse_filter (env : Collaborators) (d : decoder) (s : Disk) (ii : Nat) (SAI : view)
    (color depth : Image) : List Event × Option Image :=
  let seg := env.makeSegmentation SAI depth d.n_seg_iterations
  let ref_colors := SAI.references.map (fun ref => read_image (s.internal_ppm ref))
  let sp_filtered_image_padded := zeros (padded_size SAI * SAI.ncomp)
  let sp_filtered_image := slice color 0 (SAI.nr * SAI.nc * SAI.ncomp)
  match sparse_components env d.SP_B SAI seg ref_colors color (List.range d.nc_sparse) 0
      sp_filtered_image_padded sp_filtered_image with
  | none => (sparse_reads ii SAI.references, none)
  | some (_, _, filtered) =>
    (sparse_reads ii SAI.references, some (poke color 0 (filtered.take (SAI.nr * SAI.nc * SAI.ncomp))))

/-- Model of `decoder::predict_texture_view`.  Returns the calls made and the
texture left in `SAI->color`, `none` when `.at` throws. -/
def predict_texture_view (env : Collaborators) (d : decoder) (s : Disk) (ii : Nat) (SAI : view)
    (color depth : Image) : List Event × Option Image :=
  if SAI.n_references > 0 then
    let w := forward_warp_texture_references env d.LF s ii SAI SAI.references
    let merged := merge_texture_views env d.LF SAI w.2 color
    if SAI.use_global_sparse then
      let r := global_sparse_filter env d s ii SAI merged depth
      (w.1 ++ r.1, r.2)
    else (w.1, some merged)
  else ([], some color)

/-! ## `decode_views`: reconstruction of one view -/

/-- Inverse depth of view `ii` (source lines 777 to 806), starting from the
zero buffer `depth`: decoded from the coded depth residual and read back, or,
for a view without one whose level is at most `maxh`, predicted.  Returns the
calls made, the files after them and the buffer `SAI->depth`. -/
def reconstruct_depth (env : Collaborators) (d : decoder) (s : Disk) (ii : Nat) (SAI : view)
    (depth : Image) : List Event × Disk × Image :=
  if SAI.has_depth_residual then
    let decoded := env.decodeKakadu (s.jp2_residual_depth ii)
    let s1 := { s with out_pgm := Function.update s.out_pgm ii (some decoded) }
    ([Event.decodeKakadu ii, Event.read_decoded_depth ii], s1, read_image (s1.out_pgm ii))
  else if SAI.level ≤ d.maxh then
    ([Event.WaSP_predict_depth ii], s, env.WaSP_predict_depth d.LF ii s.out_pgm depth)
  else ([], s, depth)

/-- Median filtering of the inverse depth when `MEDFILT_DEPTH` is set (source
lines 808 to 823). -/
def medfilt_depth (env : Collaborators) (ii : Nat) (SAI : view) (depth : Image) :
    List Event × Image :=
  if env.MEDFILT_DEPTH then
    ([Event.medfilt2D ii],
      poke depth 0 ((env.medfilt2D depth 3 SAI.nr SAI.nc).take (SAI.nr * SAI.nc)))
  else ([], depth)

/-- Quantisation step `Q` and `offset` chosen for a view of the given level
(source lines 841 to 848). -/
def residual_quantization (level : Int) : Int × Int :=
  if level > 1 then (2, (((1 <<< 10 : Nat) : Int) - 1)) else (1, 0)

/-- Texture residual step (source lines 838 to 887).  Returns the calls made
and the texture `SAI->color` after the step. -/
def apply_texture_residual (env : Collaborators) (s : Disk) (ii : Nat) (SAI : view)
    (color : Image) : List Event × Image :=
  if SAI.has_color_residual then
    let Q := (residual_quantization SAI.level).1
    let offset := (residual_quantization SAI.level).2
    let decoded_residual_image := read_image (s.raw_texture_residual ii)
    let residual :=
      env.dequantize_residual decoded_residual_image SAI.nr SAI.nc SAI.ncomp 10 Q offset
    let corrected := env.apply_residual color residual SAI.nr SAI.nc SAI.ncomp 10
    ([Event.read_raw_texture_residual ii, Event.dequantize_residual ii 10 Q offset,
        Event.apply_residual ii],
      poke color 0 (corrected.take (SAI.nr * SAI.nc * SAI.ncomp)))
  else ([], color)

/-- First half of the body of the last loop of `decode_views` for view `ii`
(source lines 774 to 832): inverse depth, optional median filter, and the
write of the inverse depth to `path_out_pgm`.  Returns the files and the log
after the write and the buffer `SAI->depth`. -/
def depth_stage (env : Collaborators) (d : decoder) (s : Disk) (ii : Nat) (SAI : view) :
    Disk × Image :=
  let depth := zeros (SAI.nr * SAI.nc)
  let rd := reconstruct_depth env d s ii SAI depth
  let md := medfilt_depth env ii SAI rd.2.2
  ({ rd.2.1 with
      out_pgm := Function.update rd.2.1.out_pgm ii (some (md.2.take (SAI.nr * SAI.nc)))
      log := s.log ++ rd.1 ++ md.1 ++ [Event.write_out_pgm ii] },
    md.2)

/-- Files and log after the body of the last loop of `decode_views` has run
for view `ii` (source lines 767 to 926).  `Except.error` is a run ended by
the exception of `.at`; it carries the files and the log at that point. -/
def decode_view (env : Collaborators) (d : decoder) (s : Disk) (ii : Nat) : Except Disk Disk :=
  match d.LF[ii]? with
  | none => Except.ok s
  | some SAI =>
    let color := zeros (SAI.nr * SAI.nc * 3)
    let ds := depth_stage env d s ii SAI
    let pt := predict_texture_view env d ds.1 ii SAI color ds.2
    match pt.2 with
    | none => Except.error { ds.1 with log := ds.1.log ++ pt.1 }
    | some predicted =>
      let ar := apply_texture_residual env ds.1 ii SAI predicted
      Except.ok
        { ds.1 with
          internal_ppm :=
            Function.update ds.1.internal_ppm ii (some (ar.2.take (SAI.nr * SAI.nc * SAI.ncomp)))
          out_ppm :=
            Function.update ds.1.out_ppm ii
              (some (env.write_output_ppm ar.2 SAI.nr SAI.nc d.nc_color_ref 10 SAI.colorspace))
          log := ds.1.log ++ pt.1 ++ ar.1 ++ [Event.write_internal_ppm ii, Event.write_output_ppm ii] }

/-- The last loop of `decode_views` over the view indices listed. -/
def decode_loop (env : Collaborators) (d : decoder) : List Nat → Disk → Except Disk Disk
  | [], s => Except.ok s
  | ii :: rest, s =>
    match decode_view env d s ii with
    | Except.error s1 => Except.error s1
    | Except.ok s1 => decode_loop env d rest s1

/-! ## `decode_views`: texture residuals of one hierarchical level -/

/-- Padding of a dimension to the minimum coding-unit size (source lines 707
to 712), with the truncating division and remainder of C. -/
def mincu_padding (n : Int) : Int :=
  let mincusize : Int := 8
  mincusize * (if Int.tmod n mincusize ≠ 0 then Int.tdiv n mincusize + 1 else Int.tdiv n mincusize) - n

/-- Padding of the rows, `VERP`, computed from the first view. -/
def VERP (LF : List view) : Int := mincu_padding ((LF.head?.map (fun v => (v.nr : Int))).getD 0)

/-- Padding of the columns, `HORP`, computed from the first view. -/
def HORP (LF : List view) : Int := mincu_padding ((LF.head?.map (fun v => (v.nc : Int))).getD 0)

/-- Indices of the views of level `hlevel`, ascending (`view_indices`). -/
def view_indices (LF : List view) (hlevel : Int) : List Nat :=
  (List.range LF.length).filter (fun ii => LF[ii]?.map (fun v => v.level) == some hlevel)

/-- Whether some view listed has a coded texture residual. -/
def texture_residual_for_level (LF : List view) (indices : List Nat) : Bool :=
  indices.any (fun ii => LF[ii]?.map (fun v => v.has_color_residual) == some true)

/-- Raw residual image written for a view from its decoded frame (source lines
739 to 752): the frame cropped by `cropImage_for_HM`, of which
`aux_write16PGMPPM` writes `nr * nc * ncomp` samples. -/
def raw_residual (env : Collaborators) (LF : List view) (SAI : view) (frame : Image) : Image :=
  let nr1 := ((LF.head?.map (fun v => (v.nr : Int))).getD 0) + VERP LF
  let nc1 := ((LF.head?.map (fun v => (v.nc : Int))).getD 0) + HORP LF
  (env.cropImage_for_HM frame nr1 nc1 SAI.ncomp (HORP LF) (VERP LF)).take
    (SAI.nr * SAI.nc * SAI.ncomp)

/-- Loop over the decoded frames (source lines 733 to 758) for the positions
listed: the view at position `k` of the scan order, when it has a coded
texture residual, gets frame `k`, cropped, as its raw residual file.
`Except.error` is the exception of `.at`, or a scan order that names no view. -/
def write_raw_residuals (env : Collaborators) (d : decoder) (hevc_i_order : List Nat)
    (YUV444_dec : List Image) : List Nat → Disk → Except Disk Disk
  | [], s => Except.ok s
  | k :: ks, s =>
    match hevc_i_order[k]? with
    | none => Except.error s
    | some idx =>
      match d.LF[idx]? with
      | none => Except.error s
      | some SAI =>
        if SAI.has_color_residual then
          match YUV444_dec[k]? with
          | none => Except.error s
          | some frame =>
            write_raw_residuals env d hevc_i_order YUV444_dec ks
              { s with
                raw_texture_residual :=
                  Function.update s.raw_texture_residual idx (some (raw_residual env d.LF SAI frame))
                log := s.log ++ [Event.write_raw_texture_residual idx] }
        else write_raw_residuals env d hevc_i_order YUV444_dec ks s

/-- Body of the loop over hierarchical levels (source lines 678 to 765) for
level `hlevel`. -/
def decode_texture_level (env : Collaborators) (d : decoder) (s : Disk) (hlevel : Int) :
    Except Disk Disk :=
  let indices := view_indices d.LF hlevel
  if texture_residual_for_level d.LF indices then
    let hevc_i_order := env.getScanOrder d.LF indices
    let nr1 := ((d.LF.head?.map (fun v => (v.nr : Int))).getD 0) + VERP d.LF
    let nc1 := ((d.LF.head?.map (fun v => (v.nc : Int))).getD 0) + HORP d.LF
    match hevc_i_order[0]? with
    | none => Except.error s
    | some i0 =>
      let YUV444_dec :=
        env.convertYUVseqTo444 (s.hevc_texture i0)
          (if hlevel > 1 then YUVformat.YUVTYPE
            else if d.nc_color_ref > 1 then YUVformat.YUV444 else YUVformat.YUV400)
          nr1 nc1 hevc_i_order.length
      write_raw_residuals env d hevc_i_order YUV444_dec (List.range indices.length)
        { s with log := s.log ++ [Event.decodeHM hlevel] }
  else Except.ok s

/-- The loop over hierarchical levels, for the levels listed. -/
def decode_texture_levels (env : Collaborators) (d : decoder) : List Int → Disk → Except Disk Disk
  | [], s => Except.ok s
  | hlevel :: rest, s =>
    match decode_texture_level env d s hlevel with
    | Except.error s1 => Except.error s1
    | Except.ok s1 => decode_texture_levels env d rest s1

/-- The levels `1 .. maxh` in ascending order. -/
def hlevels (maxh : Int) : List Int :=
  (List.range maxh.toNat).map (fun (k : Nat) => (k : Int) + 1)

/-- The part of `decode_views` after the metadata loop, once `maxh` has been
set (source lines 678 to 926): texture residuals level by level, then every
view in index order. -/
def reconstruct_views (env : Collaborators) (d : decoder) (s : Disk) : Except Disk Disk :=
  match decode_texture_levels env d (hlevels d.maxh) s with
  | Except.error s1 => Except.error s1
  | Except.ok s1 => decode_loop env d (List.range d.LF.length) s1

/-- Files and log of a finished or interrupted run. -/
def final (r : Except Disk Disk) : Disk :=
  match r with
  | Except.error s => s
  | Except.ok s => s

/-! ## `decode_views`: view array and metadata loop, and `decode` -/

/-- Model of `fread(ptr, 1, count, f)`: up to `count` single bytes. -/
def fread_bytes (count : Nat) (f : FILE) : List Nat × FILE :=
  ((f.bytes.take count).map (fun b => b % 256),
    { bytes := f.bytes.drop count, eof := f.eof || decide (f.bytes.length < count) })

/-- The view array after the first loop of `decode_views` (source lines 575
to 594): `number_of_views` views left by `initView`, with the header values
copied in. -/
def init_views (env : Collaborators) (d : decoder) : List view :=
  (List.range d.number_of_views.toNat).map (fun ii =>
    { env.initView with
      i_order := ii
      nr := d.number_of_rows.toNat
      nc := d.number_of_columns.toNat
      colorspace := d.colorspace_LF
      SP_B := d.SP_B
      nc_merge := d.nc_merge
      nc_sparse := d.nc_sparse
      min_inv_d := if d.minimum_depth > 0 then (d.minimum_depth : Int) else env.initView.min_inv_d })

/-- The `USE_DEFLATE` block of `decode_views` (source lines 596 to 626): a
32-bit byte count, that many bytes, and the views rebuilt from them. -/
def read_deflated_parameters (env : Collaborators) (d : decoder) : decoder :=
  let r := fread 4 d.input_LF
  let ndeflatebytes := (r.1.map le_value).getD 0
  let b := fread_bytes ndeflatebytes r.2
  let deflatebytes := b.1 ++ List.replicate (ndeflatebytes - b.1.length) 0
  { d with input_LF := b.2, LF := env.viewParametersConstruct d.LF deflatebytes d.gzipath }

/-- Read of the texture residual in the metadata loop (source lines 646 to
656) for view `ii` with metadata `SAI`; `levels` is the size of
`levels_already_written_to_codestream`.  The test `size() < SAI->level` is made
in the unsigned type of `size()`, where a negative level is a large value. -/
def read_texture_residual (env : Collaborators) (SAI : view) (ii : Nat) (d : decoder) (s : Disk)
    (levels : Nat) : decoder × Disk × Nat :=
  if SAI.has_color_residual && (decide (SAI.level < 0) || decide ((levels : Int) < SAI.level)) then
    let r := env.readResidualFromDisk d.n_bytes_residual d.input_LF d.JP2_dict
    ({ d with n_bytes_residual := r.2.1, input_LF := r.2.2.1, JP2_dict := r.2.2.2 },
      { s with
        hevc_texture := Function.update s.hevc_texture ii (some r.1)
        log := s.log ++ [Event.read_texture_residual ii] },
      levels + 1)
  else (d, s, levels)

/-- Read of the depth residual in the metadata loop (source lines 658 to 667)
for view `ii` with metadata `SAI`. -/
def read_depth_residual (env : Collaborators) (SAI : view) (ii : Nat) (d : decoder) (s : Disk) :
    decoder × Disk :=
  if SAI.has_depth_residual then
    let r := env.readResidualFromDisk d.n_bytes_residual d.input_LF d.JP2_dict
    ({ d with n_bytes_residual := r.2.1, input_LF := r.2.2.1, JP2_dict := r.2.2.2 },
      { s with
        jp2_residual_depth := Function.update s.jp2_residual_depth ii (some r.1)
        log := s.log ++ [Event.read_depth_residual ii] })
  else (d, s)

/-- View `ii` after its header has been read (source lines 634 to 639), with
the decoder after the read; with `USE_DEFLATE` the view is as
`viewParametersConstruct` left it. -/
def read_view_header (env : Collaborators) (d : decoder) (ii : Nat) (SAI0 : view) :
    view × decoder :=
  if d.USE_DEFLATE then (SAI0, d)
  else
    let h := env.codestreamToViewHeader d.n_bytes_prediction SAI0 d.input_LF
    (h.2.1, { d with n_bytes_prediction := h.1, input_LF := h.2.2, LF := d.LF.set ii h.2.1 })

/-- Body of the metadata loop of `decode_views` for view `ii` (source lines
630 to 673).  `Except.error` is `exit(0)` after `feof`. -/
def read_view_metadata (env : Collaborators) (d : decoder) (s : Disk) (levels : Nat) (ii : Nat) :
    Except (decoder × Disk) (decoder × Disk × Nat) :=
  match d.LF[ii]? with
  | none => Except.ok (d, s, levels)
  | some SAI0 =>
    let h := read_view_header env d ii SAI0
    let t := read_texture_residual env h.1 ii h.2 s levels
    let u := read_depth_residual env h.1 ii t.1 t.2.1
    if u.1.input_LF.eof then Except.error u else Except.ok (u.1, u.2, t.2.2)

/-- The metadata loop over the view indices listed. -/
def read_metadata (env : Collaborators) :
    List Nat → decoder → Disk → Nat → Except (decoder × Disk) (decoder × Disk × Nat)
  | [], d, s, levels => Except.ok (d, s, levels)
  | ii :: rest, d, s, levels =>
    match read_view_metadata env d s levels ii with
    | Except.error e => Except.error e
    | Except.ok (d1, s1, levels1) => read_metadata env rest d1 s1 levels1

/-- Model of `decoder::decode_views`.  `Except.error` is a run ended by
`exit(0)` or by an exception (of `.at`, or of `new view[...]` for a negative
count); it carries the decoder, the files and the log at that point. -/
def decode_views (env : Collaborators) (d : decoder) (s : Disk) :
    Except (decoder × Disk) (decoder × Disk) :=
  if d.number_of_views < 0 then Except.error (d, s)
  else
    let d1 := { d with LF := init_views env d }
    let d2 := if d1.USE_DEFLATE then read_deflated_parameters env d1 else d1
    match read_metadata env (List.range d2.LF.length) d2 s 0 with
    | Except.error e => Except.error e
    | Except.ok (d3, s3, _) =>
      let d4 := { d3 with maxh := env.get_highest_level d3.LF }
      match reconstruct_views env d4 s3 with
      | Except.error s4 => Except.error (d4, s4)
      | Except.ok s4 => Except.ok (d4, s4)

/-- Model of `decoder::decode`: `decode_header`, then `decode_views` (the
statistics file written last is not part of the model). -/
def decode (env : Collaborators) (d : decoder) (s : Disk) :
    Except (decoder × Disk) (decoder × Disk) :=
  match decode_header d with
  | Except.error d1 => Except.error (d1, s)
  | Except.ok d1 => decode_views env d1 s

/-! ## Classes of logged calls -/

/-- Calls that the body of the last loop of `decode_views` can make for view
`ii` with metadata `SAI`. -/
def view_event (SAI : view) (ii : Nat) : Event → Prop
  | Event.decodeKakadu i => i = ii ∧ SAI.has_depth_residual = true
  | Event.read_decoded_depth i => i = ii ∧ SAI.has_depth_residual = true
  | Event.WaSP_predict_depth i => i = ii ∧ SAI.has_depth_residual = false
  | Event.medfilt2D i => i = ii
  | Event.write_out_pgm i => i = ii
  | Event.read_out_pgm v r => v = ii ∧ r ∈ SAI.references
  | Event.read_internal_ppm v r => v = ii ∧ r ∈ SAI.references
  | Event.read_internal_ppm_sparse v r =>
    v = ii ∧ r ∈ SAI.references ∧ SAI.use_global_sparse = true
  | Event.read_raw_texture_residual i => i = ii ∧ SAI.has_color_residual = true
  | Event.dequantize_residual i bpc Q offset =>
    i = ii ∧ SAI.has_color_residual = true ∧ bpc = 10 ∧
      Q = (residual_quantization SAI.level).1 ∧ offset = (residual_quantization SAI.level).2
  | Event.apply_residual i => i = ii ∧ SAI.has_color_residual = true
  | Event.write_internal_ppm i => i = ii
  | Event.write_output_ppm i => i = ii
  | _ => False

/-- Calls of the metadata loop of `decode_views`. -/
def metadata_event : Event → Bool
  | Event.read_texture_residual _ => true
  | Event.read_depth_residual _ => true
  | _ => false

/-- Calls of the loop over hierarchical levels of `decode_views`. -/
def level_event : Event → Bool
  | Event.decodeHM _ => true
  | Event.write_raw_texture_residual _ => true
  | _ => false

/-- The reference view whose file a logged call reads: the `ref` of the three
calls that read a reference view, nothing for any other call. -/
def Event.reference_read : Event → Option Nat
  | Event.read_out_pgm _ ref => some ref
  | Event.read_internal_ppm _ ref => some ref
  | Event.read_internal_ppm_sparse _ ref => some ref
  | _ => none

/-- The view on whose behalf a logged call reads a reference view. -/
def Event.reader : Event → Option Nat
  | Event.read_out_pgm reader _ => some reader
  | Event.read_internal_ppm reader _ => some reader
  | Event.read_internal_ppm_sparse reader _ => some reader
  | _ => none

/-! ## Example inputs -/

/-- A decoder object before `decode` is called, reading `bytes` with the
given gzip path; the numeric members start at zero and no view exists. -/
def fresh_decoder (gzipath : String) (bytes : List Nat) : decoder :=
  { gzipath := gzipath, input_LF := { bytes := bytes, eof := false },
    n_bytes_prediction := 0, n_bytes_residual := 0,
    number_of_views := 0, number_of_rows := 0, number_of_columns := 0,
    minimum_depth := 0, colorspace_LF := "", maxh := 0,
    nc_sparse := 0, nc_merge := 0, SP_B := 0, nc_color_ref := 0,
    n_seg_iterations := 0, USE_DEFLATE := false, JP2_dict := [], LF := [] }

/-- A 25-byte header: 2 views, 3 rows, 4 columns, minimum depth 5, YCbCr,
level 1, then the one-byte fields 3, 3, 1, 3, 7, 0. -/
def example_header : List Nat :=
  [2, 0, 0, 0, 3, 0, 0, 0, 4, 0, 0, 0, 5, 0, 1, 1, 0, 0, 0, 3, 3, 1, 3, 7, 0]

/-- Insertion of a sample into an ascending list. -/
def insert_sorted (x : Nat) : List Nat → List Nat
  | [] => [x]
  | y :: ys => if x ≤ y then x :: y :: ys else y :: insert_sorted x ys

/-- Samples in ascending order. -/
def sort_samples : List Nat → List Nat
  | [] => []
  | x :: xs => insert_sorted x (sort_samples xs)

/-- Example value of the collaborator `medfilt2D`, which the spec describes as
"a smoothing pass (3×3 median)": rows are stored one after the other and every
sample becomes the median of the samples of the image inside the `SZ` by `SZ`
window around it. -/
def example_medfilt2D (img : Image) (SZ nr nc : Nat) : Image :=
  (List.range (nr * nc)).map (fun p =>
    let window := (List.range (2 * (SZ / 2) + 1)).flatMap (fun dy =>
      (List.range (2 * (SZ / 2) + 1)).filterMap (fun dx =>
        if SZ / 2 ≤ p / nc + dy ∧ p / nc + dy < nr + SZ / 2 ∧
            SZ / 2 ≤ p % nc + dx ∧ p % nc + dx < nc + SZ / 2 then
          img[(p / nc + dy - SZ / 2) * nc + (p % nc + dx - SZ / 2)]?
        else none))
    (sort_samples window).getD (window.length / 2) 0)

/-- Example value of the collaborator `clip`, of which the spec says that the
filtered value "is clamped to the valid sample range": the clamp of `x` to
`[lo, hi]`. -/
def example_clip (x lo hi : ℚ) : ℚ := if x < lo then lo else if hi < x then hi else x

/-- A view of 3 by 3 samples and 3 components at level 1, with no reference,
no residual and no sparse filter. -/
def example_view : view :=
  { i_order := 0, r := 0, c := 0, nr := 3, nc := 3, ncomp := 3, colorspace := "YCbCr",
    SP_B := 0, nc_merge := 3, nc_sparse := 0, min_inv_d := 0, level := 1, references := [],
    mmode := 0, has_color_residual := false, has_depth_residual := false,
    use_global_sparse := false, NNt := 0, Ms := 0, sparse_filters := [] }

/-- Inverse depth that the example decoder returns: a single peak in the
middle of a 3 by 3 image. -/
def example_depth : Image := [0, 0, 0, 0, 9, 0, 0, 0, 0]

/-- Collaborators of the examples, with `MEDFILT_DEPTH` as given: identity
merging, filling and filtering, a warp that returns the reference buffers, a
scan order that keeps the index order, and a decoder of the coded depth that
returns `example_depth`. -/
def example_env (MEDFILT_DEPTH : Bool) : Collaborators :=
  { MEDFILT_DEPTH := MEDFILT_DEPTH
    BIT_DEPTH := 10
    SPARSE_BIAS_TERM := 0
    initView := example_view
    viewParametersConstruct := fun LF _ _ => LF
    codestreamToViewHeader := fun n SAI f => (n, SAI, f)
    readResidualFromDisk := fun n f dict => ([], n, f, dict)
    get_highest_level := fun LF => LF.foldl (fun m v => max m v.level) 0
    getScanOrder := fun _ indices => indices
    convertYUVseqTo444 := fun _ _ _ _ n => List.replicate n []
    cropImage_for_HM := fun frame _ _ _ _ _ => frame
    decodeKakadu := fun _ => example_depth
    WaSP_predict_depth := fun _ _ _ depth => depth
    medfilt2D := example_medfilt2D
    warpView0_to_View1 := fun _ depth color _ => { texture := color, depth := depth, DispTarg := [] }
    initViewW := fun _ _ => { seg_vp := [], bmask := [], merge_weights := [] }
    mergeWarped_N_icomp := fun _ _ _ _ color => color
    getGeomWeight_icomp := fun _ _ _ W => W
    mergeMedian_N := fun _ _ _ _ _ color => color
    holefilling := fun component _ _ _ _ => component
    makeSegmentation := fun _ _ _ =>
      { seg := [], region_histogram := [], region_sizes := [], number_of_regions := 1 }
    padArrayUint16_t_vec := fun component _ _ _ => component
    dequantize_and_reorder_spfilter := fun f => f
    applyGlobalSparseFilter_vec_reg := fun _ _ _ _ _ _ _ _ _ filtered_icomp => filtered_icomp
    cropImage := fun image _ _ _ => image
    clip := example_clip
    dequantize_residual := fun image _ _ _ _ _ _ => image.map (fun x => (x : ℚ))
    apply_residual := fun color _ _ _ _ _ => color
    write_output_ppm := fun color _ _ _ _ _ => color }

/-- A decoder after the metadata loop with the views given and `maxh` the
highest level among them. -/
def example_decoder (LF : List view) : decoder :=
  { fresh_decoder "" [] with
    number_of_views := LF.length
    maxh := LF.foldl (fun m v => max m v.level) 0
    LF := LF }

/-- Two views where view 0 lists view 1 as its reference. -/
def forward_reference_views : List view :=
  [{ example_view with references := [1] }, { example_view with i_order := 1 }]

/-- Two views where view 1 lists view 0 as its reference. -/
def backward_reference_views : List view :=
  [example_view, { example_view with i_order := 1, references := [0] }]

/-- Two views where view 1 has level 0 and lists view 0 as its reference. -/
def level0_reference_views : List view :=
  [example_view, { example_view with i_order := 1, level := 0, references := [0] }]

/-- One view of level 0 with a coded texture residual. -/
def level0_residual_views : List view :=
  [{ example_view with level := 0, has_color_residual := true }]

/-- One view of level 1 with a coded texture residual. -/
def level1_residual_views : List view :=
  [{ example_view with has_color_residual := true }]

/-- One view with a coded depth residual. -/
def depth_residual_views : List view :=
  [{ example_view with has_depth_residual := true }]

/-- View 1 of the sparse filter example: one reference, the global sparse filter
on, and a bank of one filter. -/
def sparse_view : view :=
  { example_view with
    i_order := 1, references := [0], use_global_sparse := true,
    sparse_filters := [{ quantized_filter_coefficients := [], regressor_indexes := [],
                         filter_coefficients := [] }] }

/-- Decoder of the sparse filter example: two views, one sparse component. -/
def sparse_decoder : decoder :=
  { example_decoder [example_view, sparse_view] with nc_sparse := 1 }

/-- Texture of 3 components of 3 by 3 samples on entry to the sparse filter step. -/
def sparse_color : Image :=
  [1, 2, 3, 4, 5, 6, 7, 8, 9, 10, 11, 12, 13, 14, 15, 16, 17, 18, 19, 20, 21, 22, 23, 24, 25, 26, 27]

/-- Texture of the example after the sparse filter step. -/
def sparse_filtered_color : Image :=
  [0, 0, 0, 0, 0, 0, 0, 0, 0, 10, 11, 12, 13, 14, 15, 16, 17, 18, 19, 20, 21, 22, 23, 24, 25, 26, 27]

/-- Value of an integer stored in `int32_t` (two's complement). -/
def wrap_int32 (z : Int) : Int := (z + 2 ^ 31) % 2 ^ 32 - 2 ^ 31

/-- The padding of `mincu_padding` with every intermediate result stored in
`int32_t`. -/
def mincu_padding_int32 (n : Int) : Int :=
  let mincusize : Int := 8
  wrap_int32 (wrap_int32 (mincusize *
    (if Int.tmod n mincusize ≠ 0 then wrap_int32 (Int.tdiv n mincusize + 1)
      else Int.tdiv n mincusize)) - n)

/-- One view with no reference, a coded texture residual, merge mode 1 and the
global sparse filter on. -/
def unreferenced_residual_views : List view :=
  [{ example_view with has_color_residual := true, mmode := 1, use_global_sparse := true }]

/-- Accesses `sparse_filters.at(ee)` of the region loop of component `icomp`
(the list holds `ir - 1`), each as `(icomp, ir, ee)`, and `ee` after the loop.
The loop ends at the first access outside the bank: that access is the last of
the list and no `ee` is returned. -/
def region_accesses (SAI : view) (icomp : Nat) :
    List Nat → Nat → List (Nat × Nat × Nat) × Option Nat
  | [], ee => ([], some ee)
  | k :: ks, ee =>
    match SAI.sparse_filters[ee]? with
    | none => ([(icomp, k + 1, ee)], none)
    | some _ =>
      let r := region_accesses SAI icomp ks (ee + 1)
      ((icomp, k + 1, ee) :: r.1, r.2)

/-- Accesses `sparse_filters.at(ee)` of the component loop of the sparse filter
step for the components listed, with `number_of_regions` regions, starting at
`ee`; also `ee` after the loop, none when an access was outside the bank. -/
def component_accesses (SAI : view) (number_of_regions : Nat) :
    List Nat → Nat → List (Nat × Nat × Nat) × Option Nat
  | [], ee => ([], some ee)
  | icomp :: rest, ee =>
    match region_accesses SAI icomp (List.range number_of_regions) ee with
    | (l, none) => (l, none)
    | (l, some ee1) =>
      let r := component_accesses SAI number_of_regions rest ee1
      (l ++ r.1, r.2)

/-- The filter output of component `icomp` as the specification words it: for
the regions 1..number_of_regions in ascending order, the filter
`sparse_filters[icomp * number_of_regions + (ir - 1)]` is dequantised and
applied to region `ir` of the padded regressors. -/
def spec_filtered_icomp (env : Collaborators) (SAI : view) (seg : segmentation)
    (padded_regressors : List Image) (icomp : Nat) : List ℚ :=
  (List.range seg.number_of_regions).foldl
    (fun filtered_icomp k =>
      match SAI.sparse_filters[icomp * seg.number_of_regions + k]? with
      | none => filtered_icomp
      | some f =>
        env.applyGlobalSparseFilter_vec_reg padded_regressors seg.seg (k + 1)
          (SAI.nr + 2 * SAI.NNt) (SAI.nc + 2 * SAI.NNt) SAI.Ms SAI.NNt env.SPARSE_BIAS_TERM
          (env.dequantize_and_reorder_spfilter f).filter_coefficients filtered_icomp)
    (List.replicate (padded_size SAI) 0)

/-- A view with one reference, the global sparse filter on and a bank of two
filters. -/
def sparse_view2 : view :=
  { sparse_view with
    sparse_filters := [{ quantized_filter_coefficients := [], regressor_indexes := [],
                         filter_coefficients := [] },
                       { quantized_filter_coefficients := [], regressor_indexes := [],
                         filter_coefficients := [] }] }

/-- Decoder of two views with two sparse components. -/
def sparse_decoder2 : decoder :=
  { example_decoder [example_view, sparse_view2] with nc_sparse := 2 }

/-- Segmentation that the example collaborators return for `sparse_view2`. -/
def sparse_segmentation : segmentation :=
  (example_env false).makeSegmentation sparse_view2 example_depth 0

/-- Views for which a logged call reads a texture residual segment from the
stream, in the order of the calls. -/
def texture_residual_reads (log : List Event) : List Nat :=
  log.filterMap (fun e =>
    match e with
    | Event.read_texture_residual ii => some ii
    | _ => none)

/-- Hierarchy levels of the views with a coded texture residual, in view
order. -/
def residual_levels (LF : List view) : List Int :=
  (LF.filter (fun v => v.has_color_residual)).map (fun v => v.level)

/-- Size of `levels_already_written_to_codestream` after views with a coded
texture residual of the levels listed have been tested in the metadata loop,
when the size was `levels` before (the test and the `push_back` of
`read_texture_residual`). -/
def segments_read : List Int → Nat → Nat
  | [], levels => levels
  | level :: rest, levels =>
    segments_read rest
      (if decide (level < 0) || decide ((levels : Int) < level) then levels + 1 else levels)

/-- Two views of level 2, both with a coded texture residual. -/
def level2_residual_views : List view :=
  [{ example_view with level := 2, has_color_residual := true },
   { example_view with i_order := 1, level := 2, has_color_residual := true }]

/-- Four views: levels 1, 1, 2 and 2, all but the second with a coded texture
residual. -/
def two_level_residual_views : List view :=
  [{ example_view with has_color_residual := true },
   { example_view with i_order := 1 },
   { example_view with i_order := 2, level := 2, has_color_residual := true },
   { example_view with i_order := 3, level := 2, has_color_residual := true }]

/-! # Theorems -/

/-! ## Sparse filter samples -/

theorem example_clip_eq (x lo hi : ℚ) (h : lo ≤ hi) :
    example_clip x lo hi = min (max x lo) hi := by
  unfold example_clip
  split_ifs with h1 h2
  · rw [max_eq_right h1.le, min_eq_left h]
  · rw [max_eq_left (not_lt.mp h1), min_eq_right h2.le]
  · rw [max_eq_left (not_lt.mp h1), min_eq_left (not_lt.mp h2)]

theorem mmax_cast (B : Nat) : (((((1 <<< B : Nat) : Int) - 1 : Int)) : ℚ) = (2 : ℚ) ^ B - 1 := by
  rw [Nat.one_shiftLeft]
  push_cast
  ring

theorem sparse_sample_floor (env : Collaborators) (B : Nat) (henv : env.BIT_DEPTH = B)
    (hB : B ≤ 16)
    (hclip : ∀ x lo hi : ℚ, lo ≤ hi → env.clip x lo hi = min (max x lo) hi) (x : ℚ) :
    ((sparse_sample env x : Nat) : Int) = Int.floor (min (max x 0) ((2 : ℚ) ^ B - 1) + 1 / 2) ∧
      sparse_sample env x ≤ 2 ^ B - 1 := by
  have hpow : (1 : ℚ) ≤ (2 : ℚ) ^ B := one_le_pow₀ (by norm_num)
  have hM : (0 : ℚ) ≤ (2 : ℚ) ^ B - 1 := by linarith
  have hpowN : 2 ^ B ≤ 2 ^ 16 := Nat.pow_le_pow_right (by norm_num) hB
  have hposN : 1 ≤ 2 ^ B := Nat.one_le_two_pow
  set y : ℚ := min (max x 0) ((2 : ℚ) ^ B - 1) with hy
  have hy0 : 0 ≤ y := le_min (le_max_right _ _) hM
  have hyM : y ≤ (2 : ℚ) ^ B - 1 := min_le_right _ _
  have hf0 : 0 ≤ Int.floor (y + 1 / 2) := Int.floor_nonneg.mpr (by linarith)
  have hfM : Int.floor (y + 1 / 2) ≤ ((2 ^ B - 1 : Nat) : Int) := by
    have : Int.floor (y + 1 / 2) < ((2 ^ B - 1 : Nat) : Int) + 1 := by
      rw [Int.floor_lt]
      push_cast [Nat.cast_sub hposN]
      linarith
    omega
  have hs : sparse_sample env x = (Int.floor (y + 1 / 2)).toNat := by
    unfold sparse_sample to_uint16
    simp only [henv, mmax_cast, hclip x 0 _ hM, ← hy]
    apply Nat.mod_eq_of_lt
    omega
  constructor
  · rw [hs, Int.toNat_of_nonneg hf0]
  · rw [hs]; omega

/-! ## Header -/

theorem fread_drop (bs : List Nat) (e : Bool) (off size : Nat) (h : off + size ≤ bs.length) :
    fread size { bytes := bs.drop off, eof := e } =
      (some (((bs.drop off).take size).map (fun b => b % 256)),
        { bytes := bs.drop (off + size), eof := e }) := by
  have h1 : size ≤ (bs.drop off).length := by simp; omega
  rw [fread, if_pos h1]
  simp [Nat.add_comm]

theorem read_header_fields_bytes (d : decoder) (bs : List Nat) (e : Bool)
    (hd : d.input_LF = { bytes := bs, eof := e }) (h : 25 ≤ bs.length) :
    read_header_fields d =
      { d with
        input_LF := { bytes := bs.drop 25, eof := e }
        number_of_views := to_int32 (field bs 0 4)
        number_of_rows := to_int32 (field bs 4 4)
        number_of_columns := to_int32 (field bs 8 4)
        minimum_depth := field bs 12 2
        colorspace_LF :=
          if field bs 14 1 = 1 then "YCbCr" else if field bs 14 1 = 0 then "RGB"
          else d.colorspace_LF
        maxh := to_int32 (field bs 15 4)
        nc_sparse := field bs 19 1
        nc_merge := field bs 20 1
        SP_B := field bs 21 1
        nc_color_ref := field bs 22 1
        n_seg_iterations := field bs 23 1
        USE_DEFLATE := decide (field bs 24 1 ≠ 0)
        n_bytes_prediction := d.n_bytes_prediction + 22 } := by
  have h0 : d.input_LF = { bytes := bs.drop 0, eof := e } := by simpa using hd
  simp only [read_header_fields, h0, field,
    fread_drop bs e 0 4 (by omega), fread_drop bs e 4 4 (by omega),
    fread_drop bs e 8 4 (by omega), fread_drop bs e 12 2 (by omega),
    fread_drop bs e 14 1 (by omega), fread_drop bs e 15 4 (by omega),
    fread_drop bs e 19 1 (by omega), fread_drop bs e 20 1 (by omega),
    fread_drop bs e 21 1 (by omega), fread_drop bs e 22 1 (by omega),
    fread_drop bs e 23 1 (by omega), fread_drop bs e 24 1 (by omega)]
  simp [items]
  ring

theorem decode_header_cases (d : decoder) :
    decode_header d = Except.ok (read_header_fields d) ∨
      decode_header d = Except.error (read_header_fields d) := by
  unfold decode_header
  simp only []
  generalize read_header_fields d = g
  split_ifs <;> simp

/-- C7 (amended): for every stream of at least 25 bytes `decode_header` assigns,
in stream order, the view count (4 bytes), the row count (4), the column count
(4), the minimum inverse depth (2), the colorspace from one byte (0 gives RGB,
1 gives YCbCr, any other value leaves it as it was), the maximum level (4), the
sparse component count (1), the merge component count (1), the sparse-bias
flag (1), the reference component count (1), the segmentation iteration count
(1) and the deflate flag (1), and leaves the stream after byte 25. -/
theorem decode_header_parses (d : decoder) (h : 25 ≤ d.input_LF.bytes.length) :
    ∃ g, (decode_header d = Except.ok g ∨ decode_header d = Except.error g) ∧
      g.input_LF.bytes = d.input_LF.bytes.drop 25 ∧
      g.number_of_views = to_int32 (field d.input_LF.bytes 0 4) ∧
      g.number_of_rows = to_int32 (field d.input_LF.bytes 4 4) ∧
      g.number_of_columns = to_int32 (field d.input_LF.bytes 8 4) ∧
      g.minimum_depth = field d.input_LF.bytes 12 2 ∧
      (field d.input_LF.bytes 14 1 = 0 → g.colorspace_LF = "RGB") ∧
      (field d.input_LF.bytes 14 1 = 1 → g.colorspace_LF = "YCbCr") ∧
      (field d.input_LF.bytes 14 1 ≠ 0 → field d.input_LF.bytes 14 1 ≠ 1 →
        g.colorspace_LF = d.colorspace_LF) ∧
      g.maxh = to_int32 (field d.input_LF.bytes 15 4) ∧
      g.nc_sparse = field d.input_LF.bytes 19 1 ∧
      g.nc_merge = field d.input_LF.bytes 20 1 ∧
      g.SP_B = field d.input_LF.bytes 21 1 ∧
      g.nc_color_ref = field d.input_LF.bytes 22 1 ∧
      g.n_seg_iterations = field d.input_LF.bytes 23 1 ∧
      (g.USE_DEFLATE = true ↔ field d.input_LF.bytes 24 1 ≠ 0) := by
  refine ⟨read_header_fields d, decode_header_cases d, ?_⟩
  rw [read_header_fields_bytes d d.input_LF.bytes d.input_LF.eof rfl h]
  refine ⟨rfl, rfl, rfl, rfl, rfl, ?_, ?_, ?_, rfl, rfl, rfl, rfl, rfl, rfl, ?_⟩
  · intro h0; simp [h0]
  · intro h1; simp [h1]
  · intro h0 h1; simp [h0, h1]
  · simp

theorem decode_header_parses_witness :
    ∃ g, (decode_header (fresh_decoder "" example_header) = Except.ok g ∨
        decode_header (fresh_decoder "" example_header) = Except.error g) ∧
      g.input_LF.bytes = (fresh_decoder "" example_header).input_LF.bytes.drop 25 ∧
      g.number_of_views = to_int32 (field (fresh_decoder "" example_header).input_LF.bytes 0 4) ∧
      g.number_of_rows = to_int32 (field (fresh_decoder "" example_header).input_LF.bytes 4 4) ∧
      g.number_of_columns = to_int32 (field (fresh_decoder "" example_header).input_LF.bytes 8 4) ∧
      g.minimum_depth = field (fresh_decoder "" example_header).input_LF.bytes 12 2 ∧
      (field (fresh_decoder "" example_header).input_LF.bytes 14 1 = 0 → g.colorspace_LF = "RGB") ∧
      (field (fresh_decoder "" example_header).input_LF.bytes 14 1 = 1 →
        g.colorspace_LF = "YCbCr") ∧
      (field (fresh_decoder "" example_header).input_LF.bytes 14 1 ≠ 0 →
        field (fresh_decoder "" example_header).input_LF.bytes 14 1 ≠ 1 →
        g.colorspace_LF = (fresh_decoder "" example_header).colorspace_LF) ∧
      g.maxh = to_int32 (field (fresh_decoder "" example_header).input_LF.bytes 15 4) ∧
      g.nc_sparse = field (fresh_decoder "" example_header).input_LF.bytes 19 1 ∧
      g.nc_merge = field (fresh_decoder "" example_header).input_LF.bytes 20 1 ∧
      g.SP_B = field (fresh_decoder "" example_header).input_LF.bytes 21 1 ∧
      g.nc_color_ref = field (fresh_decoder "" example_header).input_LF.bytes 22 1 ∧
      g.n_seg_iterations = field (fresh_decoder "" example_header).input_LF.bytes 23 1 ∧
      (g.USE_DEFLATE = true ↔ field (fresh_decoder "" example_header).input_LF.bytes 24 1 ≠ 0) :=
  decode_header_parses (fresh_decoder "" example_header) (by decide)

/-- C7 (counterexample): in `example_header` byte 21 is 1 and byte 22 is 3;
`decode_header` takes the reference component count from byte 22 and the
sparse-bias flag from byte 21, not the other way round. -/
theorem decode_header_order_counterexample :
    25 ≤ example_header.length ∧
      ∃ g, decode_header (fresh_decoder "" example_header) = Except.ok g ∧
        g.nc_color_ref ≠ field example_header 21 1 ∧ g.SP_B ≠ field example_header 22 1 := by
  refine ⟨by decide, read_header_fields (fresh_decoder "" example_header), ?_, ?_, ?_⟩
  · rfl
  · decide
  · decide

theorem decode_of_header_error (env : Collaborators) (d g : decoder) (s : Disk)
    (h : decode_header d = Except.error g) : decode env d s = Except.error (g, s) := by
  unfold decode
  rw [h]

theorem decode_of_header_ok (env : Collaborators) (d g : decoder) (s : Disk)
    (h : decode_header d = Except.ok g) : decode env d s = decode_views env g s := by
  unfold decode
  rw [h]

theorem decode_header_result (d : decoder) :
    ∃ g, g = read_header_fields d ∧ g.LF = d.LF ∧
      ((g.USE_DEFLATE = true ∧ d.gzipath.length = 0 ∧ decode_header d = Except.error g) ∨
        (¬ (g.USE_DEFLATE = true ∧ d.gzipath.length = 0) ∧ decode_header d = Except.ok g)) := by
  have hgz : (read_header_fields d).gzipath = d.gzipath := by simp only [read_header_fields]
  have hLF : (read_header_fields d).LF = d.LF := by simp only [read_header_fields]
  refine ⟨read_header_fields d, rfl, hLF, ?_⟩
  unfold decode_header
  simp only [hgz]
  generalize read_header_fields d = g
  by_cases h1 : g.USE_DEFLATE = true <;> by_cases h2 : d.gzipath.length = 0 <;> simp [h1, h2]

/-- C8: `decode_header` ends the run exactly when the deflate flag it has read is
set and the gzip path is empty (for a stream of at least 25 bytes the flag is
set exactly when byte 24 is not zero); `decode` then stops with the view array
and the files as they were before the call, and in every other case `decode`
continues with `decode_views` on the header that was read. -/
theorem decode_header_abort (env : Collaborators) (d : decoder) (s : Disk) :
    ((∃ g, decode_header d = Except.error g) ↔
        ((read_header_fields d).USE_DEFLATE = true ∧ d.gzipath.length = 0)) ∧
      (25 ≤ d.input_LF.bytes.length →
        ((read_header_fields d).USE_DEFLATE = true ↔ field d.input_LF.bytes 24 1 ≠ 0)) ∧
      (∀ g, decode_header d = Except.error g →
        decode env d s = Except.error (g, s) ∧ g.LF = d.LF) ∧
      (∀ g, decode_header d = Except.ok g →
        g = read_header_fields d ∧ decode env d s = decode_views env g s) := by
  obtain ⟨g0, hg0, hLF, hcase⟩ := decode_header_result d
  refine ⟨?_, ?_, ?_, ?_⟩
  · rw [← hg0]
    rcases hcase with ⟨h1, h2, h3⟩ | ⟨h1, h3⟩
    · exact ⟨fun _ => ⟨h1, h2⟩, fun _ => ⟨g0, h3⟩⟩
    · refine ⟨fun ⟨g, hg⟩ => ?_, fun h => absurd h h1⟩
      rw [h3] at hg
      exact absurd hg (by simp)
  · intro h
    rw [read_header_fields_bytes d d.input_LF.bytes d.input_LF.eof rfl h]
    simp
  · intro g hg
    refine ⟨decode_of_header_error env d g s hg, ?_⟩
    rcases hcase with ⟨_, _, h3⟩ | ⟨_, h3⟩
    · rw [h3] at hg
      rw [← Except.error.inj hg]
      exact hLF
    · rw [h3] at hg
      exact absurd hg (by simp)
  · intro g hg
    refine ⟨?_, decode_of_header_ok env d g s hg⟩
    rcases hcase with ⟨_, _, h3⟩ | ⟨_, h3⟩
    · rw [h3] at hg
      exact absurd hg (by simp)
    · rw [h3] at hg
      rw [← Except.ok.inj hg]
      exact hg0

/-! ## Log of one view -/

theorem forward_warp_events (env : Collaborators) (LF : List view) (s : Disk) (ii : Nat)
    (SAI : view) (refs : List Nat) :
    ∀ e ∈ (forward_warp_texture_references env LF s ii SAI refs).1,
      ∃ r ∈ refs, e = Event.read_out_pgm ii r ∨ e = Event.read_internal_ppm ii r := by
  induction refs with
  | nil => simp [forward_warp_texture_references]
  | cons r rs ih =>
    intro e he
    simp only [forward_warp_texture_references, List.mem_cons] at he
    rcases he with he | he | he
    · exact ⟨r, by simp, Or.inl he⟩
    · exact ⟨r, by simp, Or.inr he⟩
    · obtain ⟨r1, hr1, h⟩ := ih e he
      exact ⟨r1, by simp [hr1], h⟩

theorem global_sparse_filter_events (env : Collaborators) (d : decoder) (s : Disk) (ii : Nat)
    (SAI : view) (color depth : Image) :
    (global_sparse_filter env d s ii SAI color depth).1 = sparse_reads ii SAI.references := by
  unfold global_sparse_filter
  simp only []
  split <;> rfl

theorem predict_texture_view_events (env : Collaborators) (d : decoder) (s : Disk) (ii : Nat)
    (SAI : view) (color depth : Image) :
    ∀ e ∈ (predict_texture_view env d s ii SAI color depth).1, view_event SAI ii e := by
  intro e he
  unfold predict_texture_view at he
  split_ifs at he with h1 h2
  · simp only [List.mem_append, global_sparse_filter_events] at he
    rcases he with he | he
    · obtain ⟨r, hr, h | h⟩ := forward_warp_events _ _ _ _ _ _ e he <;>
        · subst h; exact ⟨rfl, hr⟩
    · simp only [sparse_reads, List.mem_map] at he
      obtain ⟨r, hr, h⟩ := he
      subst h
      exact ⟨rfl, hr, h2⟩
  · obtain ⟨r, hr, h | h⟩ := forward_warp_events _ _ _ _ _ _ e he <;>
      · subst h; exact ⟨rfl, hr⟩
  · simp at he

theorem predict_texture_view_no_references (env : Collaborators) (d : decoder) (s : Disk)
    (ii : Nat) (SAI : view) (color depth : Image) (h : SAI.references = []) :
    predict_texture_view env d s ii SAI color depth = ([], some color) := by
  simp [predict_texture_view, view.n_references, h]

theorem depth_stage_log (env : Collaborators) (d : decoder) (s : Disk) (ii : Nat) (SAI : view) :
    ∃ l, (depth_stage env d s ii SAI).1.log = s.log ++ l ∧ (∀ e ∈ l, view_event SAI ii e) ∧
      Event.write_out_pgm ii ∈ l := by
  refine ⟨(reconstruct_depth env d s ii SAI (zeros (SAI.nr * SAI.nc))).1 ++
    (medfilt_depth env ii SAI (reconstruct_depth env d s ii SAI (zeros (SAI.nr * SAI.nc))).2.2).1 ++
    [Event.write_out_pgm ii], ?_, ?_, by simp⟩
  · simp [depth_stage, List.append_assoc]
  · intro e he
    simp only [List.mem_append, List.mem_singleton] at he
    rcases he with (he | he) | he
    · unfold reconstruct_depth at he
      split_ifs at he with h1 h2
      · simp only [List.mem_cons, List.mem_singleton, List.not_mem_nil, or_false] at he
        rcases he with he | he <;> (subst he; exact ⟨rfl, h1⟩)
      · simp only [List.mem_singleton] at he
        subst he
        exact ⟨rfl, by simpa using h1⟩
      · simp at he
    · unfold medfilt_depth at he
      split_ifs at he
      · simp only [List.mem_singleton] at he
        subst he
        exact rfl
      · simp at he
    · subst he
      exact rfl

theorem apply_texture_residual_events (env : Collaborators) (s : Disk) (ii : Nat) (SAI : view)
    (color : Image) :
    (∀ e ∈ (apply_texture_residual env s ii SAI color).1, view_event SAI ii e) ∧
      (SAI.has_color_residual = true →
        Event.dequantize_residual ii 10 (residual_quantization SAI.level).1
          (residual_quantization SAI.level).2 ∈ (apply_texture_residual env s ii SAI color).1) := by
  unfold apply_texture_residual
  split_ifs with h
  · refine ⟨?_, fun _ => by simp⟩
    intro e he
    simp only [List.mem_cons, List.mem_singleton, List.not_mem_nil, or_false] at he
    rcases he with he | he | he <;> subst he
    · exact ⟨rfl, h⟩
    · exact ⟨rfl, h, rfl, rfl, rfl⟩
    · exact ⟨rfl, h⟩
  · exact ⟨by simp, fun h1 => absurd h1 h⟩

/-- Log of one view's step, for either outcome. -/
theorem decode_view_log (env : Collaborators) (d : decoder) (s : Disk) (ii : Nat) (SAI : view)
    (hSAI : d.LF[ii]? = some SAI) :
    ∃ l, (final (decode_view env d s ii)).log = s.log ++ l ∧ (∀ e ∈ l, view_event SAI ii e) ∧
      Event.write_out_pgm ii ∈ l ∧
      (∀ s1, decode_view env d s ii = Except.ok s1 →
        Event.write_internal_ppm ii ∈ l ∧
        (SAI.has_color_residual = true →
          Event.dequantize_residual ii 10 (residual_quantization SAI.level).1
            (residual_quantization SAI.level).2 ∈ l)) := by
  obtain ⟨l0, hl0, hev0, hw0⟩ := depth_stage_log env d s ii SAI
  unfold decode_view
  simp only [hSAI]
  have hpt := predict_texture_view_events env d (depth_stage env d s ii SAI).1 ii SAI
    (zeros (SAI.nr * SAI.nc * 3)) (depth_stage env d s ii SAI).2
  cases hp : (predict_texture_view env d (depth_stage env d s ii SAI).1 ii SAI
    (zeros (SAI.nr * SAI.nc * 3)) (depth_stage env d s ii SAI).2).2 with
  | none =>
    refine ⟨l0 ++ (predict_texture_view env d (depth_stage env d s ii SAI).1 ii SAI
      (zeros (SAI.nr * SAI.nc * 3)) (depth_stage env d s ii SAI).2).1, ?_, ?_, ?_, ?_⟩
    · simp [final, hl0, List.append_assoc]
    · intro e he
      rcases List.mem_append.mp he with he | he
      · exact hev0 e he
      · exact hpt e he
    · exact List.mem_append_left _ hw0
    · intro s1 h; simp at h
  | some predicted =>
    have har := apply_texture_residual_events env (depth_stage env d s ii SAI).1 ii SAI predicted
    refine ⟨l0 ++ (predict_texture_view env d (depth_stage env d s ii SAI).1 ii SAI
      (zeros (SAI.nr * SAI.nc * 3)) (depth_stage env d s ii SAI).2).1 ++
      (apply_texture_residual env (depth_stage env d s ii SAI).1 ii SAI predicted).1 ++
      [Event.write_internal_ppm ii, Event.write_output_ppm ii], ?_, ?_, ?_, ?_⟩
    · simp [final, hl0, List.append_assoc]
    · intro e he
      simp only [List.mem_append, List.mem_cons, List.mem_singleton, List.not_mem_nil,
        or_false] at he
      rcases he with ((he | he) | he) | he | he
      · exact hev0 e he
      · exact hpt e he
      · exact har.1 e he
      · subst he; exact rfl
      · subst he; exact rfl
    · simp [hw0]
    · intro s1 _
      refine ⟨by simp, fun h => ?_⟩
      have := har.2 h
      simp [this]

theorem decode_view_none (env : Collaborators) (d : decoder) (s : Disk) (ii : Nat)
    (h : d.LF[ii]? = none) : decode_view env d s ii = Except.ok s := by
  unfold decode_view
  simp [h]

/-! ## Log of the view loop -/

theorem decode_loop_log (env : Collaborators) (d : decoder) (is : List Nat) (s : Disk) :
    ∃ l, (final (decode_loop env d is s)).log = s.log ++ l ∧
      (∀ e ∈ l, ∃ i ∈ is, ∃ SAI, d.LF[i]? = some SAI ∧ view_event SAI i e) ∧
      (∀ s1, decode_loop env d is s = Except.ok s1 → ∀ i ∈ is, ∀ SAI, d.LF[i]? = some SAI →
        Event.write_out_pgm i ∈ l ∧ Event.write_internal_ppm i ∈ l ∧
        (SAI.has_color_residual = true →
          Event.dequantize_residual i 10 (residual_quantization SAI.level).1
            (residual_quantization SAI.level).2 ∈ l)) := by
  induction is generalizing s with
  | nil => exact ⟨[], by simp [decode_loop, final], by simp, by simp⟩
  | cons ii rest ih =>
    cases hLF : d.LF[ii]? with
    | none =>
      obtain ⟨l, hl, hev, hok⟩ := ih s
      refine ⟨l, ?_, ?_, ?_⟩
      · simpa [decode_loop, decode_view_none env d s ii hLF] using hl
      · intro e he
        obtain ⟨i, hi, h⟩ := hev e he
        exact ⟨i, List.mem_cons_of_mem _ hi, h⟩
      · intro s1 h1 i hi SAI hSAI
        rw [decode_loop, decode_view_none env d s ii hLF] at h1
        rcases List.mem_cons.mp hi with hi | hi
        · subst hi; rw [hLF] at hSAI; exact absurd hSAI (by simp)
        · exact hok s1 h1 i hi SAI hSAI
    | some SAI0 =>
      obtain ⟨l0, hl0, hev0, hw0, hok0⟩ := decode_view_log env d s ii SAI0 hLF
      cases hv : decode_view env d s ii with
      | error s1 =>
        refine ⟨l0, ?_, ?_, ?_⟩
        · rw [hv] at hl0
          simpa [decode_loop, hv, final] using hl0
        · intro e he
          exact ⟨ii, by simp, SAI0, hLF, hev0 e he⟩
        · intro s2 h2
          simp [decode_loop, hv] at h2
      | ok s1 =>
        obtain ⟨l, hl, hev, hok⟩ := ih s1
        have hs1 : s1.log = s.log ++ l0 := by rw [hv] at hl0; simpa [final] using hl0
        refine ⟨l0 ++ l, ?_, ?_, ?_⟩
        · simp only [decode_loop, hv]
          rw [hl, hs1, List.append_assoc]
        · intro e he
          rcases List.mem_append.mp he with he | he
          · exact ⟨ii, by simp, SAI0, hLF, hev0 e he⟩
          · obtain ⟨i, hi, h⟩ := hev e he
            exact ⟨i, List.mem_cons_of_mem _ hi, h⟩
        · intro s2 h2 i hi SAI hSAI
          simp only [decode_loop, hv] at h2
          rcases List.mem_cons.mp hi with hi | hi
          · subst hi
            rw [hLF] at hSAI
            have hS := Option.some.inj hSAI
            subst hS
            obtain ⟨h3, h4⟩ := hok0 s1 hv
            exact ⟨List.mem_append_left _ hw0, List.mem_append_left _ h3,
              fun h => List.mem_append_left _ (h4 h)⟩
          · obtain ⟨h3, h4, h5⟩ := hok s2 h2 i hi SAI hSAI
            exact ⟨List.mem_append_right _ h3, List.mem_append_right _ h4,
              fun h => List.mem_append_right _ (h5 h)⟩

/-! ## Log of the level loop -/

theorem write_raw_residuals_log (env : Collaborators) (d : decoder) (order : List Nat)
    (frames : List Image) (ks : List Nat) (s : Disk) :
    ∃ l, (final (write_raw_residuals env d order frames ks s)).log = s.log ++ l ∧
      (∀ e ∈ l, ∃ i, e = Event.write_raw_texture_residual i) ∧
      (∀ s1, write_raw_residuals env d order frames ks s = Except.ok s1 →
        ∀ k ∈ ks, ∀ idx SAI, order[k]? = some idx → d.LF[idx]? = some SAI →
          SAI.has_color_residual = true → Event.write_raw_texture_residual idx ∈ l) := by
  induction ks generalizing s with
  | nil => exact ⟨[], by simp [write_raw_residuals, final], by simp, by simp⟩
  | cons k ks ih =>
    cases ho : order[k]? with
    | none => exact ⟨[], by simp [write_raw_residuals, ho, final], by simp,
        by simp [write_raw_residuals, ho]⟩
    | some idx =>
      cases hL : d.LF[idx]? with
      | none => exact ⟨[], by simp [write_raw_residuals, ho, hL, final], by simp,
          by simp [write_raw_residuals, ho, hL]⟩
      | some SAI =>
        by_cases hres : SAI.has_color_residual = true
        · cases hf : frames[k]? with
          | none => exact ⟨[], by simp [write_raw_residuals, ho, hL, hres, hf, final], by simp,
              by simp [write_raw_residuals, ho, hL, hres, hf]⟩
          | some frame =>
            obtain ⟨l, hl, hev, hok⟩ := ih
              { s with
                raw_texture_residual :=
                  Function.update s.raw_texture_residual idx (some (raw_residual env d.LF SAI frame))
                log := s.log ++ [Event.write_raw_texture_residual idx] }
            have heq : write_raw_residuals env d order frames (k :: ks) s =
                write_raw_residuals env d order frames ks
                  { s with
                    raw_texture_residual :=
                      Function.update s.raw_texture_residual idx
                        (some (raw_residual env d.LF SAI frame))
                    log := s.log ++ [Event.write_raw_texture_residual idx] } := by
              rw [write_raw_residuals]
              simp only [ho, hL, hres, hf, if_true]
            rw [heq]
            refine ⟨Event.write_raw_texture_residual idx :: l, ?_, ?_, ?_⟩
            · rw [hl]; simp
            · intro e he
              rcases List.mem_cons.mp he with he | he
              · exact ⟨idx, he⟩
              · exact hev e he
            · intro s1 h1 k1 hk1 idx1 SAI1 ho1 hL1 hres1
              rcases List.mem_cons.mp hk1 with hk | hk
              · subst hk
                rw [ho] at ho1
                have := Option.some.inj ho1
                subst this
                exact List.mem_cons_self _ _
              · exact List.mem_cons_of_mem _ (hok s1 h1 k1 hk idx1 SAI1 ho1 hL1 hres1)
        · have heq : write_raw_residuals env d order frames (k :: ks) s =
              write_raw_residuals env d order frames ks s := by
            rw [write_raw_residuals]
            simp only [ho, hL, hres]
            simp
          rw [heq]
          obtain ⟨l, hl, hev, hok⟩ := ih s
          refine ⟨l, hl, hev, ?_⟩
          intro s1 h1 k1 hk1 idx1 SAI1 ho1 hL1 hres1
          rcases List.mem_cons.mp hk1 with hk | hk
          · subst hk
            rw [ho] at ho1
            have := Option.some.inj ho1
            subst this
            rw [hL] at hL1
            have := Option.some.inj hL1
            subst this
            exact absurd hres1 hres
          · exact hok s1 h1 k1 hk idx1 SAI1 ho1 hL1 hres1

theorem mem_view_indices (LF : List view) (hlevel : Int) (v : Nat) (SAI : view)
    (hv : LF[v]? = some SAI) (hl : SAI.level = hlevel) : v ∈ view_indices LF hlevel := by
  have hlt : v < LF.length := by
    by_contra h
    rw [List.getElem?_eq_none (by omega)] at hv
    exact absurd hv (by simp)
  simp [view_indices, List.mem_filter, hlt, hv, hl]

theorem texture_residual_for_level_of_mem (LF : List view) (indices : List Nat) (v : Nat)
    (SAI : view) (hv : LF[v]? = some SAI) (hmem : v ∈ indices)
    (hres : SAI.has_color_residual = true) : texture_residual_for_level LF indices = true := by
  simp only [texture_residual_for_level, List.any_eq_true]
  exact ⟨v, hmem, by simp [hv, hres]⟩

theorem decode_texture_level_log (env : Collaborators) (d : decoder) (s : Disk) (hlevel : Int) :
    ∃ l, (final (decode_texture_level env d s hlevel)).log = s.log ++ l ∧
      (∀ e ∈ l, level_event e = true) ∧
      (∀ s1, decode_texture_level env d s hlevel = Except.ok s1 →
        (env.getScanOrder d.LF (view_indices d.LF hlevel)).Perm (view_indices d.LF hlevel) →
        ∀ v SAI, d.LF[v]? = some SAI → SAI.level = hlevel → SAI.has_color_residual = true →
          ∃ b c, l = Event.decodeHM hlevel :: b ++ Event.write_raw_texture_residual v :: c) := by
  by_cases htr : texture_residual_for_level d.LF (view_indices d.LF hlevel) = true
  · cases ho : (env.getScanOrder d.LF (view_indices d.LF hlevel))[0]? with
    | none =>
      exact ⟨[], by simp [decode_texture_level, htr, ho, final], by simp,
        by simp [decode_texture_level, htr, ho]⟩
    | some i0 =>
      obtain ⟨l, hl, hev, hok⟩ := write_raw_residuals_log env d
        (env.getScanOrder d.LF (view_indices d.LF hlevel))
        (env.convertYUVseqTo444 (s.hevc_texture i0)
          (if hlevel > 1 then YUVformat.YUVTYPE
            else if d.nc_color_ref > 1 then YUVformat.YUV444 else YUVformat.YUV400)
          (((d.LF.head?.map (fun v => (v.nr : Int))).getD 0) + VERP d.LF)
          (((d.LF.head?.map (fun v => (v.nc : Int))).getD 0) + HORP d.LF)
          (env.getScanOrder d.LF (view_indices d.LF hlevel)).length)
        (List.range (view_indices d.LF hlevel).length)
        { s with log := s.log ++ [Event.decodeHM hlevel] }
      have heq : decode_texture_level env d s hlevel =
          write_raw_residuals env d (env.getScanOrder d.LF (view_indices d.LF hlevel))
            (env.convertYUVseqTo444 (s.hevc_texture i0)
              (if hlevel > 1 then YUVformat.YUVTYPE
                else if d.nc_color_ref > 1 then YUVformat.YUV444 else YUVformat.YUV400)
              (((d.LF.head?.map (fun v => (v.nr : Int))).getD 0) + VERP d.LF)
              (((d.LF.head?.map (fun v => (v.nc : Int))).getD 0) + HORP d.LF)
              (env.getScanOrder d.LF (view_indices d.LF hlevel)).length)
            (List.range (view_indices d.LF hlevel).length)
            { s with log := s.log ++ [Event.decodeHM hlevel] } := by
        simp only [decode_texture_level, htr, ho, if_true]
      rw [heq]
      refine ⟨Event.decodeHM hlevel :: l, ?_, ?_, ?_⟩
      · rw [hl]; simp
      · intro e he
        rcases List.mem_cons.mp he with he | he
        · subst he; rfl
        · obtain ⟨i, hi⟩ := hev e he
          subst hi; rfl
      · intro s1 h1 hperm v SAI hv hlev hres
        have hmem : v ∈ env.getScanOrder d.LF (view_indices d.LF hlevel) :=
          hperm.mem_iff.mpr (mem_view_indices d.LF hlevel v SAI hv hlev)
        obtain ⟨k, hk, hkv⟩ := List.getElem_of_mem hmem
        have hk1 : k ∈ List.range (view_indices d.LF hlevel).length := by
          rw [List.mem_range, ← hperm.length_eq]; exact hk
        have hget : (env.getScanOrder d.LF (view_indices d.LF hlevel))[k]? = some v := by
          rw [List.getElem?_eq_getElem hk, hkv]
        have hw := hok s1 h1 k hk1 v SAI hget hv hres
        obtain ⟨b, c, hbc⟩ := List.append_of_mem hw
        exact ⟨b, c, by rw [hbc]; simp⟩
  · refine ⟨[], by simp [decode_texture_level, htr, final], by simp, ?_⟩
    intro s1 _ _ v SAI hv hlev hres
    exact absurd (texture_residual_for_level_of_mem d.LF _ v SAI hv
      (mem_view_indices d.LF hlevel v SAI hv hlev) hres) htr

theorem decode_texture_levels_log (env : Collaborators) (d : decoder) (levels : List Int)
    (s : Disk) :
    ∃ l, (final (decode_texture_levels env d levels s)).log = s.log ++ l ∧
      (∀ e ∈ l, level_event e = true) ∧
      (∀ s1, decode_texture_levels env d levels s = Except.ok s1 →
        (∀ hlevel, (env.getScanOrder d.LF (view_indices d.LF hlevel)).Perm
          (view_indices d.LF hlevel)) →
        ∀ hlevel ∈ levels, ∀ v SAI, d.LF[v]? = some SAI → SAI.level = hlevel →
          SAI.has_color_residual = true →
          ∃ a b c, l = a ++ Event.decodeHM hlevel :: b ++ Event.write_raw_texture_residual v :: c) := by
  induction levels generalizing s with
  | nil => exact ⟨[], by simp [decode_texture_levels, final], by simp, by simp⟩
  | cons h rest ih =>
    obtain ⟨l0, hl0, hev0, hok0⟩ := decode_texture_level_log env d s h
    cases hv : decode_texture_level env d s h with
    | error s1 =>
      refine ⟨l0, ?_, hev0, ?_⟩
      · rw [hv] at hl0
        simpa [decode_texture_levels, hv, final] using hl0
      · intro s2 h2
        simp [decode_texture_levels, hv] at h2
    | ok s1 =>
      obtain ⟨l, hl, hev, hok⟩ := ih s1
      have hs1 : s1.log = s.log ++ l0 := by rw [hv] at hl0; simpa [final] using hl0
      refine ⟨l0 ++ l, ?_, ?_, ?_⟩
      · simp only [decode_texture_levels, hv]
        rw [hl, hs1, List.append_assoc]
      · intro e he
        rcases List.mem_append.mp he with he | he
        · exact hev0 e he
        · exact hev e he
      · intro s2 h2 hperm hlevel hmem v SAI hvw hlev hres
        simp only [decode_texture_levels, hv] at h2
        rcases List.mem_cons.mp hmem with hm | hm
        · subst hm
          obtain ⟨b, c, hbc⟩ := hok0 s1 hv (hperm _) v SAI hvw hlev hres
          exact ⟨[], b, c ++ l, by rw [hbc]; simp⟩
        · obtain ⟨a, b, c, habc⟩ := hok s2 h2 hperm hlevel hm v SAI hvw hlev hres
          exact ⟨l0 ++ a, b, c, by rw [habc]; simp⟩

theorem mem_hlevels (maxh hlevel : Int) (h1 : 1 ≤ hlevel) (h2 : hlevel ≤ maxh) :
    hlevel ∈ hlevels maxh := by
  unfold hlevels
  have h3 : ((hlevel - 1).toNat : Int) = hlevel - 1 := Int.toNat_of_nonneg (by omega)
  have h4 : (maxh.toNat : Int) = maxh := Int.toNat_of_nonneg (by omega)
  have h5 : (hlevel - 1).toNat < maxh.toNat := by
    have h6 : ((hlevel - 1).toNat : Int) < (maxh.toNat : Int) := by rw [h3, h4]; omega
    exact_mod_cast h6
  exact List.mem_map.mpr ⟨(hlevel - 1).toNat, List.mem_range.mpr h5, by rw [h3]; ring⟩

theorem split_after (A B pre post : List Event) (e : Event) (h : A ++ B = pre ++ e :: post)
    (hA : e ∉ A) : ∃ p, pre = A ++ p ∧ B = p ++ e :: post := by
  rcases List.append_eq_append_iff.mp h with ⟨a, ha, hb⟩ | ⟨c, hc, hd⟩
  · exact ⟨a, ha, hb⟩
  · cases c with
    | nil =>
      simp only [List.append_nil, List.nil_append] at hc hd
      exact ⟨[], by simp [hc], hd.symm⟩
    | cons x c =>
      simp only [List.cons_append, List.cons.injEq] at hd
      rw [hc, ← hd.1] at hA
      exact absurd (by simp) hA

/-! ## Order of reads and writes -/

theorem view_event_reference_read (SAI : view) (ii : Nat) (e : Event) (r : Nat)
    (h : view_event SAI ii e) (hr : e.reference_read = some r) :
    r ∈ SAI.references ∧ e.reader = some ii := by
  cases e <;> simp [Event.reference_read] at hr <;> simp only [view_event] at h
  · subst hr; exact ⟨h.2, by simp [Event.reader, h.1]⟩
  · subst hr; exact ⟨h.2, by simp [Event.reader, h.1]⟩
  · subst hr; exact ⟨h.2.1, by simp [Event.reader, h.1]⟩

theorem level_event_reference_read (e : Event) (h : level_event e = true) :
    e.reference_read = none := by
  cases e <;> simp [level_event] at h <;> rfl

theorem metadata_event_reference_read (e : Event) (h : metadata_event e = true) :
    e.reference_read = none := by
  cases e <;> simp [metadata_event] at h <;> rfl

/-- Appending calls whose reference reads are all served by the log so far
keeps the property that every reference read follows the writes of the
reference's inverse depth and texture. -/
theorem reads_follow_writes_append (log l : List Event)
    (hP : ∀ pre e post, log = pre ++ e :: post → ∀ r, e.reference_read = some r →
      Event.write_out_pgm r ∈ pre ∧ Event.write_internal_ppm r ∈ pre)
    (hl : ∀ e ∈ l, ∀ r, e.reference_read = some r →
      Event.write_out_pgm r ∈ log ∧ Event.write_internal_ppm r ∈ log) :
    ∀ pre e post, log ++ l = pre ++ e :: post → ∀ r, e.reference_read = some r →
      Event.write_out_pgm r ∈ pre ∧ Event.write_internal_ppm r ∈ pre := by
  intro pre e post h r hr
  rcases List.append_eq_append_iff.mp h with ⟨a, ha, hb⟩ | ⟨c, hc, hd⟩
  · have he : e ∈ l := by rw [hb]; simp
    obtain ⟨h1, h2⟩ := hl e he r hr
    rw [ha]
    exact ⟨List.mem_append_left _ h1, List.mem_append_left _ h2⟩
  · cases c with
    | nil =>
      simp only [List.append_nil, List.nil_append] at hc hd
      have he : e ∈ l := by rw [← hd]; simp
      obtain ⟨h1, h2⟩ := hl e he r hr
      rw [← hc]
      exact ⟨h1, h2⟩
    | cons x c =>
      simp only [List.cons_append, List.cons.injEq] at hd
      rw [← hd.1] at hc
      exact hP pre e c hc r hr

theorem decode_loop_reads_follow_writes (env : Collaborators) (d : decoder)
    (htopo : ∀ (v : Nat) (SAI : view), d.LF[v]? = some SAI → ∀ r ∈ SAI.references, r < v) (m : Nat) :
    ∀ (k : Nat) (s : Disk),
      (∀ pre e post, s.log = pre ++ e :: post → ∀ r, e.reference_read = some r →
        Event.write_out_pgm r ∈ pre ∧ Event.write_internal_ppm r ∈ pre) →
      (∀ r, r < k → r < d.LF.length →
        Event.write_out_pgm r ∈ s.log ∧ Event.write_internal_ppm r ∈ s.log) →
      ∀ pre e post, (final (decode_loop env d (List.range' k m) s)).log = pre ++ e :: post →
        ∀ r, e.reference_read = some r →
          Event.write_out_pgm r ∈ pre ∧ Event.write_internal_ppm r ∈ pre := by
  induction m with
  | zero =>
    intro k s hP _
    simpa [decode_loop, final] using hP
  | succ m ih =>
    intro k s hP hW
    have hrange : List.range' k (m + 1) = k :: List.range' (k + 1) m := by
      simp [List.range'_succ]
    rw [hrange]
    cases hLF : d.LF[k]? with
    | none =>
      rw [decode_loop, decode_view_none env d s k hLF]
      refine ih (k + 1) s hP ?_
      intro r hr hlen
      have hk : d.LF.length ≤ k := by
        by_contra hlt
        rw [List.getElem?_eq_getElem (by omega)] at hLF
        exact absurd hLF (by simp)
      exact hW r (by omega) hlen
    | some SAI =>
      obtain ⟨l0, hl0, hev0, hw0, hok0⟩ := decode_view_log env d s k SAI hLF
      have hP0 := reads_follow_writes_append s.log l0 hP (by
        intro e he r hr
        obtain ⟨hmem, _⟩ := view_event_reference_read SAI k e r (hev0 e he) hr
        have hlt := htopo k SAI hLF r hmem
        have hk : k < d.LF.length := by
          by_contra hge
          rw [List.getElem?_eq_none (by omega)] at hLF
          exact absurd hLF (by simp)
        exact hW r hlt (by omega))
      cases hv : decode_view env d s k with
      | error s1 =>
        rw [hv] at hl0
        simp only [final] at hl0
        simp only [decode_loop, hv, final, hl0]
        exact hP0
      | ok s1 =>
        rw [hv] at hl0
        simp only [final] at hl0
        simp only [decode_loop, hv]
        refine ih (k + 1) s1 (by rw [hl0]; exact hP0) ?_
        intro r hr hlen
        rw [hl0]
        rcases Nat.lt_succ_iff_lt_or_eq.mp hr with hlt | heq
        · obtain ⟨h1, h2⟩ := hW r hlt hlen
          exact ⟨List.mem_append_left _ h1, List.mem_append_left _ h2⟩
        · subst heq
          exact ⟨List.mem_append_right _ hw0, List.mem_append_right _ (hok0 s1 hv).1⟩

/-- Log of the reconstruction passes: the calls of the level loop, then the
calls of the view loop, which runs only when the level loop has finished. -/
theorem reconstruct_views_log (env : Collaborators) (d : decoder) (s : Disk) :
    ∃ l2 l3, (final (reconstruct_views env d s)).log = s.log ++ l2 ++ l3 ∧
      (∀ e ∈ l2, level_event e = true) ∧
      (∀ e ∈ l3, ∃ i SAI, d.LF[i]? = some SAI ∧ view_event SAI i e) ∧
      (l3 = [] ∨
        ((∀ hlevel, (env.getScanOrder d.LF (view_indices d.LF hlevel)).Perm
            (view_indices d.LF hlevel)) →
          ∀ (v : Nat) (SAI : view), d.LF[v]? = some SAI → 1 ≤ SAI.level → SAI.level ≤ d.maxh →
            SAI.has_color_residual = true →
            ∃ a b c, l2 = a ++ Event.decodeHM SAI.level :: b ++
              Event.write_raw_texture_residual v :: c)) ∧
      (∀ sf, reconstruct_views env d s = Except.ok sf →
        ∀ (i : Nat) (SAI : view), d.LF[i]? = some SAI →
          Event.write_out_pgm i ∈ l3 ∧ Event.write_internal_ppm i ∈ l3 ∧
          (SAI.has_color_residual = true →
            Event.dequantize_residual i 10 (residual_quantization SAI.level).1
              (residual_quantization SAI.level).2 ∈ l3)) := by
  obtain ⟨l2, hl2, hev2, hok2⟩ := decode_texture_levels_log env d (hlevels d.maxh) s
  cases hv : decode_texture_levels env d (hlevels d.maxh) s with
  | error s1 =>
    refine ⟨l2, [], ?_, hev2, by simp, Or.inl rfl, ?_⟩
    · rw [hv] at hl2
      simpa [reconstruct_views, hv, final] using hl2
    · intro sf h
      simp [reconstruct_views, hv] at h
  | ok s1 =>
    have hs1 : s1.log = s.log ++ l2 := by rw [hv] at hl2; simpa [final] using hl2
    obtain ⟨l3, hl3, hev3, hok3⟩ := decode_loop_log env d (List.range d.LF.length) s1
    refine ⟨l2, l3, ?_, hev2, ?_, Or.inr ?_, ?_⟩
    · simp only [reconstruct_views, hv]
      rw [hl3, hs1]
    · intro e he
      obtain ⟨i, _, SAI, h1, h2⟩ := hev3 e he
      exact ⟨i, SAI, h1, h2⟩
    · intro hperm v SAI hvw h1 h2 hres
      exact hok2 s1 hv hperm SAI.level (mem_hlevels _ _ h1 h2) v SAI hvw rfl hres
    · intro sf h i SAI hi
      simp only [reconstruct_views, hv] at h
      have hlt : i < d.LF.length := by
        by_contra hge
        rw [List.getElem?_eq_none (by omega)] at hi
        exact absurd hi (by simp)
      exact hok3 sf h i (List.mem_range.mpr hlt) SAI hi

/-- C1 (amended): when every reference index of every view is smaller than the
view's own index, every read of a reference view's inverse depth or texture
that `decode_views` makes (for warping or for the sparse filter) comes after
the writes of that reference's inverse depth and of its texture. -/
theorem reference_reads_follow_writes (env : Collaborators) (d : decoder) (s : Disk)
    (htopo : ∀ (v : Nat) (SAI : view), d.LF[v]? = some SAI → ∀ r ∈ SAI.references, r < v)
    (hs : ∀ e ∈ s.log, metadata_event e = true) :
    ∀ pre e post, (final (reconstruct_views env d s)).log = pre ++ e :: post →
      ∀ r, e.reference_read = some r →
        Event.write_out_pgm r ∈ pre ∧ Event.write_internal_ppm r ∈ pre := by
  have hP0 : ∀ pre e post, s.log = pre ++ e :: post → ∀ r, e.reference_read = some r →
      Event.write_out_pgm r ∈ pre ∧ Event.write_internal_ppm r ∈ pre := by
    intro pre e post h r hr
    have he : e ∈ s.log := by rw [h]; simp
    rw [metadata_event_reference_read e (hs e he)] at hr
    exact absurd hr (by simp)
  obtain ⟨l2, hl2, hev2, _⟩ := decode_texture_levels_log env d (hlevels d.maxh) s
  have hP2 := reads_follow_writes_append s.log l2 hP0 (by
    intro e he r hr
    rw [level_event_reference_read e (hev2 e he)] at hr
    exact absurd hr (by simp))
  cases hv : decode_texture_levels env d (hlevels d.maxh) s with
  | error s1 =>
    rw [hv] at hl2
    simp only [final] at hl2
    simp only [reconstruct_views, hv, final, hl2]
    exact hP2
  | ok s1 =>
    rw [hv] at hl2
    simp only [final] at hl2
    simp only [reconstruct_views, hv, List.range_eq_range']
    exact decode_loop_reads_follow_writes env d htopo d.LF.length 0 s1
      (by rw [hl2]; exact hP2) (by intro r hr; omega)

theorem residual_quantization_eq (level : Int) :
    residual_quantization level = if level ≤ 1 then (1, 0) else (2, 2 ^ 10 - 1) := by
  unfold residual_quantization
  by_cases h : level ≤ 1
  · have h1 : ¬ level > 1 := by omega
    simp [h, h1]
  · have h1 : level > 1 := by omega
    simp only [h, h1, if_true, if_false]
    rfl

theorem example_log_empty : ∀ e ∈ Disk.empty.log, metadata_event e = true := by
  simp [Disk.empty]

theorem reference_reads_follow_writes_witness :
    (∀ (v : Nat) (SAI : view), (example_decoder backward_reference_views).LF[v]? = some SAI →
        ∀ r ∈ SAI.references, r < v) ∧
      (∀ e ∈ Disk.empty.log, metadata_event e = true) ∧
      ∀ pre e post,
        (final (reconstruct_views (example_env false) (example_decoder backward_reference_views)
          Disk.empty)).log = pre ++ e :: post →
        ∀ r, e.reference_read = some r →
          Event.write_out_pgm r ∈ pre ∧ Event.write_internal_ppm r ∈ pre := by
  have htopo : ∀ (v : Nat) (SAI : view),
      (example_decoder backward_reference_views).LF[v]? = some SAI →
        ∀ r ∈ SAI.references, r < v := by
    intro v SAI h r hr
    rcases v with _ | _ | v
    · simp [example_decoder, backward_reference_views] at h
      subst h
      simp [example_view] at hr
    · simp [example_decoder, backward_reference_views] at h
      subst h
      simp at hr
      omega
    · simp [example_decoder, backward_reference_views] at h
  exact ⟨htopo, example_log_empty,
    reference_reads_follow_writes (example_env false) (example_decoder backward_reference_views)
      Disk.empty htopo example_log_empty⟩

theorem level_event_reader (e : Event) (h : level_event e = true) : e.reader = none := by
  cases e <;> simp [level_event] at h <;> rfl

theorem metadata_event_reader (e : Event) (h : metadata_event e = true) : e.reader = none := by
  cases e <;> simp [metadata_event] at h <;> rfl

theorem view_event_reader (SAI : view) (ii : Nat) (e : Event) (v : Nat)
    (h : view_event SAI ii e) (hr : e.reader = some v) : v = ii ∧ SAI.references ≠ [] := by
  cases e <;> simp [Event.reader] at hr <;> simp only [view_event] at h
  · subst hr; exact ⟨h.1, List.ne_nil_of_mem h.2⟩
  · subst hr; exact ⟨h.1, List.ne_nil_of_mem h.2⟩
  · subst hr; exact ⟨h.1, List.ne_nil_of_mem h.2.1⟩

/-- C1 (counterexample): view 0 lists view 1 as its reference; the inverse depth
of view 1 is read for view 0 before either file of view 1 has been written. -/
theorem forward_reference_counterexample :
    (example_decoder forward_reference_views).LF.map (fun v => v.references) = [[1], []] ∧
      ∃ pre post,
        (final (reconstruct_views (example_env false) (example_decoder forward_reference_views)
          Disk.empty)).log = pre ++ Event.read_out_pgm 0 1 :: post ∧
        Event.write_out_pgm 1 ∉ pre ∧ Event.write_internal_ppm 1 ∉ pre :=
  ⟨by decide, [Event.WaSP_predict_depth 0, Event.write_out_pgm 0],
    [Event.read_internal_ppm 0 1, Event.write_internal_ppm 0, Event.write_output_ppm 0,
      Event.WaSP_predict_depth 1, Event.write_out_pgm 1, Event.write_internal_ppm 1,
      Event.write_output_ppm 1], by decide, by decide, by decide⟩

/-- C2 (amended): for every view without references (`n_references = 0`),
whatever its level, the texture prediction of `decode_views` makes no read of
a view's inverse depth or texture on its behalf (what the depth-prediction
collaborator reads is not part of the log). -/
theorem no_references_no_reads (env : Collaborators) (d : decoder) (s : Disk)
    (hs : ∀ e ∈ s.log, metadata_event e = true) (v : Nat) (SAI : view)
    (hv : d.LF[v]? = some SAI) (href : SAI.n_references = 0) :
    ∀ e ∈ (final (reconstruct_views env d s)).log, e.reader ≠ some v := by
  obtain ⟨l2, l3, hlog, hev2, hev3, _, _⟩ := reconstruct_views_log env d s
  intro e he hr
  rw [hlog] at he
  rcases List.mem_append.mp he with he | he
  · rcases List.mem_append.mp he with he | he
    · rw [metadata_event_reader e (hs e he)] at hr
      exact absurd hr (by simp)
    · rw [level_event_reader e (hev2 e he)] at hr
      exact absurd hr (by simp)
  · obtain ⟨i, SAI1, hi, hview⟩ := hev3 e he
    obtain ⟨hvi, hne⟩ := view_event_reader SAI1 i e v hview hr
    subst hvi
    rw [hv] at hi
    have hS := Option.some.inj hi
    subst hS
    exact hne (List.length_eq_zero.mp href)

theorem no_references_no_reads_witness :
    (∀ e ∈ Disk.empty.log, metadata_event e = true) ∧
      (example_decoder backward_reference_views).LF[0]? = some example_view ∧
      example_view.n_references = 0 ∧
      ∀ e ∈ (final (reconstruct_views (example_env false)
        (example_decoder backward_reference_views) Disk.empty)).log, e.reader ≠ some 0 :=
  ⟨by simp [Disk.empty], rfl, rfl,
    no_references_no_reads (example_env false) (example_decoder backward_reference_views)
      Disk.empty (by simp [Disk.empty]) 0 example_view rfl rfl⟩

/-- C2 (counterexample): view 1 has level 0 and lists view 0 as its reference;
the inverse depth and the texture of view 0 are read while view 1 is
reconstructed. -/
theorem level0_reference_counterexample :
    (level0_reference_views[1]?.map (fun v => (v.level, v.references))) = some (0, [0]) ∧
      Event.read_out_pgm 1 0 ∈ (final (reconstruct_views (example_env false)
        (example_decoder level0_reference_views) Disk.empty)).log ∧
      Event.read_internal_ppm 1 0 ∈ (final (reconstruct_views (example_env false)
        (example_decoder level0_reference_views) Disk.empty)).log :=
  ⟨by decide, by decide, by decide⟩

/-- C3: every dequantisation of a texture residual logged by `decode_views` is
for a view with a coded texture residual, at bit depth 10, with `Q = 1` and
offset 0 when the view's level is at most 1 and with `Q = 2` and offset
`2^10 - 1` when it is above 1; a run that finishes makes that call for every
such view; and the texture after the step is the output of `apply_residual` on
the residual dequantised with these values. -/
theorem residual_dequantization_parameters (env : Collaborators) (d : decoder) (s : Disk)
    (hs : ∀ e ∈ s.log, metadata_event e = true) :
    (∀ i bpc Q offset,
        Event.dequantize_residual i bpc Q offset ∈ (final (reconstruct_views env d s)).log →
        ∃ SAI, d.LF[i]? = some SAI ∧ SAI.has_color_residual = true ∧ bpc = 10 ∧
          ((SAI.level ≤ 1 ∧ Q = 1 ∧ offset = 0) ∨
            (1 < SAI.level ∧ Q = 2 ∧ offset = 2 ^ 10 - 1))) ∧
      (∀ sf, reconstruct_views env d s = Except.ok sf →
        ∀ (i : Nat) (SAI : view), d.LF[i]? = some SAI → SAI.has_color_residual = true →
          ((SAI.level ≤ 1 ∧ Event.dequantize_residual i 10 1 0 ∈ sf.log) ∨
            (1 < SAI.level ∧ Event.dequantize_residual i 10 2 (2 ^ 10 - 1) ∈ sf.log))) ∧
      (∀ (s1 : Disk) (ii : Nat) (SAI : view) (color : Image), SAI.has_color_residual = true →
        (apply_texture_residual env s1 ii SAI color).2 =
          poke color 0 ((env.apply_residual color
            (env.dequantize_residual (read_image (s1.raw_texture_residual ii))
              SAI.nr SAI.nc SAI.ncomp 10 (if SAI.level ≤ 1 then 1 else 2)
              (if SAI.level ≤ 1 then 0 else 2 ^ 10 - 1))
            SAI.nr SAI.nc SAI.ncomp 10).take (SAI.nr * SAI.nc * SAI.ncomp))) := by
  obtain ⟨l2, l3, hlog, hev2, hev3, _, hok⟩ := reconstruct_views_log env d s
  refine ⟨?_, ?_, ?_⟩
  · intro i bpc Q offset he
    rw [hlog] at he
    rcases List.mem_append.mp he with he | he
    · rcases List.mem_append.mp he with he | he
      · exact absurd (hs _ he) (by simp [metadata_event])
      · exact absurd (hev2 _ he) (by simp [level_event])
    · obtain ⟨j, SAI, hj, hview⟩ := hev3 _ he
      simp only [view_event] at hview
      obtain ⟨hij, hres, hbpc, hQ, hoff⟩ := hview
      subst hij
      refine ⟨SAI, hj, hres, hbpc, ?_⟩
      rw [residual_quantization_eq] at hQ hoff
      by_cases hl : SAI.level ≤ 1
      · simp only [hl, if_true] at hQ hoff
        exact Or.inl ⟨hl, hQ, hoff⟩
      · simp only [hl, if_false] at hQ hoff
        exact Or.inr ⟨by omega, hQ, hoff⟩
  · intro sf hsf i SAI hi hres
    have hmem := (hok sf hsf i SAI hi).2.2 hres
    have hfin : sf.log = s.log ++ l2 ++ l3 := by rw [hsf] at hlog; simpa [final] using hlog
    rw [residual_quantization_eq] at hmem
    by_cases hl : SAI.level ≤ 1
    · simp only [hl, if_true] at hmem
      exact Or.inl ⟨hl, by rw [hfin]; exact List.mem_append_right _ hmem⟩
    · simp only [hl, if_false] at hmem
      exact Or.inr ⟨by omega, by rw [hfin]; exact List.mem_append_right _ hmem⟩
  · intro s1 ii SAI color hres
    simp only [apply_texture_residual, hres, if_true, residual_quantization_eq]
    by_cases hl : SAI.level ≤ 1 <;> simp [hl]

theorem residual_dequantization_parameters_witness :
    (∀ e ∈ Disk.empty.log, metadata_event e = true) ∧
      ((∀ i bpc Q offset,
        Event.dequantize_residual i bpc Q offset ∈ (final (reconstruct_views (example_env false)
          (example_decoder level1_residual_views) Disk.empty)).log →
        ∃ SAI, (example_decoder level1_residual_views).LF[i]? = some SAI ∧
          SAI.has_color_residual = true ∧ bpc = 10 ∧
          ((SAI.level ≤ 1 ∧ Q = 1 ∧ offset = 0) ∨
            (1 < SAI.level ∧ Q = 2 ∧ offset = 2 ^ 10 - 1))) ∧
      (∀ sf, reconstruct_views (example_env false) (example_decoder level1_residual_views)
          Disk.empty = Except.ok sf →
        ∀ (i : Nat) (SAI : view), (example_decoder level1_residual_views).LF[i]? = some SAI →
          SAI.has_color_residual = true →
          ((SAI.level ≤ 1 ∧ Event.dequantize_residual i 10 1 0 ∈ sf.log) ∨
            (1 < SAI.level ∧ Event.dequantize_residual i 10 2 (2 ^ 10 - 1) ∈ sf.log))) ∧
      (∀ (s1 : Disk) (ii : Nat) (SAI : view) (color : Image), SAI.has_color_residual = true →
        (apply_texture_residual (example_env false) s1 ii SAI color).2 =
          poke color 0 (((example_env false).apply_residual color
            ((example_env false).dequantize_residual (read_image (s1.raw_texture_residual ii))
              SAI.nr SAI.nc SAI.ncomp 10 (if SAI.level ≤ 1 then 1 else 2)
              (if SAI.level ≤ 1 then 0 else 2 ^ 10 - 1))
            SAI.nr SAI.nc SAI.ncomp 10).take (SAI.nr * SAI.nc * SAI.ncomp)))) :=
  ⟨by simp [Disk.empty],
    residual_dequantization_parameters (example_env false)
      (example_decoder level1_residual_views) Disk.empty (by simp [Disk.empty])⟩

/-- C10 (amended): for every view with a coded texture residual whose level lies
between 1 and `maxh`, when the scan order of each level is a permutation of
the level's views, the read of the view's raw residual image by the residual
step comes after the batch decode of the view's level and, after that, the
write of the view's raw residual image. -/
theorem residual_read_follows_batch_decode (env : Collaborators) (d : decoder) (s : Disk)
    (hscan : ∀ hlevel, (env.getScanOrder d.LF (view_indices d.LF hlevel)).Perm
      (view_indices d.LF hlevel))
    (hs : ∀ e ∈ s.log, metadata_event e = true) :
    ∀ (pre post : List Event) (v : Nat) (SAI : view),
      (final (reconstruct_views env d s)).log =
        pre ++ Event.read_raw_texture_residual v :: post →
      d.LF[v]? = some SAI → 1 ≤ SAI.level → SAI.level ≤ d.maxh →
      SAI.has_color_residual = true ∧
        ∃ a b c, pre = a ++ Event.decodeHM SAI.level :: b ++
          Event.write_raw_texture_residual v :: c := by
  intro pre post v SAI hlog hv h1 h2
  obtain ⟨l2, l3, hfin, hev2, hev3, hbatch, _⟩ := reconstruct_views_log env d s
  rw [hfin] at hlog
  have hnot : Event.read_raw_texture_residual v ∉ s.log ++ l2 := by
    intro hmem
    rcases List.mem_append.mp hmem with he | he
    · exact absurd (hs _ he) (by simp [metadata_event])
    · exact absurd (hev2 _ he) (by simp [level_event])
  obtain ⟨p, hp, hl3⟩ := split_after (s.log ++ l2) l3 pre post _ hlog hnot
  have hmem3 : Event.read_raw_texture_residual v ∈ l3 := by rw [hl3]; simp
  obtain ⟨i, SAI1, hi, hview⟩ := hev3 _ hmem3
  simp only [view_event] at hview
  obtain ⟨hvi, hres⟩ := hview
  subst hvi
  rw [hv] at hi
  have hS := Option.some.inj hi
  subst hS
  refine ⟨hres, ?_⟩
  rcases hbatch with hnil | hb
  · rw [hnil] at hmem3
    exact absurd hmem3 (by simp)
  · obtain ⟨a, b, c, habc⟩ := hb hscan v SAI hv h1 h2 hres
    exact ⟨s.log ++ a, b, c ++ p, by rw [hp, habc]; simp⟩

theorem residual_read_follows_batch_decode_witness :
    (∀ hlevel, ((example_env false).getScanOrder (example_decoder level1_residual_views).LF
        (view_indices (example_decoder level1_residual_views).LF hlevel)).Perm
        (view_indices (example_decoder level1_residual_views).LF hlevel)) ∧
      (∀ e ∈ Disk.empty.log, metadata_event e = true) ∧
      ∀ (pre post : List Event) (v : Nat) (SAI : view),
        (final (reconstruct_views (example_env false) (example_decoder level1_residual_views)
          Disk.empty)).log = pre ++ Event.read_raw_texture_residual v :: post →
        (example_decoder level1_residual_views).LF[v]? = some SAI → 1 ≤ SAI.level →
        SAI.level ≤ (example_decoder level1_residual_views).maxh →
        SAI.has_color_residual = true ∧
          ∃ a b c, pre = a ++ Event.decodeHM SAI.level :: b ++
            Event.write_raw_texture_residual v :: c :=
  ⟨fun _ => List.Perm.refl _, by simp [Disk.empty],
    residual_read_follows_batch_decode (example_env false)
      (example_decoder level1_residual_views) Disk.empty (fun _ => List.Perm.refl _)
      (by simp [Disk.empty])⟩

/-- C10 (counterexample): a single view of level 0 with a coded texture residual;
its raw residual image is read by the residual step although no batch decode
has run and the image has never been written. -/
theorem level0_residual_counterexample :
    (level0_residual_views[0]?.map (fun v => (v.level, v.has_color_residual))) =
        some (0, true) ∧
      ∃ pre post,
        (final (reconstruct_views (example_env false) (example_decoder level0_residual_views)
          Disk.empty)).log = pre ++ Event.read_raw_texture_residual 0 :: post ∧
        Event.write_raw_texture_residual 0 ∉ pre ∧ Event.decodeHM 0 ∉ pre ∧
        (final (reconstruct_views (example_env false) (example_decoder level0_residual_views)
          Disk.empty)).raw_texture_residual 0 = none :=
  ⟨by decide, [Event.WaSP_predict_depth 0, Event.write_out_pgm 0],
    [Event.dequantize_residual 0 10 1 0, Event.apply_residual 0, Event.write_internal_ppm 0,
      Event.write_output_ppm 0], by decide, by decide, by decide, by decide⟩

/-! ## Files written by the view loop -/

theorem decode_loop_append (env : Collaborators) (d : decoder) (a b : List Nat) (s : Disk) :
    decode_loop env d (a ++ b) s =
      match decode_loop env d a s with
      | Except.error s1 => Except.error s1
      | Except.ok s1 => decode_loop env d b s1 := by
  induction a generalizing s with
  | nil => simp [decode_loop]
  | cons i a ih =>
    simp only [List.cons_append, decode_loop]
    cases decode_view env d s i with
    | error s1 => rfl
    | ok s1 => exact ih s1

theorem range_split (n ii : Nat) (h : ii < n) :
    List.range n = List.range ii ++ ii :: List.range' (ii + 1) (n - ii - 1) := by
  rw [List.range_eq_range', List.range_eq_range']
  have h1 : List.range' 0 ii ++ List.range' (0 + ii) (n - ii) = List.range' 0 (n - ii + ii) :=
    List.range'_append_1 0 ii (n - ii)
  have h2 : n - ii + ii = n := by omega
  have h3 : n - ii = (n - ii - 1) + 1 := by omega
  rw [h2] at h1
  rw [← h1, h3, List.range'_succ]
  simp

theorem depth_stage_files (env : Collaborators) (d : decoder) (s : Disk) (ii : Nat) (SAI : view) :
    (depth_stage env d s ii SAI).1.internal_ppm = s.internal_ppm ∧
      (depth_stage env d s ii SAI).1.jp2_residual_depth = s.jp2_residual_depth ∧
      (depth_stage env d s ii SAI).1.raw_texture_residual = s.raw_texture_residual ∧
      (∀ k, k ≠ ii → (depth_stage env d s ii SAI).1.out_pgm k = s.out_pgm k) ∧
      (depth_stage env d s ii SAI).1.out_pgm ii =
        some ((depth_stage env d s ii SAI).2.take (SAI.nr * SAI.nc)) := by
  unfold depth_stage reconstruct_depth
  split_ifs <;> simp_all [Function.update]

theorem decode_view_files (env : Collaborators) (d : decoder) (s : Disk) (ii : Nat) :
    (final (decode_view env d s ii)).jp2_residual_depth = s.jp2_residual_depth ∧
      (final (decode_view env d s ii)).raw_texture_residual = s.raw_texture_residual ∧
      (∀ k, k ≠ ii → (final (decode_view env d s ii)).out_pgm k = s.out_pgm k) ∧
      (∀ k, k ≠ ii → (final (decode_view env d s ii)).internal_ppm k = s.internal_ppm k) ∧
      (∀ SAI, d.LF[ii]? = some SAI → (final (decode_view env d s ii)).out_pgm ii =
        some ((depth_stage env d s ii SAI).2.take (SAI.nr * SAI.nc))) := by
  cases hLF : d.LF[ii]? with
  | none => simp [decode_view_none env d s ii hLF, final]
  | some SAI =>
    obtain ⟨h1, h2, h3, h4, h5⟩ := depth_stage_files env d s ii SAI
    unfold decode_view
    simp only [hLF]
    cases hp : (predict_texture_view env d (depth_stage env d s ii SAI).1 ii SAI
      (zeros (SAI.nr * SAI.nc * 3)) (depth_stage env d s ii SAI).2).2 with
    | none =>
      simp only [final]
      refine ⟨h2, h3, h4, fun k _ => by rw [h1], ?_⟩
      intro SAI1 hS
      have := Option.some.inj hS
      subst this
      exact h5
    | some predicted =>
      simp only [final]
      refine ⟨h2, h3, h4, fun k hk => by simp [Function.update, hk, h1], ?_⟩
      intro SAI1 hS
      have := Option.some.inj hS
      subst this
      exact h5

theorem decode_loop_files (env : Collaborators) (d : decoder) (is : List Nat) (s : Disk) :
    (final (decode_loop env d is s)).jp2_residual_depth = s.jp2_residual_depth ∧
      (final (decode_loop env d is s)).raw_texture_residual = s.raw_texture_residual ∧
      (∀ k, k ∉ is → (final (decode_loop env d is s)).out_pgm k = s.out_pgm k) ∧
      (∀ k, k ∉ is → (final (decode_loop env d is s)).internal_ppm k = s.internal_ppm k) := by
  induction is generalizing s with
  | nil => simp [decode_loop, final]
  | cons i is ih =>
    obtain ⟨h1, h2, h3, h4, _⟩ := decode_view_files env d s i
    simp only [decode_loop]
    cases hv : decode_view env d s i with
    | error s1 =>
      rw [hv] at h1 h2 h3 h4
      simp only [final] at h1 h2 h3 h4 ⊢
      exact ⟨h1, h2, fun k hk => h3 k (fun h => hk (by simp [h])),
        fun k hk => h4 k (fun h => hk (by simp [h]))⟩
    | ok s1 =>
      rw [hv] at h1 h2 h3 h4
      simp only [final] at h1 h2 h3 h4
      obtain ⟨g1, g2, g3, g4⟩ := ih s1
      refine ⟨by rw [g1, h1], by rw [g2, h2], ?_, ?_⟩
      · intro k hk
        rw [g3 k (fun h => hk (List.mem_cons_of_mem _ h)), h3 k (fun h => hk (by simp [h]))]
      · intro k hk
        rw [g4 k (fun h => hk (List.mem_cons_of_mem _ h)), h4 k (fun h => hk (by simp [h]))]

theorem not_mem_range_succ (ii m : Nat) : ii ∉ List.range' (ii + 1) m := by
  intro h
  have := (List.mem_range'_1.mp h).1
  omega

theorem decode_loop_from (env : Collaborators) (d : decoder) (s0 s1 : Disk) (ii : Nat)
    (hlt : ii < d.LF.length) (h1 : decode_loop env d (List.range ii) s0 = Except.ok s1) :
    decode_loop env d (List.range d.LF.length) s0 =
      match decode_view env d s1 ii with
      | Except.error s2 => Except.error s2
      | Except.ok s2 => decode_loop env d (List.range' (ii + 1) (d.LF.length - ii - 1)) s2 := by
  rw [range_split d.LF.length ii hlt, decode_loop_append, h1]
  simp only [decode_loop]

theorem lt_length_of_getElem? (LF : List view) (ii : Nat) (SAI : view) (h : LF[ii]? = some SAI) :
    ii < LF.length := by
  by_contra hge
  rw [List.getElem?_eq_none (by omega)] at h
  exact absurd h (by simp)

/-- C4: for a view without a coded texture residual whose step of the view loop
completes, the residual step makes no call and leaves the texture as it is, and
the texture file of the view holds, at the end of the step and at the end of
the loop, the `nr * nc * ncomp` samples of the texture left by
`predict_texture_view`; between prediction and the write nothing is logged. -/
theorem prediction_persisted_without_residual (env : Collaborators) (d : decoder)
    (s0 s1 s2 : Disk) (ii : Nat) (SAI : view)
    (hii : d.LF[ii]? = some SAI) (hres : SAI.has_color_residual = false)
    (h1 : decode_loop env d (List.range ii) s0 = Except.ok s1)
    (h2 : decode_view env d s1 ii = Except.ok s2) :
    ∃ predicted,
      (predict_texture_view env d (depth_stage env d s1 ii SAI).1 ii SAI
        (zeros (SAI.nr * SAI.nc * 3)) (depth_stage env d s1 ii SAI).2).2 = some predicted ∧
      apply_texture_residual env (depth_stage env d s1 ii SAI).1 ii SAI predicted =
        ([], predicted) ∧
      s2.internal_ppm ii = some (predicted.take (SAI.nr * SAI.nc * SAI.ncomp)) ∧
      (final (decode_loop env d (List.range d.LF.length) s0)).internal_ppm ii =
        some (predicted.take (SAI.nr * SAI.nc * SAI.ncomp)) ∧
      s2.log = (depth_stage env d s1 ii SAI).1.log ++
        (predict_texture_view env d (depth_stage env d s1 ii SAI).1 ii SAI
          (zeros (SAI.nr * SAI.nc * 3)) (depth_stage env d s1 ii SAI).2).1 ++
        [Event.write_internal_ppm ii, Event.write_output_ppm ii] := by
  have har : ∀ predicted, apply_texture_residual env (depth_stage env d s1 ii SAI).1 ii SAI
      predicted = ([], predicted) := by
    intro predicted
    simp [apply_texture_residual, hres]
  have hloop := decode_loop_from env d s0 s1 ii (lt_length_of_getElem? _ _ _ hii) h1
  rw [h2] at hloop
  simp only at hloop
  have hkeep := (decode_loop_files env d (List.range' (ii + 1) (d.LF.length - ii - 1)) s2).2.2.2
    ii (not_mem_range_succ ii _)
  rw [hloop, hkeep]
  unfold decode_view at h2
  simp only [hii] at h2
  cases hp : (predict_texture_view env d (depth_stage env d s1 ii SAI).1 ii SAI
    (zeros (SAI.nr * SAI.nc * 3)) (depth_stage env d s1 ii SAI).2).2 with
  | none =>
    rw [hp] at h2
    exact absurd h2 (by simp)
  | some predicted =>
    rw [hp] at h2
    simp only [har] at h2
    have hs2 := Except.ok.inj h2
    subst hs2
    exact ⟨predicted, rfl, har predicted, by simp, by simp, by simp⟩

theorem prediction_persisted_without_residual_witness :
    (example_decoder backward_reference_views).LF[1]? =
        some { example_view with i_order := 1, references := [0] } ∧
      ({ example_view with i_order := 1, references := [0] } : view).has_color_residual = false ∧
      decode_loop (example_env false) (example_decoder backward_reference_views) (List.range 1)
        Disk.empty = Except.ok (final (decode_loop (example_env false)
          (example_decoder backward_reference_views) (List.range 1) Disk.empty)) ∧
      decode_view (example_env false) (example_decoder backward_reference_views)
        (final (decode_loop (example_env false) (example_decoder backward_reference_views)
          (List.range 1) Disk.empty)) 1 =
        Except.ok (final (decode_loop (example_env false)
          (example_decoder backward_reference_views) (List.range 2) Disk.empty)) ∧
      ∃ predicted,
        (predict_texture_view (example_env false) (example_decoder backward_reference_views)
          (depth_stage (example_env false) (example_decoder backward_reference_views)
            (final (decode_loop (example_env false) (example_decoder backward_reference_views)
              (List.range 1) Disk.empty)) 1
            { example_view with i_order := 1, references := [0] }).1 1
          { example_view with i_order := 1, references := [0] }
          (zeros (({ example_view with i_order := 1, references := [0] } : view).nr *
            ({ example_view with i_order := 1, references := [0] } : view).nc * 3))
          (depth_stage (example_env false) (example_decoder backward_reference_views)
            (final (decode_loop (example_env false) (example_decoder backward_reference_views)
              (List.range 1) Disk.empty)) 1
            { example_view with i_order := 1, references := [0] }).2).2 = some predicted ∧
        apply_texture_residual (example_env false)
          (depth_stage (example_env false) (example_decoder backward_reference_views)
            (final (decode_loop (example_env false) (example_decoder backward_reference_views)
              (List.range 1) Disk.empty)) 1
            { example_view with i_order := 1, references := [0] }).1 1
          { example_view with i_order := 1, references := [0] } predicted = ([], predicted) ∧
        (final (decode_loop (example_env false) (example_decoder backward_reference_views)
          (List.range 2) Disk.empty)).internal_ppm 1 =
          some (predicted.take (({ example_view with i_order := 1, references := [0] } : view).nr *
            ({ example_view with i_order := 1, references := [0] } : view).nc *
            ({ example_view with i_order := 1, references := [0] } : view).ncomp)) ∧
        (final (decode_loop (example_env false) (example_decoder backward_reference_views)
          (List.range (example_decoder backward_reference_views).LF.length)
          Disk.empty)).internal_ppm 1 =
          some (predicted.take (({ example_view with i_order := 1, references := [0] } : view).nr *
            ({ example_view with i_order := 1, references := [0] } : view).nc *
            ({ example_view with i_order := 1, references := [0] } : view).ncomp)) ∧
        (final (decode_loop (example_env false) (example_decoder backward_reference_views)
          (List.range 2) Disk.empty)).log =
          (depth_stage (example_env false) (example_decoder backward_reference_views)
            (final (decode_loop (example_env false) (example_decoder backward_reference_views)
              (List.range 1) Disk.empty)) 1
            { example_view with i_order := 1, references := [0] }).1.log ++
          (predict_texture_view (example_env false) (example_decoder backward_reference_views)
            (depth_stage (example_env false) (example_decoder backward_reference_views)
              (final (decode_loop (example_env false) (example_decoder backward_reference_views)
                (List.range 1) Disk.empty)) 1
              { example_view with i_order := 1, references := [0] }).1 1
            { example_view with i_order := 1, references := [0] }
            (zeros (({ example_view with i_order := 1, references := [0] } : view).nr *
              ({ example_view with i_order := 1, references := [0] } : view).nc * 3))
            (depth_stage (example_env false) (example_decoder backward_reference_views)
              (final (decode_loop (example_env false) (example_decoder backward_reference_views)
                (List.range 1) Disk.empty)) 1
              { example_view with i_order := 1, references := [0] }).2).1 ++
          [Event.write_internal_ppm 1, Event.write_output_ppm 1] :=
  ⟨rfl, rfl, rfl, rfl,
    prediction_persisted_without_residual (example_env false)
      (example_decoder backward_reference_views) Disk.empty
      (final (decode_loop (example_env false) (example_decoder backward_reference_views)
        (List.range 1) Disk.empty))
      (final (decode_loop (example_env false) (example_decoder backward_reference_views)
        (List.range 2) Disk.empty))
      1 { example_view with i_order := 1, references := [0] } rfl rfl rfl rfl⟩

theorem depth_stage_depth_residual (env : Collaborators) (d : decoder) (s : Disk) (ii : Nat)
    (SAI : view) (hdep : SAI.has_depth_residual = true) :
    (depth_stage env d s ii SAI).2 =
      (medfilt_depth env ii SAI (env.decodeKakadu (s.jp2_residual_depth ii))).2 := by
  simp [depth_stage, reconstruct_depth, hdep, read_image]

/-- C9 (amended): for a view with a coded depth residual that the view loop
reaches, the inverse depth used for the view and written to its file is the
map returned by `decodeKakadu` for the view's coded depth residual when
`MEDFILT_DEPTH` is off, and that map with its first `nr * nc` samples replaced
by the output of `medfilt2D` when `MEDFILT_DEPTH` is on (the file holds the
first `nr * nc` samples); `WaSP_predict_depth` is never called for the view. -/
theorem depth_residual_persisted (env : Collaborators) (d : decoder) (s0 s1 : Disk) (ii : Nat)
    (SAI : view) (hii : d.LF[ii]? = some SAI) (hdep : SAI.has_depth_residual = true)
    (h1 : decode_loop env d (List.range ii) s0 = Except.ok s1)
    (hs0 : Event.WaSP_predict_depth ii ∉ s0.log) :
    (env.MEDFILT_DEPTH = false →
        (depth_stage env d s1 ii SAI).2 = env.decodeKakadu (s0.jp2_residual_depth ii) ∧
        (final (decode_loop env d (List.range d.LF.length) s0)).out_pgm ii =
          some ((env.decodeKakadu (s0.jp2_residual_depth ii)).take (SAI.nr * SAI.nc))) ∧
      (env.MEDFILT_DEPTH = true →
        (depth_stage env d s1 ii SAI).2 =
          poke (env.decodeKakadu (s0.jp2_residual_depth ii)) 0
            ((env.medfilt2D (env.decodeKakadu (s0.jp2_residual_depth ii)) 3 SAI.nr SAI.nc).take
              (SAI.nr * SAI.nc)) ∧
        (final (decode_loop env d (List.range d.LF.length) s0)).out_pgm ii =
          some ((poke (env.decodeKakadu (s0.jp2_residual_depth ii)) 0
            ((env.medfilt2D (env.decodeKakadu (s0.jp2_residual_depth ii)) 3 SAI.nr SAI.nc).take
              (SAI.nr * SAI.nc))).take (SAI.nr * SAI.nc))) ∧
      Event.WaSP_predict_depth ii ∉ (final (decode_loop env d (List.range d.LF.length) s0)).log := by
  have hjp2 : s1.jp2_residual_depth = s0.jp2_residual_depth := by
    have := (decode_loop_files env d (List.range ii) s0).1
    rw [h1] at this
    simpa [final] using this
  have hdepth := depth_stage_depth_residual env d s1 ii SAI hdep
  rw [hjp2] at hdepth
  have hfile : (final (decode_loop env d (List.range d.LF.length) s0)).out_pgm ii =
      some ((depth_stage env d s1 ii SAI).2.take (SAI.nr * SAI.nc)) := by
    rw [decode_loop_from env d s0 s1 ii (lt_length_of_getElem? _ _ _ hii) h1]
    have hself := (decode_view_files env d s1 ii).2.2.2.2 SAI hii
    cases hv : decode_view env d s1 ii with
    | error s2 =>
      rw [hv] at hself
      simpa [final] using hself
    | ok s2 =>
      rw [hv] at hself
      simp only [final] at hself
      simp only
      rw [(decode_loop_files env d (List.range' (ii + 1) (d.LF.length - ii - 1)) s2).2.2.1 ii
        (not_mem_range_succ ii _), hself]
  refine ⟨?_, ?_, ?_⟩
  · intro hm
    have hmd : (medfilt_depth env ii SAI (env.decodeKakadu (s0.jp2_residual_depth ii))).2 =
        env.decodeKakadu (s0.jp2_residual_depth ii) := by
      simp [medfilt_depth, hm]
    rw [hfile, hdepth, hmd]
    exact ⟨rfl, rfl⟩
  · intro hm
    have hmd : (medfilt_depth env ii SAI (env.decodeKakadu (s0.jp2_residual_depth ii))).2 =
        poke (env.decodeKakadu (s0.jp2_residual_depth ii)) 0
          ((env.medfilt2D (env.decodeKakadu (s0.jp2_residual_depth ii)) 3 SAI.nr SAI.nc).take
            (SAI.nr * SAI.nc)) := by
      simp [medfilt_depth, hm]
    rw [hfile, hdepth, hmd]
    exact ⟨rfl, rfl⟩
  · obtain ⟨l, hl, hev, _⟩ := decode_loop_log env d (List.range d.LF.length) s0
    rw [hl]
    intro hmem
    rcases List.mem_append.mp hmem with he | he
    · exact hs0 he
    · obtain ⟨i, _, SAI1, hi, hview⟩ := hev _ he
      simp only [view_event] at hview
      obtain ⟨hvi, hno⟩ := hview
      subst hvi
      rw [hii] at hi
      have hS := Option.some.inj hi
      subst hS
      rw [hdep] at hno
      exact absurd hno (by simp)

theorem depth_residual_persisted_witness :
    (example_decoder depth_residual_views).LF[0]? =
        some { example_view with has_depth_residual := true } ∧
      ({ example_view with has_depth_residual := true } : view).has_depth_residual = true ∧
      decode_loop (example_env false) (example_decoder depth_residual_views) (List.range 0)
        Disk.empty = Except.ok Disk.empty ∧
      Event.WaSP_predict_depth 0 ∉ Disk.empty.log ∧
      (((example_env false).MEDFILT_DEPTH = false →
        (depth_stage (example_env false) (example_decoder depth_residual_views) Disk.empty 0
          { example_view with has_depth_residual := true }).2 =
          (example_env false).decodeKakadu (Disk.empty.jp2_residual_depth 0) ∧
        (final (decode_loop (example_env false) (example_decoder depth_residual_views)
          (List.range (example_decoder depth_residual_views).LF.length) Disk.empty)).out_pgm 0 =
          some (((example_env false).decodeKakadu (Disk.empty.jp2_residual_depth 0)).take
            (({ example_view with has_depth_residual := true } : view).nr *
              ({ example_view with has_depth_residual := true } : view).nc))) ∧
      ((example_env false).MEDFILT_DEPTH = true →
        (depth_stage (example_env false) (example_decoder depth_residual_views) Disk.empty 0
          { example_view with has_depth_residual := true }).2 =
          poke ((example_env false).decodeKakadu (Disk.empty.jp2_residual_depth 0)) 0
            (((example_env false).medfilt2D
              ((example_env false).decodeKakadu (Disk.empty.jp2_residual_depth 0)) 3
              ({ example_view with has_depth_residual := true } : view).nr
              ({ example_view with has_depth_residual := true } : view).nc).take
              (({ example_view with has_depth_residual := true } : view).nr *
                ({ example_view with has_depth_residual := true } : view).nc)) ∧
        (final (decode_loop (example_env false) (example_decoder depth_residual_views)
          (List.range (example_decoder depth_residual_views).LF.length) Disk.empty)).out_pgm 0 =
          some ((poke ((example_env false).decodeKakadu (Disk.empty.jp2_residual_depth 0)) 0
            (((example_env false).medfilt2D
              ((example_env false).decodeKakadu (Disk.empty.jp2_residual_depth 0)) 3
              ({ example_view with has_depth_residual := true } : view).nr
              ({ example_view with has_depth_residual := true } : view).nc).take
              (({ example_view with has_depth_residual := true } : view).nr *
                ({ example_view with has_depth_residual := true } : view).nc))).take
            (({ example_view with has_depth_residual := true } : view).nr *
              ({ example_view with has_depth_residual := true } : view).nc))) ∧
      Event.WaSP_predict_depth 0 ∉
        (final (decode_loop (example_env false) (example_decoder depth_residual_views)
          (List.range (example_decoder depth_residual_views).LF.length) Disk.empty)).log) :=
  ⟨rfl, rfl, rfl, by simp [Disk.empty],
    depth_residual_persisted (example_env false) (example_decoder depth_residual_views)
      Disk.empty Disk.empty 0 { example_view with has_depth_residual := true } rfl rfl rfl
      (by simp [Disk.empty])⟩

/-- C9 (counterexample): with `MEDFILT_DEPTH` on, a view with a coded depth
residual whose decoded inverse depth has a single peak gets the median-filtered
map, all zero, in its file and as the depth used for the view. -/
theorem medfilt_depth_counterexample :
    (depth_residual_views[0]?.map (fun v => v.has_depth_residual)) = some true ∧
      (example_env true).decodeKakadu (Disk.empty.jp2_residual_depth 0) =
        [0, 0, 0, 0, 9, 0, 0, 0, 0] ∧
      (final (decode_loop (example_env true) (example_decoder depth_residual_views)
        (List.range (example_decoder depth_residual_views).LF.length) Disk.empty)).out_pgm 0 =
        some [0, 0, 0, 0, 0, 0, 0, 0, 0] ∧
      (final (decode_loop (example_env true) (example_decoder depth_residual_views)
        (List.range (example_decoder depth_residual_views).LF.length) Disk.empty)).out_pgm 0 ≠
        some ((example_env true).decodeKakadu (Disk.empty.jp2_residual_depth 0)) :=
  ⟨by decide, by decide, by decide, by decide⟩

/-! ## Buffers -/

theorem getElem?_slice (buf : Image) (off len i : Nat) :
    (slice buf off len)[i]? = if i < len then buf[off + i]? else none := by
  unfold slice
  rw [List.getElem?_take]
  split_ifs with h
  · rw [List.getElem?_drop]
  · rfl

theorem length_poke (dst : Image) (off : Nat) (src : Image) :
    (poke dst off src).length = dst.length := by
  unfold poke
  simp only [List.length_append, List.length_take, List.length_drop]
  omega

theorem getElem?_poke (dst : Image) (off : Nat) (src : Image) (i : Nat) :
    (poke dst off src)[i]? =
      if off ≤ i ∧ i < off + src.length ∧ i < dst.length then src[i - off]? else dst[i]? := by
  unfold poke
  by_cases hoff : dst.length ≤ off
  · have h0 : dst.length - off = 0 := by omega
    rw [h0, List.take_zero, List.append_nil, List.take_of_length_le hoff]
    have : ¬ (off ≤ i ∧ i < off + src.length ∧ i < dst.length) := by omega
    rw [if_neg this]
  · have hlen : (dst.take off).length = off := by simp; omega
    by_cases hi : i < off
    · rw [List.getElem?_append_left (by omega), List.getElem?_take]
      have : ¬ (off ≤ i ∧ i < off + src.length ∧ i < dst.length) := by omega
      rw [if_neg this, if_pos hi]
    · rw [List.getElem?_append_right (by omega), hlen, List.getElem?_take]
      by_cases hd : i < dst.length
      · rw [if_pos (by omega)]
        by_cases hs : i < off + src.length
        · rw [if_pos ⟨by omega, hs, hd⟩, List.getElem?_append_left (by omega)]
        · have : ¬ (off ≤ i ∧ i < off + src.length ∧ i < dst.length) := by omega
          rw [if_neg this, List.getElem?_append_right (by omega), List.getElem?_drop]
          congr 1
          omega
      · have : ¬ (off ≤ i ∧ i < off + src.length ∧ i < dst.length) := by omega
        rw [if_neg this, if_neg (by omega), List.getElem?_eq_none (by omega)]

theorem slice_poke_same (dst : Image) (off : Nat) (src : Image)
    (h : off + src.length ≤ dst.length) : slice (poke dst off src) off src.length = src := by
  apply List.ext_getElem?
  intro i
  rw [getElem?_slice, getElem?_poke]
  by_cases hi : i < src.length
  · rw [if_pos hi, if_pos ⟨by omega, by omega, by omega⟩]
    congr 1
    omega
  · rw [if_neg hi, List.getElem?_eq_none (by omega)]

theorem slice_poke_disjoint (dst : Image) (off : Nat) (src : Image) (off1 len : Nat)
    (h : off1 + len ≤ off ∨ off + src.length ≤ off1) :
    slice (poke dst off src) off1 len = slice dst off1 len := by
  apply List.ext_getElem?
  intro i
  rw [getElem?_slice, getElem?_slice, getElem?_poke]
  by_cases hi : i < len
  · rw [if_pos hi, if_pos hi]
    have : ¬ (off ≤ off1 + i ∧ off1 + i < off + src.length ∧ off1 + i < dst.length) := by omega
    rw [if_neg this]
  · rw [if_neg hi, if_neg hi]

theorem slice_poke_inside (dst src : Image) (off1 len : Nat) (h1 : off1 + len ≤ src.length)
    (h2 : src.length ≤ dst.length) : slice (poke dst 0 src) off1 len = slice src off1 len := by
  apply List.ext_getElem?
  intro i
  rw [getElem?_slice, getElem?_slice, getElem?_poke]
  by_cases hi : i < len
  · rw [if_pos hi, if_pos hi, if_pos ⟨by omega, by omega, by omega⟩]
    congr 1
  · rw [if_neg hi, if_neg hi]

theorem drop_poke_zero (dst src : Image) :
    (poke dst 0 src).drop src.length = dst.drop src.length := by
  apply List.ext_getElem?
  intro i
  rw [List.getElem?_drop, List.getElem?_drop, getElem?_poke]
  have : ¬ (0 ≤ src.length + i ∧ src.length + i < 0 + src.length ∧ src.length + i < dst.length) := by
    omega
  rw [if_neg this]

theorem slice_slice_zero (buf : Image) (n off len : Nat) (h : off + len ≤ n) :
    slice (slice buf 0 n) off len = slice buf off len := by
  apply List.ext_getElem?
  intro i
  rw [getElem?_slice, getElem?_slice, getElem?_slice]
  by_cases hi : i < len
  · rw [if_pos hi, if_pos hi, if_pos (by omega)]
    congr 1
    omega
  · rw [if_neg hi, if_neg hi]

theorem length_slice (buf : Image) (off len : Nat) (h : off + len ≤ buf.length) :
    (slice buf off len).length = len := by
  unfold slice
  simp only [List.length_take, List.length_drop]
  omega

/-! ## Global sparse filter step -/

theorem sparse_regions_ee (env : Collaborators) (SAI : view) (seg : segmentation)
    (regs : List Image) (ks : List Nat) :
    ∀ (ee : Nat) (filtered : List ℚ) (ee1 : Nat) (filtered1 : List ℚ),
      sparse_regions env SAI seg regs ks ee filtered = some (ee1, filtered1) →
        ee1 = ee + ks.length := by
  induction ks with
  | nil =>
    intro ee filtered ee1 filtered1 h
    simp only [sparse_regions, Option.some.injEq, Prod.mk.injEq] at h
    simp [h.1]
  | cons k ks ih =>
    intro ee filtered ee1 filtered1 h
    rw [sparse_regions] at h
    cases hf : SAI.sparse_filters[ee]? with
    | none => rw [hf] at h; exact absurd h (by simp)
    | some f =>
      rw [hf] at h
      have := ih _ _ _ _ h
      simp only [List.length_cons]
      omega

theorem filtered_component_some (env : Collaborators) (SP_B : Nat) (SAI : view)
    (seg : segmentation) (ref_colors : List Image) (color : Image) (icomp ee ee1 : Nat)
    (rounded : Image)
    (h : filtered_component env SP_B SAI seg ref_colors color icomp ee = some (ee1, rounded)) :
    ee1 = ee + seg.number_of_regions ∧ rounded.length = padded_size SAI := by
  unfold filtered_component at h
  cases hr : sparse_regions env SAI seg (padded_regressors env SP_B SAI ref_colors color icomp)
      (List.range seg.number_of_regions) ee (List.replicate (padded_size SAI) 0) with
  | none => rw [hr] at h; exact absurd h (by simp)
  | some p =>
    obtain ⟨e2, f2⟩ := p
    rw [hr] at h
    simp only [Option.some.injEq, Prod.mk.injEq] at h
    have he := sparse_regions_ee env SAI seg _ _ _ _ _ _ hr
    simp only [List.length_range] at he
    exact ⟨by rw [← h.1, he], by rw [← h.2]; simp⟩

theorem sparse_components_frame (env : Collaborators) (SP_B : Nat) (SAI : view)
    (seg : segmentation) (ref_colors : List Image) (color : Image)
    (hcrop : ∀ img : Image, img.length = padded_size SAI →
      SAI.nr * SAI.nc ≤
        (env.cropImage img (SAI.nr + 2 * SAI.NNt) (SAI.nc + 2 * SAI.NNt) SAI.NNt).length)
    (m : Nat) :
    ∀ (k : Nat) (padded img : Image) (ee1 : Nat) (padded1 img1 : Image),
      padded.length = padded_size SAI * SAI.ncomp →
      img.length = SAI.nr * SAI.nc * SAI.ncomp →
      sparse_components env SP_B SAI seg ref_colors color (List.range' k m)
        (k * seg.number_of_regions) padded img = some (ee1, padded1, img1) →
      img1.length = SAI.nr * SAI.nc * SAI.ncomp ∧
        (∀ c, (c < k ∨ k + m ≤ c) →
          slice img1 (SAI.nr * SAI.nc * c) (SAI.nr * SAI.nc) =
            slice img (SAI.nr * SAI.nc * c) (SAI.nr * SAI.nc)) ∧
        (∀ c, k ≤ c → c < k + m → c < SAI.ncomp →
          ∃ ee2 rounded,
            filtered_component env SP_B SAI seg ref_colors color c
              (c * seg.number_of_regions) = some (ee2, rounded) ∧
            slice img1 (SAI.nr * SAI.nc * c) (SAI.nr * SAI.nc) =
              (env.cropImage rounded (SAI.nr + 2 * SAI.NNt) (SAI.nc + 2 * SAI.NNt)
                SAI.NNt).take (SAI.nr * SAI.nc)) := by
  induction m with
  | zero =>
    intro k padded img ee1 padded1 img1 _ himg h
    simp only [List.range'_zero, sparse_components, Option.some.injEq, Prod.mk.injEq] at h
    obtain ⟨_, _, h3⟩ := h
    subst h3
    exact ⟨himg, fun _ _ => rfl, fun c h1 h2 _ => by omega⟩
  | succ m ih =>
    intro k padded img ee1 padded1 img1 hpad himg h
    rw [List.range'_succ, sparse_components] at h
    cases hf : filtered_component env SP_B SAI seg ref_colors color k
        (k * seg.number_of_regions) with
    | none => rw [hf] at h; exact absurd h (by simp)
    | some p =>
      obtain ⟨e2, rounded⟩ := p
      rw [hf] at h
      simp only at h
      obtain ⟨he2, hrlen⟩ := filtered_component_some _ _ _ _ _ _ _ _ _ _ hf
      have hee : e2 = (k + 1) * seg.number_of_regions := by rw [he2]; ring
      rw [hee] at h
      have hsrc : ((env.cropImage
          (slice (poke padded (padded_size SAI * k) rounded) (padded_size SAI * k)
            (padded_size SAI))
          (SAI.nr + 2 * SAI.NNt) (SAI.nc + 2 * SAI.NNt) SAI.NNt).take (SAI.nr * SAI.nc)).length ≤
          SAI.nr * SAI.nc := by
        simp only [List.length_take]
        omega
      obtain ⟨g1, g2, g3⟩ := ih (k + 1) _ _ ee1 padded1 img1
        (by rw [length_poke]; exact hpad) (by rw [length_poke]; exact himg) h
      refine ⟨g1, ?_, ?_⟩
      · intro c hc
        rw [g2 c (by omega)]
        apply slice_poke_disjoint
        rcases hc with hc | hc
        · left
          have : SAI.nr * SAI.nc * c + SAI.nr * SAI.nc = SAI.nr * SAI.nc * (c + 1) := by ring
          rw [this]
          exact Nat.mul_le_mul_left _ (by omega)
        · right
          have h1 : SAI.nr * SAI.nc * k + SAI.nr * SAI.nc = SAI.nr * SAI.nc * (k + 1) := by ring
          have h2 : SAI.nr * SAI.nc * (k + 1) ≤ SAI.nr * SAI.nc * c :=
            Nat.mul_le_mul_left _ (by omega)
          omega
      · intro c hc1 hc2 hc3
        rcases Nat.eq_or_lt_of_le hc1 with heq | hlt
        · subst heq
          refine ⟨e2, rounded, hf, ?_⟩
          rw [g2 k (by omega)]
          have hk : padded_size SAI * k + padded_size SAI ≤ padded.length := by
            rw [hpad]
            have : padded_size SAI * k + padded_size SAI = padded_size SAI * (k + 1) := by ring
            rw [this]
            exact Nat.mul_le_mul_left _ (by omega)
          have hcropin : slice (poke padded (padded_size SAI * k) rounded) (padded_size SAI * k)
              (padded_size SAI) = rounded := by
            have := slice_poke_same padded (padded_size SAI * k) rounded (by rw [hrlen]; exact hk)
            rw [hrlen] at this
            exact this
          rw [hcropin] at hsrc ⊢
          have hlen : ((env.cropImage rounded (SAI.nr + 2 * SAI.NNt) (SAI.nc + 2 * SAI.NNt)
              SAI.NNt).take (SAI.nr * SAI.nc)).length = SAI.nr * SAI.nc := by
            have := hcrop rounded hrlen
            simp only [List.length_take]
            omega
          have hk2 : SAI.nr * SAI.nc * k + SAI.nr * SAI.nc ≤ img.length := by
            rw [himg]
            have : SAI.nr * SAI.nc * k + SAI.nr * SAI.nc = SAI.nr * SAI.nc * (k + 1) := by ring
            rw [this]
            exact Nat.mul_le_mul_left _ (by omega)
          have := slice_poke_same img (SAI.nr * SAI.nc * k)
            ((env.cropImage rounded (SAI.nr + 2 * SAI.NNt) (SAI.nc + 2 * SAI.NNt)
              SAI.NNt).take (SAI.nr * SAI.nc)) (by rw [hlen]; exact hk2)
          rw [hlen] at this
          exact this
        · exact g3 c (by omega) (by omega) hc3

theorem sparse_sample_zero (env : Collaborators)
    (hclip : ∀ x lo hi : ℚ, lo ≤ hi → env.clip x lo hi = min (max x lo) hi) :
    sparse_sample env 0 = 0 := by
  have hpow : (1 : ℚ) ≤ (2 : ℚ) ^ env.BIT_DEPTH := one_le_pow₀ (by norm_num)
  have hM : (0 : ℚ) ≤ (2 : ℚ) ^ env.BIT_DEPTH - 1 := by linarith
  unfold sparse_sample to_uint16
  simp only [mmax_cast, hclip 0 0 _ hM]
  rw [max_self, min_eq_left hM]
  norm_num

theorem sparse_example :
    (global_sparse_filter (example_env false) sparse_decoder Disk.empty 1 sparse_view
      sparse_color []).2 = some sparse_filtered_color := by
  have hr : (List.range 9).map (fun iij =>
      sparse_sample (example_env false) ((List.replicate 9 (0 : ℚ)).getD iij 0)) =
      [0, 0, 0, 0, 0, 0, 0, 0, 0] := by
    simp [List.range_succ, sparse_sample_zero (example_env false) example_clip_eq]
  have hf : filtered_component (example_env false) sparse_decoder.SP_B sparse_view
      ((example_env false).makeSegmentation sparse_view [] sparse_decoder.n_seg_iterations)
      (sparse_view.references.map (fun ref => read_image (Disk.empty.internal_ppm ref)))
      sparse_color 0 0 = some (1, [0, 0, 0, 0, 0, 0, 0, 0, 0]) := by
    simp only [filtered_component]
    have : sparse_regions (example_env false) sparse_view
        ((example_env false).makeSegmentation sparse_view [] sparse_decoder.n_seg_iterations)
        (padded_regressors (example_env false) sparse_decoder.SP_B sparse_view
          (sparse_view.references.map (fun ref => read_image (Disk.empty.internal_ppm ref)))
          sparse_color 0)
        (List.range ((example_env false).makeSegmentation sparse_view []
          sparse_decoder.n_seg_iterations).number_of_regions) 0
        (List.replicate (padded_size sparse_view) 0) = some (1, List.replicate 9 0) := rfl
    rw [this]
    simp only
    have hp : padded_size sparse_view = 9 := rfl
    rw [hp, hr]
  unfold global_sparse_filter
  simp only
  have hrange : List.range sparse_decoder.nc_sparse = [0] := rfl
  rw [hrange]
  simp only [sparse_components, hf]
  rfl

/-- C6: when the global sparse filter step returns, the texture keeps its
length, every component `c` with `nc_sparse ≤ c < ncomp` and every sample
behind the `ncomp` components is as before the step, and every component
`c < nc_sparse` (below `ncomp`) holds the first `nr * nc` samples of
`cropImage` applied to the clipped and rounded padded filter output of that
component, computed from the texture before the step with the filters from
`c * number_of_regions` on. -/
theorem sparse_filter_frame (env : Collaborators) (d : decoder) (s : Disk) (ii : Nat)
    (SAI : view) (color depth color1 : Image)
    (hcolor : SAI.nr * SAI.nc * SAI.ncomp ≤ color.length)
    (hcrop : ∀ img : Image, img.length = padded_size SAI →
      SAI.nr * SAI.nc ≤
        (env.cropImage img (SAI.nr + 2 * SAI.NNt) (SAI.nc + 2 * SAI.NNt) SAI.NNt).length)
    (h : (global_sparse_filter env d s ii SAI color depth).2 = some color1) :
    color1.length = color.length ∧
      (∀ c, d.nc_sparse ≤ c → c < SAI.ncomp →
        slice color1 (SAI.nr * SAI.nc * c) (SAI.nr * SAI.nc) =
          slice color (SAI.nr * SAI.nc * c) (SAI.nr * SAI.nc)) ∧
      color1.drop (SAI.nr * SAI.nc * SAI.ncomp) = color.drop (SAI.nr * SAI.nc * SAI.ncomp) ∧
      (∀ c, c < d.nc_sparse → c < SAI.ncomp →
        ∃ ee rounded,
          filtered_component env d.SP_B SAI (env.makeSegmentation SAI depth d.n_seg_iterations)
            (SAI.references.map (fun ref => read_image (s.internal_ppm ref))) color c
            (c * (env.makeSegmentation SAI depth d.n_seg_iterations).number_of_regions) =
              some (ee, rounded) ∧
          slice color1 (SAI.nr * SAI.nc * c) (SAI.nr * SAI.nc) =
            (env.cropImage rounded (SAI.nr + 2 * SAI.NNt) (SAI.nc + 2 * SAI.NNt)
              SAI.NNt).take (SAI.nr * SAI.nc)) := by
  unfold global_sparse_filter at h
  simp only at h
  cases hsc : sparse_components env d.SP_B SAI (env.makeSegmentation SAI depth d.n_seg_iterations)
      (SAI.references.map (fun ref => read_image (s.internal_ppm ref))) color
      (List.range d.nc_sparse) 0 (zeros (padded_size SAI * SAI.ncomp))
      (slice color 0 (SAI.nr * SAI.nc * SAI.ncomp)) with
  | none =>
    rw [hsc] at h
    exact absurd h (by simp)
  | some p =>
    obtain ⟨ee1, padded1, img1⟩ := p
    rw [hsc] at h
    simp only [Option.some.injEq] at h
    have himg0 : (slice color 0 (SAI.nr * SAI.nc * SAI.ncomp)).length =
        SAI.nr * SAI.nc * SAI.ncomp := length_slice _ _ _ (by omega)
    have hsc1 : sparse_components env d.SP_B SAI
        (env.makeSegmentation SAI depth d.n_seg_iterations)
        (SAI.references.map (fun ref => read_image (s.internal_ppm ref))) color
        (List.range' 0 d.nc_sparse)
        (0 * (env.makeSegmentation SAI depth d.n_seg_iterations).number_of_regions)
        (zeros (padded_size SAI * SAI.ncomp)) (slice color 0 (SAI.nr * SAI.nc * SAI.ncomp)) =
        some (ee1, padded1, img1) := by
      rw [Nat.zero_mul, ← List.range_eq_range']
      exact hsc
    have hpad0 : (zeros (padded_size SAI * SAI.ncomp)).length = padded_size SAI * SAI.ncomp := by
      simp [zeros]
    obtain ⟨g1, g2, g3⟩ := sparse_components_frame env d.SP_B SAI _ _ color hcrop d.nc_sparse 0
      _ _ ee1 padded1 img1 hpad0 himg0 hsc1
    have htake : img1.take (SAI.nr * SAI.nc * SAI.ncomp) = img1 :=
      List.take_of_length_le (by omega)
    rw [htake] at h
    subst h
    have hin : ∀ c, c < SAI.ncomp →
        slice (poke color 0 img1) (SAI.nr * SAI.nc * c) (SAI.nr * SAI.nc) =
          slice img1 (SAI.nr * SAI.nc * c) (SAI.nr * SAI.nc) := by
      intro c hc
      apply slice_poke_inside
      · rw [g1]
        have : SAI.nr * SAI.nc * c + SAI.nr * SAI.nc = SAI.nr * SAI.nc * (c + 1) := by ring
        rw [this]
        exact Nat.mul_le_mul_left _ (by omega)
      · omega
    refine ⟨length_poke _ _ _, ?_, ?_, ?_⟩
    · intro c hc1 hc2
      rw [hin c hc2, g2 c (Or.inr (by omega))]
      apply slice_slice_zero
      have : SAI.nr * SAI.nc * c + SAI.nr * SAI.nc = SAI.nr * SAI.nc * (c + 1) := by ring
      rw [this]
      exact Nat.mul_le_mul_left _ (by omega)
    · have := drop_poke_zero color img1
      rw [g1] at this
      exact this
    · intro c hc1 hc2
      obtain ⟨ee, rounded, hf, hs⟩ := g3 c (by omega) (by omega) hc2
      exact ⟨ee, rounded, hf, by rw [hin c hc2, hs]⟩

theorem sparse_filter_frame_witness :
    sparse_view.nr * sparse_view.nc * sparse_view.ncomp ≤ sparse_color.length ∧
      (∀ img : Image, img.length = padded_size sparse_view →
        sparse_view.nr * sparse_view.nc ≤
          ((example_env false).cropImage img (sparse_view.nr + 2 * sparse_view.NNt)
            (sparse_view.nc + 2 * sparse_view.NNt) sparse_view.NNt).length) ∧
      (global_sparse_filter (example_env false) sparse_decoder Disk.empty 1 sparse_view
        sparse_color []).2 = some sparse_filtered_color ∧
      (sparse_filtered_color.length = sparse_color.length ∧
        (∀ c, sparse_decoder.nc_sparse ≤ c → c < sparse_view.ncomp →
          slice sparse_filtered_color (sparse_view.nr * sparse_view.nc * c)
              (sparse_view.nr * sparse_view.nc) =
            slice sparse_color (sparse_view.nr * sparse_view.nc * c)
              (sparse_view.nr * sparse_view.nc)) ∧
        sparse_filtered_color.drop (sparse_view.nr * sparse_view.nc * sparse_view.ncomp) =
          sparse_color.drop (sparse_view.nr * sparse_view.nc * sparse_view.ncomp) ∧
        (∀ c, c < sparse_decoder.nc_sparse → c < sparse_view.ncomp →
          ∃ ee rounded,
            filtered_component (example_env false) sparse_decoder.SP_B sparse_view
              ((example_env false).makeSegmentation sparse_view []
                sparse_decoder.n_seg_iterations)
              (sparse_view.references.map (fun ref => read_image (Disk.empty.internal_ppm ref)))
              sparse_color c
              (c * ((example_env false).makeSegmentation sparse_view []
                sparse_decoder.n_seg_iterations).number_of_regions) = some (ee, rounded) ∧
            slice sparse_filtered_color (sparse_view.nr * sparse_view.nc * c)
                (sparse_view.nr * sparse_view.nc) =
              ((example_env false).cropImage rounded (sparse_view.nr + 2 * sparse_view.NNt)
                (sparse_view.nc + 2 * sparse_view.NNt) sparse_view.NNt).take
                (sparse_view.nr * sparse_view.nc))) :=
  have hcrop : ∀ img : Image, img.length = padded_size sparse_view →
      sparse_view.nr * sparse_view.nc ≤
        ((example_env false).cropImage img (sparse_view.nr + 2 * sparse_view.NNt)
          (sparse_view.nc + 2 * sparse_view.NNt) sparse_view.NNt).length := by
    intro img himg
    have hp : padded_size sparse_view = 9 := rfl
    have hn : sparse_view.nr * sparse_view.nc = 9 := rfl
    rw [hn]
    show 9 ≤ img.length
    omega
  ⟨by decide, hcrop, sparse_example,
    sparse_filter_frame (example_env false) sparse_decoder Disk.empty 1 sparse_view sparse_color
      [] sparse_filtered_color (by decide) hcrop sparse_example⟩

/-- C5: when `BIT_DEPTH` is at most 16 and `clip` clamps to `[lo, hi]`, for every
rational filter output `x` the sample stored by the sparse filter step is
`floor(min(max(x, 0), M) + 1/2)` with `M = 2^BIT_DEPTH - 1`, which lies in
`[0, M]`; every sample of the padded filtered image of a component is such a
value. -/
theorem sparse_sample_clamped (env : Collaborators) (hB : env.BIT_DEPTH ≤ 16)
    (hclip : ∀ x lo hi : ℚ, lo ≤ hi → env.clip x lo hi = min (max x lo) hi) (x : ℚ) :
    ((sparse_sample env x : Nat) : Int) =
        Int.floor (min (max x 0) ((2 : ℚ) ^ env.BIT_DEPTH - 1) + 1 / 2) ∧
      sparse_sample env x ≤ 2 ^ env.BIT_DEPTH - 1 ∧
      (∀ (SP_B : Nat) (SAI : view) (seg : segmentation) (ref_colors : List Image)
        (color : Image) (icomp ee ee1 : Nat) (rounded : Image),
        filtered_component env SP_B SAI seg ref_colors color icomp ee = some (ee1, rounded) →
        ∀ p ∈ rounded, (∃ y : ℚ, p = sparse_sample env y) ∧ p ≤ 2 ^ env.BIT_DEPTH - 1) := by
  refine ⟨(sparse_sample_floor env _ rfl hB hclip x).1,
    (sparse_sample_floor env _ rfl hB hclip x).2, ?_⟩
  intro SP_B SAI seg ref_colors color icomp ee ee1 rounded h p hp
  unfold filtered_component at h
  cases hr : sparse_regions env SAI seg (padded_regressors env SP_B SAI ref_colors color icomp)
      (List.range seg.number_of_regions) ee (List.replicate (padded_size SAI) 0) with
  | none => rw [hr] at h; exact absurd h (by simp)
  | some q =>
    obtain ⟨e2, f2⟩ := q
    rw [hr] at h
    simp only [Option.some.injEq, Prod.mk.injEq] at h
    rw [← h.2] at hp
    obtain ⟨iij, _, hiij⟩ := List.mem_map.mp hp
    rw [← hiij]
    exact ⟨⟨_, rfl⟩, (sparse_sample_floor env _ rfl hB hclip _).2⟩

theorem sparse_sample_clamped_witness :
    (example_env false).BIT_DEPTH ≤ 16 ∧
      (∀ x lo hi : ℚ, lo ≤ hi → (example_env false).clip x lo hi = min (max x lo) hi) ∧
      (((sparse_sample (example_env false) (5 / 2) : Nat) : Int) =
          Int.floor (min (max (5 / 2 : ℚ) 0) ((2 : ℚ) ^ (example_env false).BIT_DEPTH - 1) + 1 / 2) ∧
        sparse_sample (example_env false) (5 / 2) ≤ 2 ^ (example_env false).BIT_DEPTH - 1 ∧
        (∀ (SP_B : Nat) (SAI : view) (seg : segmentation) (ref_colors : List Image)
          (color : Image) (icomp ee ee1 : Nat) (rounded : Image),
          filtered_component (example_env false) SP_B SAI seg ref_colors color icomp ee =
            some (ee1, rounded) →
          ∀ p ∈ rounded, (∃ y : ℚ, p = sparse_sample (example_env false) y) ∧
            p ≤ 2 ^ (example_env false).BIT_DEPTH - 1)) :=
  ⟨by decide, example_clip_eq,
    sparse_sample_clamped (example_env false) (by decide) example_clip_eq (5 / 2)⟩

/-! ## Log of the metadata loop -/

theorem read_texture_residual_log (env : Collaborators) (SAI : view) (ii : Nat) (d : decoder)
    (s : Disk) (levels : Nat) (hs : ∀ e ∈ s.log, metadata_event e = true) :
    ∀ e ∈ (read_texture_residual env SAI ii d s levels).2.1.log, metadata_event e = true := by
  unfold read_texture_residual
  split_ifs
  · intro e he
    simp only [List.mem_append, List.mem_singleton] at he
    rcases he with he | he
    · exact hs e he
    · subst he; rfl
  · exact hs

theorem read_depth_residual_log (env : Collaborators) (SAI : view) (ii : Nat) (d : decoder)
    (s : Disk) (hs : ∀ e ∈ s.log, metadata_event e = true) :
    ∀ e ∈ (read_depth_residual env SAI ii d s).2.log, metadata_event e = true := by
  unfold read_depth_residual
  split_ifs
  · intro e he
    simp only [List.mem_append, List.mem_singleton] at he
    rcases he with he | he
    · exact hs e he
    · subst he; rfl
  · exact hs

/-- Either outcome of the metadata loop carries a log of metadata calls only,
when it starts from such a log. -/
theorem read_metadata_log (env : Collaborators) (is : List Nat) :
    ∀ (d : decoder) (s : Disk) (levels : Nat), (∀ e ∈ s.log, metadata_event e = true) →
      (∀ d1 s1, read_metadata env is d s levels = Except.error (d1, s1) →
          ∀ e ∈ s1.log, metadata_event e = true) ∧
        (∀ d1 s1 levels1, read_metadata env is d s levels = Except.ok (d1, s1, levels1) →
          ∀ e ∈ s1.log, metadata_event e = true) := by
  induction is with
  | nil =>
    intro d s levels hs
    refine ⟨fun d1 s1 h => by simp [read_metadata] at h, fun d1 s1 levels1 h => ?_⟩
    simp only [read_metadata, Except.ok.injEq, Prod.mk.injEq] at h
    rw [← h.2.1]
    exact hs
  | cons ii rest ih =>
    intro d s levels hs
    have hstep : (∀ d1 s1, read_view_metadata env d s levels ii = Except.error (d1, s1) →
          ∀ e ∈ s1.log, metadata_event e = true) ∧
        (∀ d1 s1 levels1, read_view_metadata env d s levels ii = Except.ok (d1, s1, levels1) →
          ∀ e ∈ s1.log, metadata_event e = true) := by
      unfold read_view_metadata
      cases hLF : d.LF[ii]? with
      | none =>
        refine ⟨fun d1 s1 h => by simp at h, fun d1 s1 levels1 h => ?_⟩
        simp only [Except.ok.injEq, Prod.mk.injEq] at h
        rw [← h.2.1]
        exact hs
      | some SAI0 =>
        have hu := read_depth_residual_log env (read_view_header env d ii SAI0).1 ii
          (read_texture_residual env (read_view_header env d ii SAI0).1 ii
            (read_view_header env d ii SAI0).2 s levels).1
          (read_texture_residual env (read_view_header env d ii SAI0).1 ii
            (read_view_header env d ii SAI0).2 s levels).2.1
          (read_texture_residual_log env _ ii _ s levels hs)
        simp only
        constructor
        · intro d1 s1 h
          split_ifs at h
          simp only [Except.error.injEq] at h
          rw [h] at hu
          exact hu
        · intro d1 s1 levels1 h
          split_ifs at h
          simp only [Except.ok.injEq, Prod.mk.injEq] at h
          rw [h.2.1] at hu
          exact hu
    cases hv : read_view_metadata env d s levels ii with
    | error p =>
      obtain ⟨d2, s2⟩ := p
      refine ⟨fun d1 s1 h => ?_, fun d1 s1 levels1 h => by simp [read_metadata, hv] at h⟩
      simp only [read_metadata, hv, Except.error.injEq, Prod.mk.injEq] at h
      rw [← h.2]
      exact hstep.1 d2 s2 hv
    | ok p =>
      obtain ⟨d2, s2, levels2⟩ := p
      have h2 := ih d2 s2 levels2 (hstep.2 d2 s2 levels2 hv)
      simp only [read_metadata, hv]
      exact h2

/-- Every run of `decode_views` that starts from a log of metadata calls either
ends before the level loop with such a log, or enters `reconstruct_views` with
such a log and with `maxh` set by `get_highest_level`; the theorems on
`reconstruct_views` apply to that entry state. -/
theorem decode_views_entry (env : Collaborators) (d : decoder) (s : Disk)
    (hs : ∀ e ∈ s.log, metadata_event e = true) :
    (∃ d1 s1, decode_views env d s = Except.error (d1, s1) ∧
        ∀ e ∈ s1.log, metadata_event e = true) ∨
      (∃ d4 s3, (∀ e ∈ s3.log, metadata_event e = true) ∧
        d4.maxh = env.get_highest_level d4.LF ∧
        decode_views env d s =
          match reconstruct_views env d4 s3 with
          | Except.error s4 => Except.error (d4, s4)
          | Except.ok s4 => Except.ok (d4, s4)) := by
  unfold decode_views
  by_cases hn : d.number_of_views < 0
  · exact Or.inl ⟨d, s, by simp [hn], hs⟩
  · simp only [hn, if_false]
    generalize hd2 : (if ({ d with LF := init_views env d } : decoder).USE_DEFLATE = true then
      read_deflated_parameters env { d with LF := init_views env d }
      else { d with LF := init_views env d }) = d2
    obtain ⟨herr, hok⟩ := read_metadata_log env (List.range d2.LF.length) d2 s 0 hs
    cases hv : read_metadata env (List.range d2.LF.length) d2 s 0 with
    | error p =>
      obtain ⟨d1, s1⟩ := p
      exact Or.inl ⟨d1, s1, rfl, herr d1 s1 hv⟩
    | ok p =>
      obtain ⟨d3, s3, levels⟩ := p
      exact Or.inr ⟨{ d3 with maxh := env.get_highest_level d3.LF }, s3, hok d3 s3 levels hv,
        rfl, rfl⟩

/-! ## Runs that finish -/

theorem sparse_regions_total (env : Collaborators) (SAI : view) (seg : segmentation)
    (regs : List Image) (ks : List Nat) :
    ∀ (ee : Nat) (filtered : List ℚ), ee + ks.length ≤ SAI.sparse_filters.length →
      ∃ r, sparse_regions env SAI seg regs ks ee filtered = some r := by
  induction ks with
  | nil =>
    intro ee filtered _
    exact ⟨_, rfl⟩
  | cons k ks ih =>
    intro ee filtered h
    simp only [List.length_cons] at h
    have hlt : ee < SAI.sparse_filters.length := by omega
    rw [sparse_regions, List.getElem?_eq_getElem hlt]
    exact ih (ee + 1) _ (by omega)

theorem filtered_component_total (env : Collaborators) (SP_B : Nat) (SAI : view)
    (seg : segmentation) (ref_colors : List Image) (color : Image) (icomp ee : Nat)
    (h : ee + seg.number_of_regions ≤ SAI.sparse_filters.length) :
    ∃ r, filtered_component env SP_B SAI seg ref_colors color icomp ee = some r := by
  obtain ⟨r, hr⟩ := sparse_regions_total env SAI seg
    (padded_regressors env SP_B SAI ref_colors color icomp) (List.range seg.number_of_regions) ee
    (List.replicate (padded_size SAI) 0) (by simpa using h)
  unfold filtered_component
  rw [hr]
  exact ⟨_, rfl⟩

theorem sparse_components_total (env : Collaborators) (SP_B : Nat) (SAI : view)
    (seg : segmentation) (ref_colors : List Image) (color : Image) (m : Nat) :
    ∀ (k : Nat) (padded img : Image),
      (k + m) * seg.number_of_regions ≤ SAI.sparse_filters.length →
      ∃ r, sparse_components env SP_B SAI seg ref_colors color (List.range' k m)
        (k * seg.number_of_regions) padded img = some r := by
  induction m with
  | zero =>
    intro k padded img _
    exact ⟨_, rfl⟩
  | succ m ih =>
    intro k padded img h
    have hk : k * seg.number_of_regions + seg.number_of_regions ≤ SAI.sparse_filters.length := by
      have h1 : k * seg.number_of_regions + seg.number_of_regions =
          (k + 1) * seg.number_of_regions := by ring
      have h2 : (k + 1) * seg.number_of_regions ≤ (k + (m + 1)) * seg.number_of_regions :=
        Nat.mul_le_mul_right _ (by omega)
      omega
    obtain ⟨⟨ee1, rounded⟩, hf⟩ := filtered_component_total env SP_B SAI seg ref_colors color k
      (k * seg.number_of_regions) hk
    obtain ⟨hee, _⟩ := filtered_component_some _ _ _ _ _ _ _ _ _ _ hf
    have hee1 : ee1 = (k + 1) * seg.number_of_regions := by rw [hee]; ring
    rw [List.range'_succ, sparse_components, hf]
    simp only
    rw [hee1]
    exact ih (k + 1) _ _ (by rw [show k + 1 + m = k + (m + 1) by omega]; exact h)

theorem global_sparse_filter_total (env : Collaborators) (d : decoder) (s : Disk) (ii : Nat)
    (SAI : view) (color depth : Image)
    (h : d.nc_sparse * (env.makeSegmentation SAI depth d.n_seg_iterations).number_of_regions ≤
      SAI.sparse_filters.length) :
    ∃ color1, (global_sparse_filter env d s ii SAI color depth).2 = some color1 := by
  obtain ⟨⟨ee1, padded1, img1⟩, hr⟩ := sparse_components_total env d.SP_B SAI
    (env.makeSegmentation SAI depth d.n_seg_iterations)
    (SAI.references.map (fun ref => read_image (s.internal_ppm ref))) color d.nc_sparse 0
    (zeros (padded_size SAI * SAI.ncomp)) (slice color 0 (SAI.nr * SAI.nc * SAI.ncomp))
    (by rw [Nat.zero_add]; exact h)
  rw [Nat.zero_mul, ← List.range_eq_range'] at hr
  unfold global_sparse_filter
  simp only [hr]
  exact ⟨_, rfl⟩

/-- The step of the view loop finishes for a view whose filter bank holds at
least `nc_sparse * number_of_regions` filters, and for every view that has no
reference or does not use the global sparse filter. -/
theorem decode_view_total (env : Collaborators) (d : decoder) (s : Disk) (ii : Nat)
    (hbank : ∀ SAI : view, d.LF[ii]? = some SAI → SAI.n_references > 0 →
      SAI.use_global_sparse = true → ∀ depth : Image,
        d.nc_sparse * (env.makeSegmentation SAI depth d.n_seg_iterations).number_of_regions ≤
          SAI.sparse_filters.length) :
    ∃ s1, decode_view env d s ii = Except.ok s1 := by
  cases hLF : d.LF[ii]? with
  | none => exact ⟨s, decode_view_none env d s ii hLF⟩
  | some SAI =>
    have hp : ∃ predicted, (predict_texture_view env d (depth_stage env d s ii SAI).1 ii SAI
        (zeros (SAI.nr * SAI.nc * 3)) (depth_stage env d s ii SAI).2).2 = some predicted := by
      unfold predict_texture_view
      by_cases h1 : SAI.n_references > 0
      · by_cases h2 : SAI.use_global_sparse = true
        · simp only [h1, h2, if_true]
          exact global_sparse_filter_total env d _ ii SAI _ _ (hbank SAI hLF h1 h2 _)
        · simp only [h1, h2, if_true]
          exact ⟨_, rfl⟩
      · simp only [h1, if_false]
        exact ⟨_, rfl⟩
    obtain ⟨predicted, hpred⟩ := hp
    unfold decode_view
    simp only [hLF, hpred]
    exact ⟨_, rfl⟩

/-- The view loop finishes when every view listed has a filter bank of at least
`nc_sparse * number_of_regions` filters. -/
theorem decode_loop_total (env : Collaborators) (d : decoder) (is : List Nat)
    (hbank : ∀ (ii : Nat) (SAI : view), d.LF[ii]? = some SAI → SAI.n_references > 0 →
      SAI.use_global_sparse = true → ∀ depth : Image,
        d.nc_sparse * (env.makeSegmentation SAI depth d.n_seg_iterations).number_of_regions ≤
          SAI.sparse_filters.length) :
    ∀ s : Disk, ∃ s1, decode_loop env d is s = Except.ok s1 := by
  induction is with
  | nil => exact fun s => ⟨s, rfl⟩
  | cons ii rest ih =>
    intro s
    obtain ⟨s1, h1⟩ := decode_view_total env d s ii (hbank ii)
    rw [decode_loop, h1]
    exact ih s1

theorem mincu_padding_eq (n : Int) (hn : 0 ≤ n) :
    mincu_padding n = if n % 8 ≠ 0 then 8 - n % 8 else 0 := by
  unfold mincu_padding
  simp only []
  rw [Int.tmod_eq_emod hn (show (0 : Int) ≤ 8 by decide),
    Int.tdiv_eq_ediv hn (show (0 : Int) ≤ 8 by decide)]
  split_ifs <;> omega

theorem mincu_padding_int32_eq (n : Int) (hn : 0 ≤ n) :
    mincu_padding_int32 n = mincu_padding n := by
  rw [mincu_padding_eq n hn]
  unfold mincu_padding_int32 wrap_int32
  simp only []
  rw [Int.tmod_eq_emod hn (show (0 : Int) ≤ 8 by decide),
    Int.tdiv_eq_ediv hn (show (0 : Int) ≤ 8 by decide)]
  split_ifs <;> omega

/-- C14: for every non-negative dimension `n` the padding computed in
`decode_views` lies in 0..7, `n` plus the padding is a multiple of 8 and the
least multiple of 8 that is at least `n`, and the padding is 0 exactly when 8
divides `n`; the value is the same when every intermediate result is stored in
`int32_t`. `VERP` is this padding for the rows of the first view and `HORP` for
its columns. -/
theorem padding_rounds_up_to_mincusize (n : Int) (hn : 0 ≤ n) :
    0 ≤ mincu_padding n ∧ mincu_padding n ≤ 7 ∧ 8 ∣ n + mincu_padding n ∧
      (∀ m : Int, 8 ∣ m → n ≤ m → n + mincu_padding n ≤ m) ∧
      (mincu_padding n = 0 ↔ 8 ∣ n) ∧
      mincu_padding_int32 n = mincu_padding n ∧
      (∀ (SAI : view) (rest : List view),
        ((SAI.nr : Int) = n → VERP (SAI :: rest) = mincu_padding n) ∧
        ((SAI.nc : Int) = n → HORP (SAI :: rest) = mincu_padding n)) := by
  refine ⟨?_, ?_, ?_, ?_, ?_, mincu_padding_int32_eq n hn, ?_⟩
  · rw [mincu_padding_eq n hn]; split_ifs <;> omega
  · rw [mincu_padding_eq n hn]; split_ifs <;> omega
  · rw [mincu_padding_eq n hn]; split_ifs <;> omega
  · intro m hm hnm
    rw [mincu_padding_eq n hn]; split_ifs <;> omega
  · rw [mincu_padding_eq n hn]; split_ifs <;> omega
  · intro SAI rest
    constructor
    · intro h
      simp [VERP, h]
    · intro h
      simp [HORP, h]

theorem padding_rounds_up_to_mincusize_witness :
    (0 : Int) ≤ 13 ∧
      (0 ≤ mincu_padding 13 ∧ mincu_padding 13 ≤ 7 ∧ 8 ∣ 13 + mincu_padding 13 ∧
      (∀ m : Int, 8 ∣ m → 13 ≤ m → 13 + mincu_padding 13 ≤ m) ∧
      (mincu_padding 13 = 0 ↔ 8 ∣ (13 : Int)) ∧
      mincu_padding_int32 13 = mincu_padding 13 ∧
      (∀ (SAI : view) (rest : List view),
        ((SAI.nr : Int) = 13 → VERP (SAI :: rest) = mincu_padding 13) ∧
        ((SAI.nc : Int) = 13 → HORP (SAI :: rest) = mincu_padding 13))) :=
  ⟨by decide, padding_rounds_up_to_mincusize 13 (by decide)⟩

/-- C15 (code): for every stream of at least 25 bytes `decode_header` consumes
25 bytes, and `n_bytes_prediction` grows by 22: the four bytes of `maxh` are
counted as one. -/
theorem decode_header_counts_22_of_25 (d : decoder) (bs : List Nat) (e : Bool)
    (hd : d.input_LF = { bytes := bs, eof := e }) (h : 25 ≤ bs.length) :
    ∃ g, (decode_header d = Except.ok g ∨ decode_header d = Except.error g) ∧
      g.input_LF.bytes = bs.drop 25 ∧
      bs.length - g.input_LF.bytes.length = 25 ∧
      g.n_bytes_prediction = d.n_bytes_prediction + 22 := by
  refine ⟨read_header_fields d, decode_header_cases d, ?_, ?_, ?_⟩
  · rw [read_header_fields_bytes d bs e hd h]
  · rw [read_header_fields_bytes d bs e hd h]
    simp only [List.length_drop]
    omega
  · rw [read_header_fields_bytes d bs e hd h]

theorem decode_header_counts_22_of_25_witness :
    (fresh_decoder "" example_header).input_LF = { bytes := example_header, eof := false } ∧
      25 ≤ example_header.length ∧
      ∃ g, (decode_header (fresh_decoder "" example_header) = Except.ok g ∨
          decode_header (fresh_decoder "" example_header) = Except.error g) ∧
        g.input_LF.bytes = example_header.drop 25 ∧
        example_header.length - g.input_LF.bytes.length = 25 ∧
        g.n_bytes_prediction = (fresh_decoder "" example_header).n_bytes_prediction + 22 :=
  ⟨rfl, by decide,
    decode_header_counts_22_of_25 (fresh_decoder "" example_header) example_header false rfl
      (by decide)⟩

theorem mem_take_zeros (n m : Nat) (x : Nat) (h : x ∈ (zeros n).take m) : x = 0 := by
  have h1 := List.mem_of_mem_take h
  unfold zeros at h1
  exact (List.mem_replicate.mp h1).2

/-- C13: for a view with no references `predict_texture_view` returns the
texture it was given and makes no call, whatever the merge mode and the
global-sparse flag; the step of the view loop completes, and the texture file
it writes (which later views leave as it is) holds only zeros when the view has
no coded texture residual and, when it has one, the result of `apply_residual`
on the all-zero texture and the dequantised raw residual image of the view. -/
theorem unreferenced_view_texture (env : Collaborators) (d : decoder) (s0 s1 : Disk)
    (ii : Nat) (SAI : view)
    (hii : d.LF[ii]? = some SAI) (href : SAI.n_references = 0)
    (h1 : decode_loop env d (List.range ii) s0 = Except.ok s1) :
    (∀ s color depth, predict_texture_view env d s ii SAI color depth = ([], some color)) ∧
      ∃ s2 img, decode_view env d s1 ii = Except.ok s2 ∧
        s2.internal_ppm ii = some img ∧
        (final (decode_loop env d (List.range d.LF.length) s0)).internal_ppm ii = some img ∧
        (SAI.has_color_residual = false →
          img = (zeros (SAI.nr * SAI.nc * 3)).take (SAI.nr * SAI.nc * SAI.ncomp) ∧
          ∀ x ∈ img, x = 0) ∧
        (SAI.has_color_residual = true →
          img = (poke (zeros (SAI.nr * SAI.nc * 3)) 0
            ((env.apply_residual (zeros (SAI.nr * SAI.nc * 3))
              (env.dequantize_residual (read_image (s1.raw_texture_residual ii))
                SAI.nr SAI.nc SAI.ncomp 10 (residual_quantization SAI.level).1
                (residual_quantization SAI.level).2)
              SAI.nr SAI.nc SAI.ncomp 10).take (SAI.nr * SAI.nc * SAI.ncomp))).take
            (SAI.nr * SAI.nc * SAI.ncomp)) := by
  have hrefs : SAI.references = [] := by
    unfold view.n_references at href
    exact List.length_eq_zero.mp href
  have hpt : ∀ s color depth, predict_texture_view env d s ii SAI color depth =
      ([], some color) := fun s color depth =>
    predict_texture_view_no_references env d s ii SAI color depth hrefs
  refine ⟨hpt, ?_⟩
  have hraw := (depth_stage_files env d s1 ii SAI).2.2.1
  obtain ⟨s2, hv, hint⟩ : ∃ s2, decode_view env d s1 ii = Except.ok s2 ∧
      s2.internal_ppm ii = some ((apply_texture_residual env (depth_stage env d s1 ii SAI).1 ii SAI
        (zeros (SAI.nr * SAI.nc * 3))).2.take (SAI.nr * SAI.nc * SAI.ncomp)) := by
    have hv0 : decode_view env d s1 ii = Except.ok
        { (depth_stage env d s1 ii SAI).1 with
          internal_ppm := Function.update (depth_stage env d s1 ii SAI).1.internal_ppm ii
            (some ((apply_texture_residual env (depth_stage env d s1 ii SAI).1 ii SAI
              (zeros (SAI.nr * SAI.nc * 3))).2.take (SAI.nr * SAI.nc * SAI.ncomp)))
          out_ppm := Function.update (depth_stage env d s1 ii SAI).1.out_ppm ii
            (some (env.write_output_ppm (apply_texture_residual env
              (depth_stage env d s1 ii SAI).1 ii SAI (zeros (SAI.nr * SAI.nc * 3))).2
              SAI.nr SAI.nc d.nc_color_ref 10 SAI.colorspace))
          log := (depth_stage env d s1 ii SAI).1.log ++ [] ++
            (apply_texture_residual env (depth_stage env d s1 ii SAI).1 ii SAI
              (zeros (SAI.nr * SAI.nc * 3))).1 ++
            [Event.write_internal_ppm ii, Event.write_output_ppm ii] } := by
      rw [decode_view]
      simp only [hii, hpt]
    exact ⟨_, hv0, by simp⟩
  have hloop := decode_loop_from env d s0 s1 ii (lt_length_of_getElem? _ _ _ hii) h1
  rw [hv] at hloop
  simp only at hloop
  have hkeep := (decode_loop_files env d (List.range' (ii + 1) (d.LF.length - ii - 1)) s2).2.2.2
    ii (not_mem_range_succ ii _)
  refine ⟨s2, _, hv, hint, ?_, ?_, ?_⟩
  · rw [hloop, hkeep, hint]
  · intro hres
    have har : (apply_texture_residual env (depth_stage env d s1 ii SAI).1 ii SAI
        (zeros (SAI.nr * SAI.nc * 3))).2 = zeros (SAI.nr * SAI.nc * 3) := by
      simp [apply_texture_residual, hres]
    rw [har]
    exact ⟨rfl, fun x hx => mem_take_zeros _ _ x hx⟩
  · intro hres
    simp [apply_texture_residual, hres, hraw]

theorem unreferenced_view_texture_witness :
    (example_decoder unreferenced_residual_views).LF[0]? =
        some { example_view with has_color_residual := true, mmode := 1,
                                 use_global_sparse := true } ∧
      ({ example_view with has_color_residual := true, mmode := 1,
                           use_global_sparse := true } : view).n_references = 0 ∧
      decode_loop (example_env false) (example_decoder unreferenced_residual_views)
        (List.range 0) Disk.empty = Except.ok Disk.empty ∧
      ((∀ s color depth, predict_texture_view (example_env false)
          (example_decoder unreferenced_residual_views) s 0
          { example_view with has_color_residual := true, mmode := 1,
                              use_global_sparse := true } color depth = ([], some color)) ∧
        ∃ s2 img, decode_view (example_env false) (example_decoder unreferenced_residual_views)
            Disk.empty 0 = Except.ok s2 ∧
          s2.internal_ppm 0 = some img ∧
          (final (decode_loop (example_env false) (example_decoder unreferenced_residual_views)
            (List.range (example_decoder unreferenced_residual_views).LF.length)
            Disk.empty)).internal_ppm 0 = some img ∧
          (true = false → img = (zeros (3 * 3 * 3)).take (3 * 3 * 3) ∧ ∀ x ∈ img, x = 0) ∧
          (true = true →
            img = (poke (zeros (3 * 3 * 3)) 0
              (((example_env false).apply_residual (zeros (3 * 3 * 3))
                ((example_env false).dequantize_residual
                  (read_image (Disk.empty.raw_texture_residual 0))
                  3 3 3 10 (residual_quantization 1).1 (residual_quantization 1).2)
                3 3 3 10).take (3 * 3 * 3))).take (3 * 3 * 3))) :=
  ⟨rfl, rfl, rfl,
    unreferenced_view_texture (example_env false) (example_decoder unreferenced_residual_views)
      Disk.empty Disk.empty 0
      { example_view with has_color_residual := true, mmode := 1, use_global_sparse := true }
      rfl rfl rfl⟩

theorem region_accesses_range (SAI : view) (icomp base : Nat) (m : Nat) :
    ∀ j, base + j + m ≤ SAI.sparse_filters.length →
      region_accesses SAI icomp (List.range' j m) (base + j) =
        ((List.range' j m).map (fun k => (icomp, k + 1, base + k)), some (base + j + m)) := by
  induction m with
  | zero => intro j _; simp [region_accesses]
  | succ m ih =>
    intro j h
    have hlt : base + j < SAI.sparse_filters.length := by omega
    rw [List.range'_succ, region_accesses, List.getElem?_eq_getElem hlt]
    simp only []
    have := ih (j + 1) (by omega)
    rw [show base + (j + 1) = base + j + 1 by omega] at this
    rw [this]
    simp only [List.map_cons, Prod.mk.injEq, true_and, Option.some.injEq]
    omega

theorem component_accesses_range (SAI : view) (R : Nat) (m : Nat) :
    ∀ k, (k + m) * R ≤ SAI.sparse_filters.length →
      component_accesses SAI R (List.range' k m) (k * R) =
        ((List.range' k m).flatMap (fun c => (List.range R).map (fun j => (c, j + 1, c * R + j))),
          some ((k + m) * R)) := by
  induction m with
  | zero => intro k _; simp [component_accesses]
  | succ m ih =>
    intro k h
    have h1 : (k + 1 + m) * R ≤ SAI.sparse_filters.length := by
      rw [show k + 1 + m = k + (m + 1) by omega]; exact h
    have h2 : k * R + 0 + R ≤ SAI.sparse_filters.length := by
      have : (k + 1) * R ≤ (k + (m + 1)) * R := Nat.mul_le_mul_right R (by omega)
      rw [Nat.add_mul, Nat.one_mul] at this
      omega
    have hr := region_accesses_range SAI k (k * R) R 0 h2
    rw [← List.range_eq_range', Nat.add_zero] at hr
    rw [List.range'_succ, component_accesses, hr]
    simp only []
    have hk : k * R + R = (k + 1) * R := by rw [Nat.add_mul, Nat.one_mul]
    rw [hk, ih (k + 1) h1]
    simp only [List.flatMap_cons, Prod.mk.injEq, true_and, Option.some.injEq]
    rw [show k + 1 + m = k + (m + 1) by omega]

theorem access_indices (R : Nat) (n : Nat) :
    ((List.range n).flatMap (fun c => (List.range R).map (fun j => (c, j + 1, c * R + j)))).map
      (fun a => a.2.2) = List.range (n * R) := by
  induction n with
  | zero => simp
  | succ n ih =>
    rw [List.range_succ, List.flatMap_append, List.map_append, ih, Nat.add_mul, Nat.one_mul,
      List.range_add]
    simp [Function.comp_def]

theorem sparse_regions_accesses (env : Collaborators) (SAI : view) (seg : segmentation)
    (regs : List Image) (icomp : Nat) (ks : List Nat) :
    ∀ (ee : Nat) (filtered : List ℚ),
      (sparse_regions env SAI seg regs ks ee filtered).map Prod.fst =
        (region_accesses SAI icomp ks ee).2 := by
  induction ks with
  | nil => intro ee filtered; simp [sparse_regions, region_accesses]
  | cons k ks ih =>
    intro ee filtered
    rw [sparse_regions, region_accesses]
    cases hf : SAI.sparse_filters[ee]? with
    | none => simp
    | some f => simp only []; exact ih _ _

theorem sparse_components_accesses (env : Collaborators) (SP_B : Nat) (SAI : view)
    (seg : segmentation) (ref_colors : List Image) (color : Image) (comps : List Nat) :
    ∀ (ee : Nat) (padded img : Image),
      (sparse_components env SP_B SAI seg ref_colors color comps ee padded img).map
        (fun r => r.1) = (component_accesses SAI seg.number_of_regions comps ee).2 := by
  induction comps with
  | nil => intro ee padded img; simp [sparse_components, component_accesses]
  | cons c rest ih =>
    intro ee padded img
    have hl := sparse_regions_accesses env SAI seg
      (padded_regressors env SP_B SAI ref_colors color c) c (List.range seg.number_of_regions) ee
      (List.replicate (padded_size SAI) 0)
    rw [sparse_components, component_accesses, filtered_component]
    cases hr : sparse_regions env SAI seg (padded_regressors env SP_B SAI ref_colors color c)
        (List.range seg.number_of_regions) ee (List.replicate (padded_size SAI) 0) with
    | none =>
      rw [hr] at hl
      cases hq : region_accesses SAI c (List.range seg.number_of_regions) ee with
      | mk l o =>
        rw [hq] at hl
        simp only [Option.map_none'] at hl
        subst hl
        simp
    | some r =>
      rw [hr] at hl
      cases hq : region_accesses SAI c (List.range seg.number_of_regions) ee with
      | mk l o =>
        rw [hq] at hl
        simp only [Option.map_some'] at hl
        subst hl
        simp only []
        exact ih _ _ _

theorem sparse_regions_fold (env : Collaborators) (SAI : view) (seg : segmentation)
    (regs : List Image) (base : Nat) (m : Nat) :
    ∀ (j : Nat) (acc : List ℚ), base + j + m ≤ SAI.sparse_filters.length →
      sparse_regions env SAI seg regs (List.range' j m) (base + j) acc =
        some (base + j + m, (List.range' j m).foldl
          (fun filtered_icomp k =>
            match SAI.sparse_filters[base + k]? with
            | none => filtered_icomp
            | some f =>
              env.applyGlobalSparseFilter_vec_reg regs seg.seg (k + 1)
                (SAI.nr + 2 * SAI.NNt) (SAI.nc + 2 * SAI.NNt) SAI.Ms SAI.NNt env.SPARSE_BIAS_TERM
                (env.dequantize_and_reorder_spfilter f).filter_coefficients filtered_icomp)
          acc) := by
  induction m with
  | zero => intro j acc _; simp [sparse_regions]
  | succ m ih =>
    intro j acc h
    have hlt : base + j < SAI.sparse_filters.length := by omega
    rw [List.range'_succ, sparse_regions, List.getElem?_eq_getElem hlt]
    simp only []
    have := ih (j + 1) (env.applyGlobalSparseFilter_vec_reg regs seg.seg (j + 1)
      (SAI.nr + 2 * SAI.NNt) (SAI.nc + 2 * SAI.NNt) SAI.Ms SAI.NNt env.SPARSE_BIAS_TERM
      (env.dequantize_and_reorder_spfilter SAI.sparse_filters[base + j]).filter_coefficients acc)
      (by omega)
    rw [show base + (j + 1) = base + j + 1 by omega] at this
    rw [this, List.foldl_cons, List.getElem?_eq_getElem hlt]
    simp only [Option.some.injEq, Prod.mk.injEq, and_true]
    omega

theorem filtered_component_spec (env : Collaborators) (SP_B : Nat) (SAI : view)
    (seg : segmentation) (ref_colors : List Image) (color : Image) (c : Nat)
    (h : c * seg.number_of_regions + seg.number_of_regions ≤ SAI.sparse_filters.length) :
    filtered_component env SP_B SAI seg ref_colors color c (c * seg.number_of_regions) =
      some (c * seg.number_of_regions + seg.number_of_regions,
        (List.range (padded_size SAI)).map (fun iij => sparse_sample env
          ((spec_filtered_icomp env SAI seg (padded_regressors env SP_B SAI ref_colors color c)
            c).getD iij 0))) := by
  have hf := sparse_regions_fold env SAI seg (padded_regressors env SP_B SAI ref_colors color c)
    (c * seg.number_of_regions) seg.number_of_regions 0 (List.replicate (padded_size SAI) 0)
    (by omega)
  rw [← List.range_eq_range', Nat.add_zero] at hf
  rw [filtered_component, hf]
  rfl

/-- C12: when the bank of a view holds at least `nc_sparse * number_of_regions`
filters, the accesses `sparse_filters.at(ee)` of the sparse filter step are, in
order, component 0..nc_sparse-1 and within a component region
1..number_of_regions, the access for component `c` and region `r` being
`sparse_filters[c * number_of_regions + (r - 1)]`; the indices accessed are
0, 1, .., nc_sparse * number_of_regions - 1, each once and each inside the
bank; the component loop ends with that many filters consumed, the output of
component `c` is the one the formula of the specification gives, and the step
returns a texture. -/
theorem sparse_filter_bank_order (env : Collaborators) (d : decoder) (s : Disk) (ii : Nat)
    (SAI : view) (color depth : Image) (seg : segmentation)
    (hseg : seg = env.makeSegmentation SAI depth d.n_seg_iterations)
    (h : d.nc_sparse * seg.number_of_regions ≤ SAI.sparse_filters.length) :
    (component_accesses SAI seg.number_of_regions (List.range d.nc_sparse) 0).1 =
        (List.range d.nc_sparse).flatMap (fun c =>
          (List.range seg.number_of_regions).map (fun k =>
            (c, k + 1, c * seg.number_of_regions + (k + 1 - 1)))) ∧
      (component_accesses SAI seg.number_of_regions (List.range d.nc_sparse) 0).1.map
        (fun a => a.2.2) = List.range (d.nc_sparse * seg.number_of_regions) ∧
      (component_accesses SAI seg.number_of_regions (List.range d.nc_sparse) 0).1.length =
        d.nc_sparse * seg.number_of_regions ∧
      (∀ a ∈ (component_accesses SAI seg.number_of_regions (List.range d.nc_sparse) 0).1,
        a.2.2 < SAI.sparse_filters.length) ∧
      (∀ (ref_colors : List Image) (padded img : Image),
        (sparse_components env d.SP_B SAI seg ref_colors color (List.range d.nc_sparse) 0
          padded img).map (fun r => r.1) =
          (component_accesses SAI seg.number_of_regions (List.range d.nc_sparse) 0).2 ∧
        (component_accesses SAI seg.number_of_regions (List.range d.nc_sparse) 0).2 =
          some (d.nc_sparse * seg.number_of_regions)) ∧
      (∀ (ref_colors : List Image) (c : Nat), c < d.nc_sparse →
        filtered_component env d.SP_B SAI seg ref_colors color c (c * seg.number_of_regions) =
          some (c * seg.number_of_regions + seg.number_of_regions,
            (List.range (padded_size SAI)).map (fun iij => sparse_sample env
              ((spec_filtered_icomp env SAI seg
                (padded_regressors env d.SP_B SAI ref_colors color c) c).getD iij 0)))) ∧
      ∃ color1, (global_sparse_filter env d s ii SAI color depth).2 = some color1 := by
  have hacc := component_accesses_range SAI seg.number_of_regions d.nc_sparse 0
    (by rw [Nat.zero_add]; exact h)
  rw [← List.range_eq_range', Nat.zero_mul, Nat.zero_add] at hacc
  have hidx := access_indices seg.number_of_regions d.nc_sparse
  rw [hacc]
  simp only [Nat.add_sub_cancel]
  refine ⟨trivial, hidx, ?_, ?_, ?_, ?_, ?_⟩
  · have := congrArg List.length hidx
    rw [List.length_map, List.length_range] at this
    exact this
  · intro a ha
    have hm : a.2.2 ∈ List.range (d.nc_sparse * seg.number_of_regions) := by
      rw [← hidx]
      exact List.mem_map_of_mem (fun a => a.2.2) ha
    have := List.mem_range.mp hm
    omega
  · intro ref_colors padded img
    refine ⟨?_, trivial⟩
    rw [sparse_components_accesses env d.SP_B SAI seg ref_colors color (List.range d.nc_sparse) 0
      padded img, hacc]
  · intro ref_colors c hc
    refine filtered_component_spec env d.SP_B SAI seg ref_colors color c ?_
    have : (c + 1) * seg.number_of_regions ≤ d.nc_sparse * seg.number_of_regions :=
      Nat.mul_le_mul_right _ hc
    rw [Nat.add_mul, Nat.one_mul] at this
    omega
  · exact global_sparse_filter_total env d s ii SAI color depth (by rw [← hseg]; exact h)

theorem sparse_filter_bank_order_witness :
    sparse_segmentation =
        (example_env false).makeSegmentation sparse_view2 example_depth
          sparse_decoder2.n_seg_iterations ∧
      sparse_decoder2.nc_sparse *
          sparse_segmentation.number_of_regions ≤
        sparse_view2.sparse_filters.length ∧
      ((component_accesses sparse_view2 sparse_segmentation.number_of_regions (List.range
        sparse_decoder2.nc_sparse) 0).1 =
        (List.range sparse_decoder2.nc_sparse).flatMap (fun c =>
          (List.range sparse_segmentation.number_of_regions).map (fun k =>
            (c, k + 1, c * sparse_segmentation.number_of_regions + (k + 1 - 1)))) ∧
      (component_accesses sparse_view2 sparse_segmentation.number_of_regions (List.range
        sparse_decoder2.nc_sparse) 0).1.map
        (fun a => a.2.2) = List.range (sparse_decoder2.nc_sparse *
          sparse_segmentation.number_of_regions) ∧
      (component_accesses sparse_view2 sparse_segmentation.number_of_regions (List.range
        sparse_decoder2.nc_sparse) 0).1.length =
        sparse_decoder2.nc_sparse * sparse_segmentation.number_of_regions ∧
      (∀ a ∈ (component_accesses sparse_view2 sparse_segmentation.number_of_regions (List.range
        sparse_decoder2.nc_sparse) 0).1,
        a.2.2 < sparse_view2.sparse_filters.length) ∧
      (∀ (ref_colors : List Image) (padded img : Image),
        (sparse_components (example_env false) sparse_decoder2.SP_B sparse_view2
          sparse_segmentation ref_colors sparse_color (List.range sparse_decoder2.nc_sparse) 0
          padded img).map (fun r => r.1) =
          (component_accesses sparse_view2 sparse_segmentation.number_of_regions (List.range
            sparse_decoder2.nc_sparse) 0).2 ∧
        (component_accesses sparse_view2 sparse_segmentation.number_of_regions (List.range
          sparse_decoder2.nc_sparse) 0).2 =
          some (sparse_decoder2.nc_sparse * sparse_segmentation.number_of_regions)) ∧
      (∀ (ref_colors : List Image) (c : Nat), c < sparse_decoder2.nc_sparse →
        filtered_component (example_env false) sparse_decoder2.SP_B sparse_view2
          sparse_segmentation ref_colors sparse_color c (c *
            sparse_segmentation.number_of_regions) =
          some (c * sparse_segmentation.number_of_regions + sparse_segmentation.number_of_regions,
            (List.range (padded_size sparse_view2)).map (fun iij => sparse_sample (example_env
              false)
              ((spec_filtered_icomp (example_env false) sparse_view2 sparse_segmentation
                (padded_regressors (example_env false) sparse_decoder2.SP_B sparse_view2
                  ref_colors sparse_color c) c).getD iij 0)))) ∧
      ∃ color1, (global_sparse_filter (example_env false) sparse_decoder2 Disk.empty 1
        sparse_view2 sparse_color example_depth).2 = some color1) :=
  ⟨rfl, by decide,
    sparse_filter_bank_order (example_env false) sparse_decoder2 Disk.empty 1 sparse_view2
      sparse_color example_depth
      sparse_segmentation rfl (by decide)⟩

theorem segments_read_append (a b : List Int) :
    ∀ c, segments_read (a ++ b) c = segments_read b (segments_read a c) := by
  induction a with
  | nil => intro c; rfl
  | cons l a ih => intro c; simp only [List.cons_append, segments_read]; exact ih _

theorem residual_levels_cons (SAI : view) (rest : List view) :
    residual_levels (SAI :: rest) = residual_levels [SAI] ++ residual_levels rest := by
  unfold residual_levels
  by_cases h : SAI.has_color_residual = true <;> simp [List.filter_cons, h]

theorem read_texture_residual_count (env : Collaborators) (SAI : view) (ii : Nat) (d : decoder)
    (s : Disk) (levels : Nat) :
    (read_texture_residual env SAI ii d s levels).2.2 =
        segments_read (residual_levels [SAI]) levels ∧
      (texture_residual_reads (read_texture_residual env SAI ii d s levels).2.1.log).length +
          levels =
        (texture_residual_reads s.log).length +
          (read_texture_residual env SAI ii d s levels).2.2 ∧
      (read_texture_residual env SAI ii d s levels).1.LF = d.LF := by
  unfold read_texture_residual residual_levels
  by_cases hres : SAI.has_color_residual = true
  · by_cases hc : (decide (SAI.level < 0) || decide ((levels : Int) < SAI.level)) = true
    · simp only [hres, hc, Bool.and_self, if_true]
      refine ⟨by simp [segments_read, hres, hc], ?_, trivial⟩
      simp [texture_residual_reads, List.filterMap_append]
      omega
    · simp only [hres, hc, Bool.true_and, if_false]
      refine ⟨by simp [segments_read, hres, hc], rfl, rfl⟩
  · simp only [hres, Bool.false_and, if_false]
    refine ⟨by simp [segments_read, hres], rfl, rfl⟩

theorem read_depth_residual_count (env : Collaborators) (SAI : view) (ii : Nat) (d : decoder)
    (s : Disk) :
    texture_residual_reads (read_depth_residual env SAI ii d s).2.log =
        texture_residual_reads s.log ∧
      (read_depth_residual env SAI ii d s).1.LF = d.LF := by
  unfold read_depth_residual
  split_ifs
  · exact ⟨by simp [texture_residual_reads, List.filterMap_append], rfl⟩
  · exact ⟨rfl, rfl⟩

theorem read_view_header_LF (env : Collaborators) (d : decoder) (ii : Nat) (SAI0 : view)
    (h : d.LF[ii]? = some SAI0) :
    (read_view_header env d ii SAI0).2.LF[ii]? = some (read_view_header env d ii SAI0).1 ∧
      (read_view_header env d ii SAI0).2.LF.length = d.LF.length ∧
      ∀ j, j ≠ ii → (read_view_header env d ii SAI0).2.LF[j]? = d.LF[j]? := by
  have hlt := lt_length_of_getElem? d.LF ii SAI0 h
  unfold read_view_header
  split_ifs
  · exact ⟨h, rfl, fun _ _ => rfl⟩
  · refine ⟨?_, by simp, ?_⟩
    · simp [List.getElem?_set, hlt]
    · intro j hj
      simp [List.getElem?_set, Ne.symm hj]

theorem read_view_metadata_step (env : Collaborators) (d : decoder) (s : Disk) (levels ii : Nat)
    (SAI0 : view) (h : d.LF[ii]? = some SAI0) (d1 : decoder) (s1 : Disk) (levels1 : Nat)
    (hrun : read_view_metadata env d s levels ii = Except.ok (d1, s1, levels1)) :
    ∃ SAI, d1.LF[ii]? = some SAI ∧ d1.LF.length = d.LF.length ∧
      (∀ j, j ≠ ii → d1.LF[j]? = d.LF[j]?) ∧
      levels1 = segments_read (residual_levels [SAI]) levels ∧
      (texture_residual_reads s1.log).length + levels =
        (texture_residual_reads s.log).length + levels1 := by
  obtain ⟨hh1, hh2, hh3⟩ := read_view_header_LF env d ii SAI0 h
  obtain ⟨ht1, ht2, ht3⟩ := read_texture_residual_count env (read_view_header env d ii SAI0).1 ii
    (read_view_header env d ii SAI0).2 s levels
  obtain ⟨hd1, hd2⟩ := read_depth_residual_count env (read_view_header env d ii SAI0).1 ii
    (read_texture_residual env (read_view_header env d ii SAI0).1 ii
      (read_view_header env d ii SAI0).2 s levels).1
    (read_texture_residual env (read_view_header env d ii SAI0).1 ii
      (read_view_header env d ii SAI0).2 s levels).2.1
  unfold read_view_metadata at hrun
  simp only [h] at hrun
  split_ifs at hrun
  simp only [Except.ok.injEq, Prod.mk.injEq] at hrun
  obtain ⟨e1, e2, e3⟩ := hrun
  subst e1 e2 e3
  refine ⟨(read_view_header env d ii SAI0).1, ?_, ?_, ?_, ht1, ?_⟩
  · rw [hd2, ht3]; exact hh1
  · rw [hd2, ht3]; exact hh2
  · intro j hj
    rw [hd2, ht3]; exact hh3 j hj
  · rw [hd1]; exact ht2

theorem read_metadata_count (env : Collaborators) (m : Nat) :
    ∀ (k : Nat) (d : decoder) (s : Disk) (levels : Nat) (d1 : decoder) (s1 : Disk)
      (levels1 : Nat), k + m ≤ d.LF.length →
      read_metadata env (List.range' k m) d s levels = Except.ok (d1, s1, levels1) →
      d1.LF.length = d.LF.length ∧
        (∀ j, j < k → d1.LF[j]? = d.LF[j]?) ∧
        levels1 = segments_read (residual_levels ((d1.LF.drop k).take m)) levels ∧
        (texture_residual_reads s1.log).length + levels =
          (texture_residual_reads s.log).length + levels1 := by
  induction m with
  | zero =>
    intro k d s levels d1 s1 levels1 _ hrun
    simp only [List.range'_zero, read_metadata, Except.ok.injEq, Prod.mk.injEq] at hrun
    obtain ⟨e1, e2, e3⟩ := hrun
    subst e1 e2 e3
    simp [residual_levels, segments_read]
  | succ m ih =>
    intro k d s levels d1 s1 levels1 hk hrun
    rw [List.range'_succ, read_metadata] at hrun
    have hlt : k < d.LF.length := by omega
    cases hstep : read_view_metadata env d s levels k with
    | error e =>
      rw [hstep] at hrun
      exact absurd hrun (by simp)
    | ok r =>
      obtain ⟨d2, s2, levels2⟩ := r
      rw [hstep] at hrun
      simp only at hrun
      obtain ⟨SAI, hs1, hs2, hs3, hs4, hs5⟩ := read_view_metadata_step env d s levels k
        d.LF[k] (List.getElem?_eq_getElem hlt) d2 s2 levels2 hstep
      obtain ⟨h1, h2, h3, h4⟩ := ih (k + 1) d2 s2 levels2 d1 s1 levels1 (by omega) hrun
      have hk1 : d1.LF[k]? = some SAI := by rw [h2 k (by omega)]; exact hs1
      have hdrop : (d1.LF.drop k).take (m + 1) = SAI :: (d1.LF.drop (k + 1)).take m := by
        have hlt1 : k < d1.LF.length := by omega
        rw [List.getElem?_eq_getElem hlt1] at hk1
        rw [List.drop_eq_getElem_cons hlt1, List.take_succ_cons, Option.some.inj hk1]
      refine ⟨by omega, ?_, ?_, by omega⟩
      · intro j hj
        rw [h2 j (by omega), hs3 j (by omega)]
      · rw [hdrop, residual_levels_cons, segments_read_append, ← hs4]
        exact h3

theorem segments_read_snoc (ls : List Int) (l : Int) (c : Nat) :
    segments_read (ls ++ [l]) c =
      if l < 0 ∨ (segments_read ls c : Int) < l then segments_read ls c + 1
      else segments_read ls c := by
  rw [segments_read_append]
  simp only [segments_read, Bool.or_eq_true, decide_eq_true_eq]

theorem segments_read_in_order (ls : List Int) :
    (∀ pre l post, ls = pre ++ l :: post → 1 ≤ l ∧ (l = 1 ∨ l - 1 ∈ pre)) →
      segments_read ls 0 = ls.toFinset.card ∧
        ∀ k : Int, k ∈ ls ↔ 1 ≤ k ∧ k ≤ (segments_read ls 0 : Int) := by
  induction ls using List.reverseRecOn with
  | nil =>
    intro _
    refine ⟨rfl, fun k => ?_⟩
    simp only [List.not_mem_nil, segments_read, false_iff]
    intro hk
    have : ((0 : Nat) : Int) = 0 := rfl
    omega
  | append_singleton ls l ih =>
    intro h
    obtain ⟨hcard, hmem⟩ := ih (fun pre x post hx =>
      h pre x (post ++ [l]) (by rw [hx]; simp))
    obtain ⟨hl1, hl2⟩ := h ls l [] rfl
    have hle : l ≤ (segments_read ls 0 : Int) + 1 := by
      rcases hl2 with hl2 | hl2
      · omega
      · have := ((hmem (l - 1)).mp hl2).2
        omega
    have hfin : (ls ++ [l]).toFinset = insert l ls.toFinset := by
      ext x
      simp [or_comm]
    rw [segments_read_snoc]
    by_cases hnew : (segments_read ls 0 : Int) < l
    · have hnot : l ∉ ls := fun hin => by
        have := ((hmem l).mp hin).2
        omega
      rw [if_pos (Or.inr hnew)]
      constructor
      · rw [hfin, Finset.card_insert_of_not_mem (by simpa using hnot), hcard]
      · intro k
        simp only [List.mem_append, List.mem_singleton, hmem k, Nat.cast_add, Nat.cast_one]
        constructor
        · rintro (hk | hk) <;> omega
        · intro hk
          by_cases hkl : k = l
          · exact Or.inr hkl
          · left; omega
    · have hin : l ∈ ls := (hmem l).mpr ⟨hl1, by omega⟩
      rw [if_neg (by omega)]
      constructor
      · rw [hfin, Finset.insert_eq_of_mem (by simpa using hin), hcard]
      · intro k
        simp only [List.mem_append, List.mem_singleton, hmem k]
        constructor
        · rintro (hk | hk)
          · exact hk
          · subst hk; exact (hmem k).mp hin
        · intro hk; exact Or.inl hk

theorem in_order_of_index (ls : List Int)
    (h : ∀ i, i < ls.length → 1 ≤ ls.getD i 0 ∧
      (ls.getD i 0 = 1 ∨ ∃ j, j < i ∧ ls.getD j 0 = ls.getD i 0 - 1)) :
    ∀ pre l post, ls = pre ++ l :: post → 1 ≤ l ∧ (l = 1 ∨ l - 1 ∈ pre) := by
  intro pre l post hls
  have hi : pre.length < ls.length := by rw [hls]; simp
  have hget : ls.getD pre.length 0 = l := by
    rw [hls, List.getD_eq_getElem?_getD, List.getElem?_append_right (le_refl _)]
    simp
  obtain ⟨h1, h2⟩ := h pre.length hi
  rw [hget] at h1 h2
  refine ⟨h1, ?_⟩
  rcases h2 with h2 | ⟨j, hj, hjl⟩
  · exact Or.inl h2
  · right
    have : ls.getD j 0 = pre[j] := by
      rw [hls]
      simp [List.getD_eq_getElem?_getD, List.getElem?_append_left hj, hj]
    rw [← hjl, this]
    exact List.getElem_mem _

/-- C11 (amended): in the metadata loop a texture residual segment is read for
a view with a coded texture residual exactly when the number of segments read
so far is below the level of the view (or the level is negative, the
comparison being unsigned).  When the loop completes and the levels
of the views with a coded texture residual, in view order, are all at least 1
and each is 1 or one above the level of an earlier such view, the number of
segments read equals the number of distinct levels among these views. -/
theorem texture_residual_read_per_level (env : Collaborators) (d : decoder) (s : Disk)
    (d1 : decoder) (s1 : Disk) (levels1 : Nat)
    (hrun : read_metadata env (List.range d.LF.length) d s 0 = Except.ok (d1, s1, levels1))
    (horder : ∀ i, i < (residual_levels d1.LF).length →
      1 ≤ (residual_levels d1.LF).getD i 0 ∧
        ((residual_levels d1.LF).getD i 0 = 1 ∨
          ∃ j, j < i ∧ (residual_levels d1.LF).getD j 0 = (residual_levels d1.LF).getD i 0 - 1)) :
    d1.LF.length = d.LF.length ∧
      levels1 = segments_read (residual_levels d1.LF) 0 ∧
      (texture_residual_reads s1.log).length = (texture_residual_reads s.log).length + levels1 ∧
      levels1 = (residual_levels d1.LF).dedup.length := by
  rw [List.range_eq_range'] at hrun
  obtain ⟨h1, _, h3, h4⟩ := read_metadata_count env d.LF.length 0 d s 0 d1 s1 levels1
    (by omega) hrun
  rw [List.drop_zero, ← h1, List.take_length] at h3
  refine ⟨h1, h3, by omega, ?_⟩
  rw [h3, ← List.card_toFinset]
  exact (segments_read_in_order _ (in_order_of_index _ horder)).1

theorem texture_residual_read_per_level_witness :
    read_metadata (example_env false)
        (List.range (example_decoder two_level_residual_views).LF.length)
        (example_decoder two_level_residual_views) Disk.empty 0 =
        Except.ok (example_decoder two_level_residual_views,
          { Disk.empty with
            hevc_texture :=
              Function.update (Function.update Disk.empty.hevc_texture 0 (some [])) 2 (some [])
            log := [Event.read_texture_residual 0, Event.read_texture_residual 2] }, 2) ∧
      (∀ i, i < (residual_levels (example_decoder two_level_residual_views).LF).length →
        1 ≤ (residual_levels (example_decoder two_level_residual_views).LF).getD i 0 ∧
          ((residual_levels (example_decoder two_level_residual_views).LF).getD i 0 = 1 ∨
            ∃ j, j < i ∧ (residual_levels (example_decoder two_level_residual_views).LF).getD j 0 =
              (residual_levels (example_decoder two_level_residual_views).LF).getD i 0 - 1)) ∧
      (example_decoder two_level_residual_views).LF.length =
        (example_decoder two_level_residual_views).LF.length ∧
      2 = segments_read (residual_levels (example_decoder two_level_residual_views).LF) 0 ∧
      (texture_residual_reads
          [Event.read_texture_residual 0, Event.read_texture_residual 2]).length =
        (texture_residual_reads Disk.empty.log).length + 2 ∧
      2 = (residual_levels (example_decoder two_level_residual_views).LF).dedup.length :=
  ⟨rfl, by decide,
    texture_residual_read_per_level (example_env false)
      (example_decoder two_level_residual_views) Disk.empty
      (example_decoder two_level_residual_views)
      { Disk.empty with
        hevc_texture :=
          Function.update (Function.update Disk.empty.hevc_texture 0 (some [])) 2 (some [])
        log := [Event.read_texture_residual 0, Event.read_texture_residual 2] } 2
      rfl (by decide)⟩

/-- C11 (counterexample): two views of level 2, both with a coded texture
residual; the metadata loop reads a texture residual segment for each of them,
two segments for one level. -/
theorem level2_residual_counterexample :
    ∃ d1 s1 levels1,
      read_metadata (example_env false)
          (List.range (example_decoder level2_residual_views).LF.length)
          (example_decoder level2_residual_views) Disk.empty 0 =
          Except.ok (d1, s1, levels1) ∧
        d1.LF = level2_residual_views ∧
        texture_residual_reads s1.log = [0, 1] ∧
        (residual_levels d1.LF).dedup = [2] ∧
        (texture_residual_reads s1.log).length ≠ (residual_levels d1.LF).dedup.length :=
  ⟨_, _, _, rfl, rfl, rfl, by decide, by decide⟩

end WaSPR
